import Mathlib

/-!
# Chat link validation (`src/server/game/Chat/ChatLink.cpp`)

A shallow embedding of the link-grammar scanner `LinkExtractor::IsValidMessage`, of the
token readers it is built on and of the eight link decoders, followed by theorems about
them.

The message is a C string, so the stream never holds a NUL byte.  The stream operations
follow ISO C++ `[istream]` (C++11 and later): a sentry that finds the stream not `good()`
sets `failbit`, `peek()`/`get()` at the end of the buffer set `eofbit`, formatted
extraction skips leading white space, accepts a sign and (for hexadecimal) a `0x` prefix.
-/

namespace ChatLink

/-! ## The input stream -/

/-- State of the `std::istringstream`: the bytes already consumed (most recent first),
the bytes not yet read, and the two state bits the code tests. -/
structure IStream where
  before : List Char
  rest : List Char
  eofbit : Bool
  failbit : Bool
deriving DecidableEq, Repr

/-- Result of a call: it returned a value and left the stream in a state (`ok`), it
returned `false` (`reject`), it does not return (`diverge`: the loop ran out of fuel), or
its behaviour is undefined by the language (`undefined`). -/
inductive Res (α : Type) where
  | ok : α → IStream → Res α
  | reject : Res α
  | diverge : Res α
  | undefined : Res α
deriving DecidableEq, Repr

/-- Sequencing of two calls: the second runs only when the first returned `true`. -/
def Res.andThen {α β : Type} (r : Res α) (f : α → IStream → Res β) : Res β :=
  match r with
  | .ok a s => f a s
  | .reject => .reject
  | .diverge => .diverge
  | .undefined => .undefined

/-- The stream constructed by `std::istringstream(msg)` from a C string: the bytes up to
the first NUL. -/
def IStream.ofCStr (msg : List Char) : IStream :=
  { before := [], rest := msg.takeWhile (fun c => c != Char.ofNat 0), eofbit := false, failbit := false }

/-- The `good()` test. -/
def IStream.good (s : IStream) : Bool := !s.eofbit && !s.failbit

/-- The `fail()` test. -/
def IStream.fail (s : IStream) : Bool := s.failbit

/-- The `eof()` test. -/
def IStream.eof (s : IStream) : Bool := s.eofbit

/-- Conversion of the `int` returned by `peek()` to `char`: end of file (-1) becomes the
byte 0xFF. -/
def toChar : Option Char → Char
  | some c => c
  | none => Char.ofNat 255

/-- The call `peek()`: `none` is `traits::eof()`. -/
def IStream.peek (s : IStream) : Option Char × IStream :=
  if s.good then
    match s.rest with
    | c :: _ => (some c, s)
    | [] => (none, { s with eofbit := true })
  else (none, { s with failbit := true })

/-- The call `get()`, also `get(char&)`: `none` means no byte was extracted. -/
def IStream.get (s : IStream) : Option Char × IStream :=
  if s.good then
    match s.rest with
    | c :: r => (some c, { s with before := c :: s.before, rest := r })
    | [] => (none, { s with eofbit := true, failbit := true })
  else (none, { s with failbit := true })

/-- Loop of `ignore(n, delim)`: stops after `n` bytes, at end of input (third component
`true`), or after extracting the delimiter (`delim = none` is `traits::eof()`). -/
def ignoreLoop : Nat → Option Char → List Char → List Char → List Char × List Char × Bool
  | 0, _, b, r => (b, r, false)
  | _ + 1, _, b, [] => (b, [], true)
  | n + 1, d, b, c :: r =>
    if d = some c then (c :: b, r, false) else ignoreLoop n d (c :: b) r

/-- The call `ignore(n, delim)`. -/
def IStream.ignore (s : IStream) (n : Nat) (delim : Option Char) : IStream :=
  if s.good then
    match ignoreLoop n delim s.before s.rest with
    | (b, r, e) => { s with before := b, rest := r, eofbit := e }
  else { s with failbit := true }

/-- The call `tellg()`: `-1` when the stream has failed. -/
def IStream.tellg (s : IStream) : Int × IStream :=
  if s.good then ((s.before.length : Int), s) else (-1, { s with failbit := true })

/-- The call `unget()`: clears `eofbit`, then steps back one byte. -/
def IStream.unget (s : IStream) : IStream :=
  if !s.failbit then
    match s.before with
    | c :: b => { s with before := b, rest := c :: s.rest, eofbit := false }
    | [] => { s with eofbit := false, failbit := true }
  else { s with eofbit := false, failbit := true }

/-- Loop of `getline(buf, n, delim)` with `k = n - 1` bytes of room left: returns the
bytes stored, the new consumed and remaining input, whether the end of input was hit and
whether the delimiter was extracted. -/
def getlineLoop : Nat → Char → List Char → List Char → List Char →
    List Char × List Char × List Char × Bool × Bool
  | _, _, acc, b, [] => (acc.reverse, b, [], true, false)
  | 0, d, acc, b, c :: r =>
    if c = d then (acc.reverse, c :: b, r, false, true) else (acc.reverse, b, c :: r, false, false)
  | k + 1, d, acc, b, c :: r =>
    if c = d then (acc.reverse, c :: b, r, false, true) else getlineLoop k d (c :: acc) (c :: b) r

/-- The call `getline(buf, n, delim)`: returns the C string left in `buf`. -/
def IStream.getline (s : IStream) (n : Nat) (delim : Char) : List Char × IStream :=
  if s.good then
    match getlineLoop (n - 1) delim [] s.before s.rest with
    | (buf, b, r, e, d) =>
      (buf, { before := b, rest := r, eofbit := e,
              failbit := (!e && !d) || (buf.isEmpty && !d) })
  else ([], { s with failbit := true })

/-- White space of the "C" locale (`isspace`). -/
def isSpace (c : Char) : Bool :=
  c.toNat = 32 || (9 ≤ c.toNat && c.toNat ≤ 13)

/-- Value of a digit in the given base (10 or 16), as `num_get` reads it. -/
def digitVal (base : Nat) (c : Char) : Option Nat :=
  if 48 ≤ c.toNat ∧ c.toNat ≤ 57 then some (c.toNat - 48)
  else if base = 16 ∧ 97 ≤ c.toNat ∧ c.toNat ≤ 102 then some (c.toNat - 87)
  else if base = 16 ∧ 65 ≤ c.toNat ∧ c.toNat ≤ 70 then some (c.toNat - 55)
  else none

/-- The longest run of digits at the front of the input: accumulated value, number of
digits, and the new consumed and remaining input. -/
def readDigits (base : Nat) : List Char → List Char → Nat → Nat → Nat × Nat × List Char × List Char
  | [], b, acc, cnt => (acc, cnt, b, [])
  | c :: r, b, acc, cnt =>
    match digitVal base c with
    | some d => readDigits base r (c :: b) (acc * base + d) (cnt + 1)
    | none => (acc, cnt, b, c :: r)

/-- The number written by a string of digits, most significant first, continuing from
`acc`; `none` when some byte is not a digit of the base. -/
def digitsValueFrom (base : Nat) : Nat → List Char → Option Nat
  | acc, [] => some acc
  | acc, c :: r =>
    match digitVal base c with
    | some d => digitsValueFrom base (acc * base + d) r
    | none => none

/-- The number written by a non-empty string of digits. -/
def digitsValue (base : Nat) (ds : List Char) : Option Nat :=
  if ds = [] then none else digitsValueFrom base 0 ds

/-- Skipping of leading white space by the sentry of a formatted read. -/
def skipWs : List Char → List Char → List Char × List Char
  | [], b => (b, [])
  | c :: r, b => if isSpace c then skipWs r (c :: b) else (b, c :: r)

/-- The optional sign read by `num_get`: whether it is a minus, and the input after it. -/
def readSign : List Char → List Char → Bool × List Char × List Char
  | c :: r, b => if c = '-' then (true, c :: b, r) else if c = '+' then (false, c :: b, r) else (false, b, c :: r)
  | [], b => (false, b, [])

/-- The optional `0x`/`0X` prefix read by `num_get` in base 16. -/
def readHexPrefix (base : Nat) : List Char → List Char → List Char × List Char
  | c :: x :: r, b =>
    if base = 16 ∧ c = '0' ∧ (x = 'x' ∨ x = 'X') then (x :: c :: b, r) else (b, c :: x :: r)
  | r, b => (b, r)

/-- Formatted extraction `iss >> std::dec/std::hex >> res` into a 32-bit integer, signed
or unsigned: the value stored (`none` when the extraction failed) and the new state.  An
unsigned read of `-v` stores `2^32 - v`; a value out of range fails. -/
def IStream.extract (s : IStream) (base : Nat) (signed : Bool) : Option Int × IStream :=
  if s.good then
    let ws := skipWs s.rest s.before
    if ws.2.isEmpty then (none, { before := ws.1, rest := [], eofbit := true, failbit := true })
    else
      let sg := readSign ws.2 ws.1
      let px := readHexPrefix base sg.2.2 sg.2.1
      let dg := readDigits base px.2 px.1 0 0
      let v := dg.1
      let s1 : IStream :=
        { before := dg.2.2.1, rest := dg.2.2.2, eofbit := dg.2.2.2.isEmpty, failbit := false }
      if dg.2.1 = 0 then (none, { s1 with failbit := true })
      else if signed then
        if sg.1 then
          (if v ≤ 2147483648 then (some (-(v : Int)), s1) else (none, { s1 with failbit := true }))
        else
          (if v ≤ 2147483647 then (some (v : Int), s1) else (none, { s1 with failbit := true }))
      else
        if v ≤ 4294967295 then
          (some (if sg.1 then (((4294967296 - v) % 4294967296 : Nat) : Int) else (v : Int)), s1)
        else (none, { s1 with failbit := true })
  else (none, { s with failbit := true })

/-! ## Token readers -/

/-- `ReadUInt32`: decimal extraction, true iff neither `fail()` nor `eof()`. -/
def ReadUInt32 (s : IStream) : Res Nat :=
  match s.extract 10 false with
  | (some v, s') => if !s'.fail && !s'.eof then .ok v.toNat s' else .reject
  | (none, _) => .reject

/-- `ReadInt32`: decimal extraction, true iff neither `fail()` nor `eof()`. -/
def ReadInt32 (s : IStream) : Res Int :=
  match s.extract 10 true with
  | (some v, s') => if !s'.fail && !s'.eof then .ok v s' else .reject
  | (none, _) => .reject

/-- `ReadSkip`: the loop `while (c != term && c != '\0')` with `c = iss.peek()`
converted to `char`; `fuel` bounds the number of iterations. -/
def ReadSkip : Nat → IStream → Char → List Char → Res (List Char)
  | 0, _, _, _ => .diverge
  | fuel + 1, s, term, res =>
    let c := toChar s.peek.1
    let s1 := s.peek.2
    if c != term && c != Char.ofNat 0 then
      ReadSkip fuel (s1.ignore 1 none) term (res ++ [c])
    else .ok res s1

/-- `CheckDelimiter`: peeks, and consumes the byte when it is the delimiter. -/
def CheckDelimiter (s : IStream) (delimiter : Char) : Res Unit :=
  let c := toChar s.peek.1
  let s1 := s.peek.2
  if c != delimiter then .reject else .ok () (s1.ignore 1 none)

/-- `ReadHex`: hexadecimal extraction into a `uint32`; with `length ≠ 0` the number of
bytes consumed must be `length`. -/
def ReadHex (s : IStream) (length : Nat) : Res Nat :=
  let pos := s.tellg.1
  let s0 := s.tellg.2
  match s0.extract 16 false with
  | (v, s1) =>
    let pos' := s1.tellg.1
    let s2 := s1.tellg.2
    if length ≠ 0 ∧ ((pos' - pos) % 4294967296).toNat ≠ length then .reject
    else if !s2.fail && !s2.eof then
      match v with
      | some x => .ok x.toNat s2
      | none => .reject
    else .reject

/-- The macro `DELIMITER`. -/
def DELIMITER : Char := ':'

/-- The macro `PIPE_CHAR`. -/
def PIPE_CHAR : Char := '|'

/-! ## Repositories and constants

The entity stores, the enumerators and the colour constants are declared outside
`ChatLink.cpp`; they are parameters of the development. -/

/-- The fields of `ItemTemplate` the decoder reads. -/
structure ItemTemplate where
  Id : Nat
  Quality : Nat
  Flags3 : Nat
  Name : Nat → List Char

/-- The fields of `Quest` the decoder reads. -/
structure Quest where
  QuestId : Nat
  LogTitle : List Char

/-- The fields of `SpellInfo` the decoder reads; `TradeSpell` is
`HasAttribute(SPELL_ATTR0_TRADESPELL)`. -/
structure SpellInfo where
  Id : Nat
  TradeSpell : Bool
  SpellName : Nat → List Char

/-- The field of `SkillLineAbilityEntry` the decoder reads. -/
structure SkillLineAbilityEntry where
  SkillLine : Nat

/-- The field of `SkillLineEntry` the decoder reads. -/
structure SkillLineEntry where
  DisplayName : Nat → List Char

/-- The fields of `AchievementEntry` the decoder reads. -/
structure AchievementEntry where
  ID : Nat
  Title : Nat → List Char

/-- The field of `TalentEntry` the decoder reads. -/
structure TalentEntry where
  SpellID : Nat

/-- The field of `GlyphPropertiesEntry` the decoder reads. -/
structure GlyphPropertiesEntry where
  SpellID : Nat

/-- The eight link classes. -/
inductive LinkType where
  | item | quest | trade | talent | spell | enchant | achievement | glyph
deriving DecidableEq, Repr

/-- Everything `ChatLink.cpp` takes from other files: enumerators, colour constants, the
read-only stores, and which of the classes declared in `ChatLink.h` inherit
`SpellChatLink::ValidateName` (the others keep `ChatLink::ValidateName`). -/
structure World where
  LOCALE_enUS : Nat
  LOCALE_none : Nat
  TOTAL_LOCALES : Nat
  STRONG_MAX_LEVEL : Int
  MAX_ITEM_MODIFIERS : Nat
  MAX_ITEM_PROTO_SOCKETS : Nat
  ITEM_QUALITY_HEIRLOOM : Nat
  ITEM_FLAG3_DISPLAY_AS_HEIRLOOM : Nat
  ITEM_FLAG3_HIDE_NAME_SUFFIX : Nat
  ItemQualityColors : Nat → Nat
  CHAT_LINK_COLOR_SPELL : Nat
  CHAT_LINK_COLOR_ACHIEVEMENT : Nat
  CHAT_LINK_COLOR_TRADE : Nat
  CHAT_LINK_COLOR_TALENT : Nat
  CHAT_LINK_COLOR_ENCHANT : Nat
  CHAT_LINK_COLOR_GLYPH : Nat
  GetItemTemplate : Nat → Option ItemTemplate
  GetItemBonusList : Int → Bool
  GetQuestTemplate : Nat → Option Quest
  GetQuestLocale : Nat → Option (List (List Char))
  GetSpellInfo : Nat → Option SpellInfo
  GetSkillLineAbilityMapBounds : Nat → List (Option SkillLineAbilityEntry)
  SkillLineLookup : Nat → Option SkillLineEntry
  AchievementLookup : Nat → Option AchievementEntry
  TalentLookup : Nat → Option TalentEntry
  GlyphPropertiesLookup : Nat → Option GlyphPropertiesEntry
  inheritsSpellName : LinkType → Bool

/-! ## Parsed links -/

/-- Members of `ItemChatLink` set by `Initialize`. -/
structure ItemChatLink where
  item : ItemTemplate
  enchantId : Int
  gemItemId : List Int
  reporterLevel : Int
  reporterSpec : Int
  context : Int
  bonusListIDs : List Int
  modifiers : List (Int × Int)
  gemBonusListIDs : List (List Int)
  useEnchantId : Int

/-- Members of `QuestChatLink`. -/
structure QuestChatLink where
  quest : Quest
  questLevel : Int
  minLevel : Int
  maxLevel : Int
  scalingFaction : Int

/-- Members of `AchievementChatLink`. -/
structure AchievementChatLink where
  achievement : AchievementEntry
  guid : Nat
  data : List Nat

/-- Members of `TradeChatLink`. -/
structure TradeChatLink where
  spell : SpellInfo
  minSkillLevel : Int
  maxSkillLevel : Int
  guid : Nat
  base64 : List Char

/-- Members of `TalentChatLink`. -/
structure TalentChatLink where
  talentId : Nat
  spell : SpellInfo
  rankId : Int

/-- Members of `GlyphChatLink`. -/
structure GlyphChatLink where
  slotId : Nat
  glyph : GlyphPropertiesEntry
  spell : SpellInfo

/-- The decoder object behind a `ChatLink*`. -/
inductive LinkData where
  | item : ItemChatLink → LinkData
  | quest : QuestChatLink → LinkData
  | spell : SpellInfo → LinkData
  | achievement : AchievementChatLink → LinkData
  | trade : TradeChatLink → LinkData
  | talent : TalentChatLink → LinkData
  | enchant : SpellInfo → LinkData
  | glyph : GlyphChatLink → LinkData

/-- A `ChatLink` object: colour, decoded fields, caption (`_name`) and bounds. -/
structure Link where
  color : Nat
  data : LinkData
  name : List Char
  startPos : Int
  endPos : Int

/-! ## The item decoder -/

/-- `ItemChatLink::HasValue`: pure lookahead through `peek()`. -/
def HasValue (s : IStream) : Bool × IStream :=
  let next := toChar s.peek.1
  (next != DELIMITER && next != PIPE_CHAR, s.peek.2)

/-- The statement `if (HasValue(iss) && !ReadInt32(iss, x)) return false;`: the value of
`x` afterwards, `x0` when the field is omitted. -/
def optInt32 (s : IStream) (x0 : Int) : Res Int :=
  if (HasValue s).1 then ReadInt32 (HasValue s).2 else .ok x0 (HasValue s).2

/-- The statement `if (HasValue(iss) && !ReadUInt32(iss, x)) return false;`. -/
def optUInt32 (s : IStream) (x0 : Nat) : Res Nat :=
  if (HasValue s).1 then ReadUInt32 (HasValue s).2 else .ok x0 (HasValue s).2

/-- The loop reading `n` bonus-list ids, each after a delimiter and each resolved in the
bonus-list catalog. -/
def readBonusListIDs (w : World) : Nat → IStream → Res (List Int)
  | 0, s => .ok [] s
  | n + 1, s =>
    (CheckDelimiter s DELIMITER).andThen fun _ s =>
    (ReadInt32 s).andThen fun id s =>
    if w.GetItemBonusList id then
      (readBonusListIDs w n s).andThen fun ids s => .ok (id :: ids) s
    else .reject

/-- The loop reading `n` modifier pairs `type:value`. -/
def readModifiers (w : World) : Nat → IStream → Res (List (Int × Int))
  | 0, s => .ok [] s
  | n + 1, s =>
    (CheckDelimiter s DELIMITER).andThen fun _ s =>
    (ReadInt32 s).andThen fun type s =>
    if type > (w.MAX_ITEM_MODIFIERS : Int) then .reject else
    (CheckDelimiter s DELIMITER).andThen fun _ s =>
    (ReadInt32 s).andThen fun id s =>
    (readModifiers w n s).andThen fun ms s => .ok ((type, id) :: ms) s

/-- A bonus-list count (optional, at most 16) and that many ids. -/
def readCountedBonusList (w : World) (s : IStream) : Res (List Int) :=
  (optUInt32 s 0).andThen fun numBonusListIDs s =>
  if numBonusListIDs > 16 then .reject else readBonusListIDs w numBonusListIDs s

/-- The loop over the gem sockets. -/
def readGemBonusLists (w : World) : Nat → IStream → Res (List (List Int))
  | 0, s => .ok [] s
  | n + 1, s =>
    (CheckDelimiter s DELIMITER).andThen fun _ s =>
    (readCountedBonusList w s).andThen fun ids s =>
    (readGemBonusLists w n s).andThen fun rest s => .ok (ids :: rest) s

/-- The creator guid string: `getline` into a 128-byte buffer, then `unget`. -/
def readCreator (s : IStream) : Res Unit :=
  if (HasValue s).1 then
    let g := (HasValue s).2.getline 128 DELIMITER
    if g.2.fail then .reject else .ok () g.2.unget
  else .ok () (HasValue s).2

/-- The `ItemChatLink` object before `Initialize` has read a field: every numeric member
zero, every list empty. -/
def ItemChatLink.new (item : ItemTemplate) : ItemChatLink :=
  { item := item, enchantId := 0, gemItemId := [0, 0, 0], reporterLevel := 0, reporterSpec := 0,
    context := 0, bonusListIDs := [], modifiers := [], gemBonusListIDs := [], useEnchantId := 0 }

/-- The quality whose colour an item link must state (lines 130-132). -/
def ItemChatLink.colorQuality (w : World) (item : ItemTemplate) : Nat :=
  if item.Flags3 &&& w.ITEM_FLAG3_DISPLAY_AS_HEIRLOOM ≠ 0 then w.ITEM_QUALITY_HEIRLOOM
  else item.Quality

/-- Lines 140-242 of `ItemChatLink::Initialize`: the eleven compacted fields from the
enchant id to the context, each after its delimiter, and the delimiter before the
bonus-list count. -/
def ItemChatLink.readFixed (l : ItemChatLink) (s : IStream) : Res ItemChatLink :=
  (CheckDelimiter s DELIMITER).andThen fun _ s =>
  (optInt32 s l.enchantId).andThen fun enchantId s =>
  (CheckDelimiter s DELIMITER).andThen fun _ s =>
  (optInt32 s (l.gemItemId.getD 0 0)).andThen fun gem0 s =>
  (CheckDelimiter s DELIMITER).andThen fun _ s =>
  (optInt32 s (l.gemItemId.getD 1 0)).andThen fun gem1 s =>
  (CheckDelimiter s DELIMITER).andThen fun _ s =>
  (optInt32 s (l.gemItemId.getD 2 0)).andThen fun gem2 s =>
  (CheckDelimiter s DELIMITER).andThen fun _ s =>
  (optInt32 s 0).andThen fun zero s =>
  (CheckDelimiter s DELIMITER).andThen fun _ s =>
  (optInt32 s zero).andThen fun zero s =>
  (CheckDelimiter s DELIMITER).andThen fun _ s =>
  (optInt32 s zero).andThen fun _ s =>
  (CheckDelimiter s DELIMITER).andThen fun _ s =>
  (optInt32 s l.reporterLevel).andThen fun reporterLevel s =>
  (CheckDelimiter s DELIMITER).andThen fun _ s =>
  (optInt32 s l.reporterSpec).andThen fun reporterSpec s =>
  (CheckDelimiter s DELIMITER).andThen fun _ s =>
  (optInt32 s 0).andThen fun _ s =>
  (CheckDelimiter s DELIMITER).andThen fun _ s =>
  (optInt32 s l.context).andThen fun context s =>
  (CheckDelimiter s DELIMITER).andThen fun _ s =>
  .ok { l with enchantId := enchantId, gemItemId := [gem0, gem1, gem2],
               reporterLevel := reporterLevel, reporterSpec := reporterSpec, context := context } s

/-- Lines 280-325: the delimiter, the modifiers count (optional, at most
`MAX_ITEM_MODIFIERS`) and that many pairs. -/
def ItemChatLink.readModifierList (w : World) (s : IStream) : Res (List (Int × Int)) :=
  (CheckDelimiter s DELIMITER).andThen fun _ s =>
  (optUInt32 s 0).andThen fun numModifiers s =>
  if numModifiers > w.MAX_ITEM_MODIFIERS then .reject else readModifiers w numModifiers s

/-- Lines 368-392: the delimiter, the creator string, the delimiter and the optional
use-enchant id. -/
def ItemChatLink.readTail (l : ItemChatLink) (s : IStream) : Res ItemChatLink :=
  (CheckDelimiter s DELIMITER).andThen fun _ s =>
  (readCreator s).andThen fun _ s =>
  (CheckDelimiter s DELIMITER).andThen fun _ s =>
  (optInt32 s l.useEnchantId).andThen fun useEnchantId s =>
  .ok { l with useEnchantId := useEnchantId } s

/-- Lines 140-392 of `ItemChatLink::Initialize`: everything after the colour check. -/
def ItemChatLink.readFields (w : World) (item : ItemTemplate) (s : IStream) : Res ItemChatLink :=
  (ItemChatLink.readFixed (ItemChatLink.new item) s).andThen fun l s =>
  (readCountedBonusList w s).andThen fun bonusListIDs s =>
  (ItemChatLink.readModifierList w s).andThen fun modifiers s =>
  (readGemBonusLists w w.MAX_ITEM_PROTO_SOCKETS s).andThen fun gemBonusListIDs s =>
  ItemChatLink.readTail { l with bonusListIDs := bonusListIDs, modifiers := modifiers,
                                 gemBonusListIDs := gemBonusListIDs } s

/-- `ItemChatLink::Initialize`, for a link of colour `color`. -/
def ItemChatLink.Initialize (w : World) (color : Nat) (s : IStream) : Res ItemChatLink :=
  (ReadUInt32 s).andThen fun itemEntry s =>
  match w.GetItemTemplate itemEntry with
  | none => .reject
  | some item =>
    if color ≠ w.ItemQualityColors (ItemChatLink.colorQuality w item) then .reject
    else ItemChatLink.readFields w item s

/-- `ItemChatLink::FormatName`. -/
def ItemChatLink.FormatName (w : World) (item : ItemTemplate) (index : Nat)
    (suffixStrings : Option (Nat → List Char)) : List Char :=
  if item.Flags3 &&& w.ITEM_FLAG3_HIDE_NAME_SUFFIX = 0 then
    match suffixStrings with
    | some suffix => item.Name index ++ ' ' :: suffix index
    | none => item.Name index
  else item.Name index

/-- The locales `first, first + 1, ...` below `TOTAL_LOCALES` (`n` of them at most). -/
def localesFrom (first : Nat) : Nat → List Nat
  | 0 => []
  | n + 1 => first :: localesFrom (first + 1) n

/-- The range of the loops `for (locale = first; locale < TOTAL_LOCALES; ++locale)`. -/
def locales (w : World) (first : Nat) : List Nat := localesFrom first (w.TOTAL_LOCALES - first)

/-- `ItemChatLink::ValidateName`: `suffixStrings` is the null pointer. -/
def ItemChatLink.ValidateName (w : World) (item : ItemTemplate) (buffer : List Char) : Bool :=
  (locales w w.LOCALE_enUS).any fun locale =>
    locale != w.LOCALE_none && ItemChatLink.FormatName w item locale none == buffer

/-! ## The other decoders -/

/-- `QuestChatLink::Initialize`; the colour is not looked at. -/
def QuestChatLink.Initialize (w : World) (_color : Nat) (s : IStream) : Res QuestChatLink :=
  (ReadUInt32 s).andThen fun questId s =>
  match w.GetQuestTemplate questId with
  | none => .reject
  | some quest =>
    (CheckDelimiter s DELIMITER).andThen fun _ s =>
    (ReadInt32 s).andThen fun questLevel s =>
    if questLevel ≥ w.STRONG_MAX_LEVEL then .reject else
    (ReadInt32 s).andThen fun minLevel s =>
    (ReadInt32 s).andThen fun maxLevel s =>
    (ReadInt32 s).andThen fun scalingFaction s =>
    .ok { quest := quest, questLevel := questLevel, minLevel := minLevel,
          maxLevel := maxLevel, scalingFaction := scalingFaction } s

/-- `QuestChatLink::ValidateName`.  The locale vector has at most `TOTAL_LOCALES`
entries, so the `uint8` index of the loop reaches its size. -/
def QuestChatLink.ValidateName (w : World) (quest : Quest) (buffer : List Char) : Bool :=
  if quest.LogTitle == buffer then true
  else
    match w.GetQuestLocale quest.QuestId with
    | some logTitle => logTitle.any fun t => t == buffer
    | none => false

/-- `SpellChatLink::Initialize`. -/
def SpellChatLink.Initialize (w : World) (color : Nat) (s : IStream) : Res SpellInfo :=
  if color ≠ w.CHAT_LINK_COLOR_SPELL then .reject else
  (ReadUInt32 s).andThen fun spellId s =>
  match w.GetSpellInfo spellId with
  | none => .reject
  | some spell => .ok spell s

/-- The loop of `SpellChatLink::ValidateName` that removes the profession prefix: at the
first locale whose non-empty display name starts the buffer,
`memmove(buffer, buffer + len + 2, strlen(buffer) - len - 2 + 1)` in `uint32` arithmetic.
When the buffer is exactly the display name the length wraps to `2^32 - 1` and the move
runs over the 256-byte array (`none`); when one byte follows the name the length is 0
and the buffer is unchanged. -/
def stripProfession (displayName : Nat → List Char) : List Nat → List Char → Option (List Char)
  | [], buffer => some buffer
  | i :: is, buffer =>
    if (displayName i).length > 0 ∧ (displayName i).isPrefixOf buffer then
      if buffer.length = (displayName i).length then none
      else if buffer.length = (displayName i).length + 1 then some buffer
      else some (buffer.drop ((displayName i).length + 2))
    else stripProfession displayName is buffer

/-- The final loop of `SpellChatLink::ValidateName`: some non-empty localized name
equals the buffer. -/
def spellNameMatches (w : World) (spell : SpellInfo) (buffer : List Char) : Bool :=
  (locales w 0).any fun i => !(spell.SpellName i).isEmpty && spell.SpellName i == buffer

/-- The skill line of a trade spell, as `SpellChatLink::ValidateName` looks it up: the
first entry of the skill-line-ability bounds, then the skill line store; `none` on each
of the three paths that log "not found" and return `false`. -/
def SpellChatLink.skillLine (w : World) (spell : SpellInfo) : Option SkillLineEntry :=
  match w.GetSkillLineAbilityMapBounds spell.Id with
  | [] => none
  | none :: _ => none
  | some skillInfo :: _ => w.SkillLineLookup skillInfo.SkillLine

/-- `SpellChatLink::ValidateName`; `none` is undefined behaviour. -/
def SpellChatLink.ValidateName (w : World) (spell : SpellInfo) (buffer : List Char) : Option Bool :=
  if spell.TradeSpell then
    match SpellChatLink.skillLine w spell with
    | none => some false
    | some skillLine =>
      match stripProfession skillLine.DisplayName (locales w w.LOCALE_enUS) buffer with
      | none => none
      | some buffer => some (spellNameMatches w spell buffer)
  else some (spellNameMatches w spell buffer)

/-- The loop reading `n` achievement progress values, each after a delimiter. -/
def readProgress : Nat → IStream → Res (List Nat)
  | 0, s => .ok [] s
  | n + 1, s =>
    (CheckDelimiter s DELIMITER).andThen fun _ s =>
    (ReadUInt32 s).andThen fun d s =>
    (readProgress n s).andThen fun ds s => .ok (d :: ds) s

/-- `AchievementChatLink::Initialize`. -/
def AchievementChatLink.Initialize (w : World) (color : Nat) (s : IStream) :
    Res AchievementChatLink :=
  if color ≠ w.CHAT_LINK_COLOR_ACHIEVEMENT then .reject else
  (ReadUInt32 s).andThen fun achievementId s =>
  match w.AchievementLookup achievementId with
  | none => .reject
  | some achievement =>
    (CheckDelimiter s DELIMITER).andThen fun _ s =>
    (ReadHex s 0).andThen fun guid s =>
    (readProgress 8 s).andThen fun data s =>
    .ok { achievement := achievement, guid := guid, data := data } s

/-- `AchievementChatLink::ValidateName`. -/
def AchievementChatLink.ValidateName (w : World) (achievement : AchievementEntry)
    (buffer : List Char) : Bool :=
  (locales w w.LOCALE_enUS).any fun locale =>
    locale != w.LOCALE_none && achievement.Title locale == buffer

/-- `TradeChatLink::Initialize`; `fuel` bounds the loop of `ReadSkip`. -/
def TradeChatLink.Initialize (w : World) (fuel : Nat) (color : Nat) (s : IStream) :
    Res TradeChatLink :=
  if color ≠ w.CHAT_LINK_COLOR_TRADE then .reject else
  (ReadUInt32 s).andThen fun spellId s =>
  match w.GetSpellInfo spellId with
  | none => .reject
  | some spell =>
    (CheckDelimiter s DELIMITER).andThen fun _ s =>
    (ReadInt32 s).andThen fun minSkillLevel s =>
    (CheckDelimiter s DELIMITER).andThen fun _ s =>
    (ReadInt32 s).andThen fun maxSkillLevel s =>
    (CheckDelimiter s DELIMITER).andThen fun _ s =>
    (ReadHex s 0).andThen fun guid s =>
    (ReadSkip fuel s PIPE_CHAR []).andThen fun base64 s =>
    .ok { spell := spell, minSkillLevel := minSkillLevel, maxSkillLevel := maxSkillLevel,
          guid := guid, base64 := base64 } s

/-- `TalentChatLink::Initialize`. -/
def TalentChatLink.Initialize (w : World) (color : Nat) (s : IStream) : Res TalentChatLink :=
  if color ≠ w.CHAT_LINK_COLOR_TALENT then .reject else
  (ReadUInt32 s).andThen fun talentId s =>
  match w.TalentLookup talentId with
  | none => .reject
  | some talentInfo =>
    match w.GetSpellInfo talentInfo.SpellID with
    | none => .reject
    | some spell =>
      (CheckDelimiter s DELIMITER).andThen fun _ s =>
      (ReadInt32 s).andThen fun rankId s =>
      .ok { talentId := talentId, spell := spell, rankId := rankId } s

/-- `EnchantmentChatLink::Initialize`. -/
def EnchantmentChatLink.Initialize (w : World) (color : Nat) (s : IStream) : Res SpellInfo :=
  if color ≠ w.CHAT_LINK_COLOR_ENCHANT then .reject else
  (ReadUInt32 s).andThen fun spellId s =>
  match w.GetSpellInfo spellId with
  | none => .reject
  | some spell => .ok spell s

/-- `GlyphChatLink::Initialize`. -/
def GlyphChatLink.Initialize (w : World) (color : Nat) (s : IStream) : Res GlyphChatLink :=
  if color ≠ w.CHAT_LINK_COLOR_GLYPH then .reject else
  (ReadUInt32 s).andThen fun slotId s =>
  (CheckDelimiter s DELIMITER).andThen fun _ s =>
  (ReadUInt32 s).andThen fun glyphId s =>
  match w.GlyphPropertiesLookup glyphId with
  | none => .reject
  | some glyph =>
    match w.GetSpellInfo glyph.SpellID with
    | none => .reject
    | some spell => .ok { slotId := slotId, glyph := glyph, spell := spell } s

/-! ## The link extractor -/

/-- The array `validSequence`, "cHhhr". -/
def validSequence : List Char := ['c', 'H', 'h', 'h', 'r']

/-- The local variables of `LinkExtractor::IsValidMessage` and the member `_links`:
`seq` is `validSequenceIterator - validSequence`, `link` the object behind the pointer
`link`, and `links` the objects of `_links` the pointer no longer refers to. -/
structure Scan where
  iss : IStream
  seq : Nat
  startPos : Int
  color : Nat
  link : Option Link
  links : List Link

/-- Outcome of one pass through the body of the `while` loop. -/
inductive Iter where
  | next : Scan → Iter
  | stop : Scan → Iter
  | fail : Iter
  | diverge : Iter
  | undefined : Iter

/-- The chain of `strcmp(buffer, ...)` tests of the `H` command. -/
def linkTypeOf (buffer : List Char) : Option LinkType :=
  if buffer = "item".toList then some .item
  else if buffer = "quest".toList then some .quest
  else if buffer = "trade".toList then some .trade
  else if buffer = "talent".toList then some .talent
  else if buffer = "spell".toList then some .spell
  else if buffer = "enchant".toList then some .enchant
  else if buffer = "achievement".toList then some .achievement
  else if buffer = "glyph".toList then some .glyph
  else none

/-- The virtual call `link->Initialize(_iss)` on a new object of the given class, after
`SetColor(color)`. -/
def Initialize (w : World) (fuel : Nat) (t : LinkType) (color : Nat) (s : IStream) : Res LinkData :=
  match t with
  | .item => (ItemChatLink.Initialize w color s).andThen fun d s => .ok (.item d) s
  | .quest => (QuestChatLink.Initialize w color s).andThen fun d s => .ok (.quest d) s
  | .trade => (TradeChatLink.Initialize w fuel color s).andThen fun d s => .ok (.trade d) s
  | .talent => (TalentChatLink.Initialize w color s).andThen fun d s => .ok (.talent d) s
  | .spell => (SpellChatLink.Initialize w color s).andThen fun d s => .ok (.spell d) s
  | .enchant => (EnchantmentChatLink.Initialize w color s).andThen fun d s => .ok (.enchant d) s
  | .achievement => (AchievementChatLink.Initialize w color s).andThen fun d s => .ok (.achievement d) s
  | .glyph => (GlyphChatLink.Initialize w color s).andThen fun d s => .ok (.glyph d) s

/-- The `ValidateName` a class declared in `ChatLink.h` resolves to when it does not
define its own: the one of `SpellChatLink` if it inherits it, else `ChatLink::ValidateName`. -/
def inheritedValidateName (w : World) (t : LinkType) (spell : SpellInfo) (buffer : List Char) :
    Option Bool :=
  if w.inheritsSpellName t then SpellChatLink.ValidateName w spell buffer else some true

/-- The virtual call `link->ValidateName(buffer, context)`; `none` is undefined
behaviour. -/
def ValidateName (w : World) (d : LinkData) (buffer : List Char) : Option Bool :=
  match d with
  | .item l => some (ItemChatLink.ValidateName w l.item buffer)
  | .quest l => some (QuestChatLink.ValidateName w l.quest buffer)
  | .spell spell => SpellChatLink.ValidateName w spell buffer
  | .achievement l => some (AchievementChatLink.ValidateName w l.achievement buffer)
  | .trade l => inheritedValidateName w .trade l.spell buffer
  | .talent l => inheritedValidateName w .talent l.spell buffer
  | .enchant spell => inheritedValidateName w .enchant spell buffer
  | .glyph l => inheritedValidateName w .glyph l.spell buffer

/-- The `switch (commandChar)` of the loop body. -/
def command (w : World) (fuel : Nat) (commandChar : Char) (st : Scan) : Iter :=
  if commandChar = 'c' then
    match ReadHex st.iss 8 with
    | .ok color s => .next { st with iss := s, color := color }
    | .reject => .fail
    | .diverge => .diverge
    | .undefined => .undefined
  else if commandChar = 'H' then
    let g := st.iss.getline 256 DELIMITER
    if g.2.eof then .fail
    else
      match linkTypeOf g.1 with
      | none => .fail
      | some t =>
        match Initialize w fuel t st.color g.2 with
        | .ok d s =>
          .next { st with iss := s,
                          link := some { color := st.color, data := d, name := [], startPos := 0, endPos := 0 },
                          links := st.links ++ st.link.toList }
        | .reject => .fail
        | .diverge => .diverge
        | .undefined => .undefined
  else if commandChar = 'h' then
    if validSequence.get? st.seq = some 'h' then
      let b := st.iss.get
      if b.1 ≠ some '[' then .fail
      else
        let g := b.2.getline 256 ']'
        if g.2.eof then .fail
        else
          match st.link with
          | none => .fail
          | some link =>
            match ValidateName w link.data g.1 with
            | none => .undefined
            | some false => .fail
            | some true => .next { st with iss := g.2, link := some { link with name := g.1 } }
    else .next st
  else if commandChar = 'r' then
    match st.link with
    | some link =>
      .next { st with iss := st.iss.tellg.2,
                      link := some { link with startPos := st.startPos, endPos := st.iss.tellg.1 } }
    | none => .next st
  else if commandChar = '|' then .next st
  else .fail

/-- The body of the `while (!_iss.eof())` loop. -/
def body (w : World) (fuel : Nat) (st : Scan) : Iter :=
  let pre : Option Scan :=
    if st.seq = 0 then
      let i1 := st.iss.ignore 255 (some PIPE_CHAR)
      some { st with link := none, links := st.links ++ st.link.toList,
                     iss := i1.tellg.2, startPos := i1.tellg.1 - 1 }
    else if st.iss.get.1 ≠ some PIPE_CHAR then none
    else some { st with iss := st.iss.get.2 }
  match pre with
  | none => .fail
  | some st1 =>
    let pk := st1.iss.peek
    if pk.1 = some (Char.ofNat 0) then .fail
    else if pk.2.eof then .stop { st1 with iss := pk.2 }
    else
      match pk.2.get with
      | (none, _) => .undefined
      | (some commandChar, i2) =>
        if commandChar ≠ PIPE_CHAR then
          if validSequence.get? st1.seq = some commandChar then
            command w fuel commandChar
              { st1 with iss := i2, seq := if st1.seq = 4 then 0 else st1.seq + 1 }
          else .fail
        else if st1.seq ≠ 0 then .fail
        else command w fuel commandChar { st1 with iss := i2 }

/-- The test after the loop: every opened sequence was closed.  On acceptance the
result is the list `_links`. -/
def finish (st : Scan) : Res (List Link) :=
  if st.seq ≠ 0 then .reject else .ok (st.links ++ st.link.toList) st.iss

/-- The `while (!_iss.eof())` loop, at most `fuel` passes. -/
def scanLoop (w : World) : Nat → Scan → Res (List Link)
  | 0, _ => .diverge
  | fuel + 1, st =>
    if st.iss.eof then finish st
    else
      match body w fuel st with
      | .next st1 => scanLoop w fuel st1
      | .stop st1 => finish st1
      | .fail => .reject
      | .diverge => .diverge
      | .undefined => .undefined

/-- The local variables at the start of `IsValidMessage`. -/
def initScan (iss : IStream) : Scan :=
  { iss := iss, seq := 0, startPos := 0, color := 0, link := none, links := [] }

/-- `LinkExtractor::IsValidMessage` on the extractor constructed from the C string
`msg`: `ok links _` is `true` with the links recorded, `reject` is `false`. -/
def IsValidMessage (w : World) (fuel : Nat) (msg : List Char) : Res (List Link) :=
  scanLoop w fuel (initScan (IStream.ofCStr msg))

/-- The verdict as a Boolean: `some true` accepted, `some false` rejected, `none` no
verdict. -/
def verdict {α : Type} : Res α → Option Bool
  | .ok _ _ => some true
  | .reject => some false
  | .diverge => none
  | .undefined => none

/-! ## A concrete world for the examples -/

/-- The spell 21563, `Command` in every locale, without the trade-spell attribute. -/
def spellCommand : SpellInfo :=
  { Id := 21563, TradeSpell := false, SpellName := fun _ => "Command".toList }

/-- The recipe spell 3919, `Rough Dynamite`, with the trade-spell attribute. -/
def spellRoughDynamite : SpellInfo :=
  { Id := 3919, TradeSpell := true, SpellName := fun _ => "Rough Dynamite".toList }

/-- The profession spell 4037, `Engineering`. -/
def spellEngineering : SpellInfo :=
  { Id := 4037, TradeSpell := false, SpellName := fun _ => "Engineering".toList }

/-- The item 124382, `Edict of Argus`, of epic quality. -/
def itemEdict : ItemTemplate :=
  { Id := 124382, Quality := 4, Flags3 := 0, Name := fun _ => "Edict of Argus".toList }

/-- The quest 51101, `The Wounded King`. -/
def questWoundedKing : Quest := { QuestId := 51101, LogTitle := "The Wounded King".toList }

/-- A recipe spell with the trade-spell attribute and no skill line ability. -/
def spellNoSkillLine : SpellInfo :=
  { Id := 7, TradeSpell := true, SpellName := fun _ => "Smelt".toList }

/-- A world with the enumerators and colours of the game sources and a few entities. -/
def demoWorld : World where
  LOCALE_enUS := 0
  LOCALE_none := 9
  TOTAL_LOCALES := 12
  STRONG_MAX_LEVEL := 255
  MAX_ITEM_MODIFIERS := 24
  MAX_ITEM_PROTO_SOCKETS := 3
  ITEM_QUALITY_HEIRLOOM := 7
  ITEM_FLAG3_DISPLAY_AS_HEIRLOOM := 0x10000
  ITEM_FLAG3_HIDE_NAME_SUFFIX := 0x200
  ItemQualityColors := fun q =>
    [0xff9d9d9d, 0xffffffff, 0xff1eff00, 0xff0070dd, 0xffa335ee, 0xffff8000, 0xffe6cc80,
      0xff00ccff].getD q 0
  CHAT_LINK_COLOR_SPELL := 0xff71d5ff
  CHAT_LINK_COLOR_ACHIEVEMENT := 0xffffff00
  CHAT_LINK_COLOR_TRADE := 0xffffd000
  CHAT_LINK_COLOR_TALENT := 0xff4e96f7
  CHAT_LINK_COLOR_ENCHANT := 0xffffd000
  CHAT_LINK_COLOR_GLYPH := 0xff66bbff
  GetItemTemplate := fun id => if id = 124382 then some itemEdict else none
  GetItemBonusList := fun id => id = 42 || id = 562 || id = 565 || id = 567
  GetQuestTemplate := fun id => if id = 51101 then some questWoundedKing else none
  GetQuestLocale := fun _ => none
  GetSpellInfo := fun id =>
    if id = 21563 then some spellCommand
    else if id = 3919 then some spellRoughDynamite
    else if id = 4037 then some spellEngineering
    else none
  GetSkillLineAbilityMapBounds := fun id => if id = 3919 then [some { SkillLine := 202 }] else []
  SkillLineLookup := fun id =>
    if id = 202 then some { DisplayName := fun _ => "Engineering".toList } else none
  AchievementLookup := fun id =>
    if id = 546 then some { ID := 546, Title := fun _ => "Safe Deposit".toList } else none
  TalentLookup := fun id => if id = 2232 then some { SpellID := 21563 } else none
  GlyphPropertiesLookup := fun id => if id = 762 then some { SpellID := 21563 } else none
  inheritsSpellName := fun _ => true

/-- The fields of an item link whose bonus-list count is 17, followed by 17 ids. -/
def itemOverFields : List Char :=
  "124382::::::::::::17:42:42:42:42:42:42:42:42:42:42:42:42:42:42:42:42:42|".toList

/-- A trade link whose trailing blob is not closed before the end of the message. -/
def tradeUnclosed : List Char := "|cffffd000|Htrade:4037:1:150:1:6AAAA".toList

/-- The source's example of a trade link, with a shorter blob. -/
def tradeLink : List Char := "|cffffd000|Htrade:4037:1:150:1:6AAAA|h[Engineering]|h|r".toList

/-- An item link with a creator string `abc`, without the delimiter that ends it. -/
def itemCreatorLink : List Char :=
  "|cffa335ee|Hitem:124382:::::::::::::::::abc|h[Edict of Argus]|h|r".toList

/-- A spell link captioned with the name of an item. -/
def spellEdictLink : List Char := "|cff71d5ff|Hspell:21563|h[Edict of Argus]|h|r".toList

/-- The spans `(_startPos, _endPos)` of the links recorded by an accepted scan. -/
def linkSpans : Res (List Link) → Option (List (Int × Int))
  | .ok links _ => some (links.map fun l => (l.startPos, l.endPos))
  | _ => none

/-- The byte that `_iss.get(commandChar)` reads in a pass of the loop (lines 810-834),
when the pass gets that far. -/
def readCommandChar (st : Scan) : Option Char :=
  let iss1 :=
    if st.seq = 0 then (st.iss.ignore 255 (some PIPE_CHAR)).tellg.2 else st.iss.get.2
  iss1.peek.2.get.1

/-- The command letters of the passes of the loop that ran to their end, in order; the
escaped separator `||` is not a command. -/
def commandLetters (w : World) : Nat → Scan → List Char
  | 0, _ => []
  | fuel + 1, st =>
    if st.iss.eof then []
    else
      match body w fuel st with
      | .next st1 =>
        match readCommandChar st with
        | some c =>
          if c ≠ PIPE_CHAR then c :: commandLetters w fuel st1 else commandLetters w fuel st1
        | none => commandLetters w fuel st1
      | _ => []

/-- The eight strings the `H` command compares the tag with. -/
def linkTags : List (List Char) :=
  ["item".toList, "quest".toList, "trade".toList, "talent".toList, "spell".toList,
   "enchant".toList, "achievement".toList, "glyph".toList]

/-- Plain text of 256 bytes, without a separator. -/
def longText : List Char := List.replicate 256 'a'

/-- A spell link whose `c` follows 255 bytes of plain text, without a separator. -/
def unseparatedLink : List Char :=
  List.replicate 255 'a' ++ "cff71d5ff|Hspell:21563|h[Command]|h|r".toList

/-- The example of an item link in the comment above `ItemChatLink::Initialize`. -/
def itemCommentExample : List Char :=
  "|cffa335ee|Hitem:124382:0:0:0:0:0:0:0:0:0:0:0:4:42:562:565:567|h[Edict of Argus]|h|r".toList

/-- The example of a quest link in the comment above `QuestChatLink::Initialize`. -/
def questCommentExample : List Char :=
  "|cffffff00|Hquest:51101:-1:110:120:5|h[The Wounded King]|h|r".toList

/-- The fields of an achievement link whose identifier has 16 hex digits and a non-zero
upper half. -/
def achievementWideGuid : List Char := "546:0000000100000001:0:0:0:0:0:0:0:0|".toList

/-- Plain text with escaped separators: the runs `ts`, each followed by `||`, then `t`. -/
def escapedText (ts : List (List Char)) (t : List Char) : List Char :=
  (ts.map fun x => x ++ [PIPE_CHAR, PIPE_CHAR]).flatten ++ t

/-- The modifier pairs stored by a successful `ItemChatLink::Initialize`. -/
def itemModifiers : Res ItemChatLink → Option (List (Int × Int))
  | .ok l _ => some l.modifiers
  | _ => none

/-- The colours of the links recorded by an accepted scan. -/
def linkColors : Res (List Link) → Option (List Nat)
  | .ok links _ => some (links.map fun l => l.color)
  | _ => none

/-- The states of the local variables at the head of the `while (!_iss.eof())` loop, in the
order in which `scanLoop` visits them. -/
def scanStates (w : World) : Nat → Scan → List Scan
  | 0, st => [st]
  | fuel + 1, st =>
    st :: (if st.iss.eof then []
           else
             match body w fuel st with
             | .next st1 => scanStates w fuel st1
             | _ => [])

/-- The scan state after the commands `c` and `H` of the source's spell link example. -/
def spellScanAfterH : Scan :=
  { iss := ⟨"|cff71d5ff|Hspell:21563".toList.reverse, "|h[Command]|h|r".toList, false, false⟩,
    seq := 2, startPos := 0, color := 0xff71d5ff,
    link := some { color := 0xff71d5ff, data := .spell spellCommand, name := [], startPos := 0, endPos := 0 },
    links := [] }

/-! ## Compaction of the item fields -/

/-- Two stream states with the same remaining input and the same state bits; the bytes
already consumed may differ. -/
def IStream.sim (s s' : IStream) : Prop :=
  s.rest = s'.rest ∧ s.eofbit = s'.eofbit ∧ s.failbit = s'.failbit

/-- Two calls with the same outcome: both return `true` with the same value and leave
states related by `IStream.sim`, or both fail in the same way. -/
def Res.sim {α : Type} : Res α → Res α → Prop
  | .ok a s, .ok a' s' => a = a' ∧ s.sim s'
  | .reject, .reject => True
  | .diverge, .diverge => True
  | .undefined, .undefined => True
  | _, _ => False

/-- The stream states recorded by the calls that follow a call: none when it failed. -/
def sitesThen {α : Type} (r : Res α) (f : α → IStream → List IStream) : List IStream :=
  match r with
  | .ok a s => f a s
  | _ => []

/-- The stream states at which `HasValue(iss)` is tested for the first `k` of the eleven
compacted fields of lines 140-242, each after its delimiter. -/
def fixedSites : Nat → IStream → List IStream
  | 0, _ => []
  | k + 1, s =>
    sitesThen (CheckDelimiter s DELIMITER) fun _ s =>
    s :: sitesThen (optInt32 s 0) fun _ s => fixedSites k s

/-- The stream states at which `HasValue(iss)` is tested for the bonus-list count of each
of `n` gem sockets. -/
def readGemBonusListsSites (w : World) : Nat → IStream → List IStream
  | 0, _ => []
  | n + 1, s =>
    sitesThen (CheckDelimiter s DELIMITER) fun _ s =>
    s :: sitesThen (readCountedBonusList w s) fun _ s => readGemBonusListsSites w n s

/-- The stream state at which `HasValue(iss)` is tested for the modifiers count. -/
def ItemChatLink.readModifierListSites (s : IStream) : List IStream :=
  sitesThen (CheckDelimiter s DELIMITER) fun _ s => [s]

/-- The stream state at which `HasValue(iss)` is tested for the use-enchant id. -/
def ItemChatLink.readTailSites (s : IStream) : List IStream :=
  sitesThen (CheckDelimiter s DELIMITER) fun _ s =>
  sitesThen (readCreator s) fun _ s =>
  sitesThen (CheckDelimiter s DELIMITER) fun _ s => [s]

/-- The stream states at which lines 140-392 test `HasValue(iss)` before reading a number:
the eleven fields from the enchant id to the context, the bonus-list count, the modifiers
count, the bonus-list count of each gem socket and the use-enchant id, in this order, as
far as the call gets. -/
def ItemChatLink.readFieldsSites (w : World) (item : ItemTemplate) (s : IStream) : List IStream :=
  fixedSites 11 s ++
  sitesThen (ItemChatLink.readFixed (ItemChatLink.new item) s) fun _ s =>
  [s] ++
  sitesThen (readCountedBonusList w s) fun _ s =>
  ItemChatLink.readModifierListSites s ++
  sitesThen (ItemChatLink.readModifierList w s) fun _ s =>
  readGemBonusListsSites w w.MAX_ITEM_PROTO_SOCKETS s ++
  sitesThen (readGemBonusLists w w.MAX_ITEM_PROTO_SOCKETS s) fun _ s =>
  ItemChatLink.readTailSites s

/-- The stream states at which `ItemChatLink::Initialize` tests `HasValue(iss)` before
reading a number. -/
def ItemChatLink.numericSites (w : World) (color : Nat) (s : IStream) : List IStream :=
  sitesThen (ReadUInt32 s) fun itemEntry s =>
  match w.GetItemTemplate itemEntry with
  | none => []
  | some item =>
    if color ≠ w.ItemQualityColors (ItemChatLink.colorQuality w item) then []
    else ItemChatLink.readFieldsSites w item s

/-- The two inputs compared: the first holds `0` followed by `d` and `r0` where the second
holds `d` and `r0`, after the same bytes `q` still to be read; both streams are good. -/
def Before (d : Char) (r0 q : List Char) (s s' : IStream) : Prop :=
  s.eofbit = false ∧ s.failbit = false ∧ s'.eofbit = false ∧ s'.failbit = false ∧
  s.rest = q ++ '0' :: d :: r0 ∧ s'.rest = q ++ d :: r0

/-- The call `R`, which tests `HasValue(iss)` for a number at the states `L`, treats the two
inputs of `Before` alike. After the `0` was read as an omitted field, the outcomes agree;
once the cursor is past the `0`, no later test is at the `0`; and before the `0`, either
the outcomes agree, or no test of the call is at the `0` and the call on the first input
fails, passes the `0`, or returns the same value as on the second input with both cursors
still before the `0`. -/
def Stage (d : Char) (r0 : List Char) {α : Type} (R : IStream → Res α)
    (L : IStream → List IStream) : Prop :=
  (∀ s s', s.sim s' → (R s).sim (R s')) ∧
  (∀ s, s.rest.length < r0.length + 2 →
    (∀ t ∈ L s, t.rest.length < r0.length + 2) ∧
    ∀ a s1, R s = .ok a s1 → s1.rest.length < r0.length + 2) ∧
  (∀ s s' q, Before d r0 q s s' →
    (R s).sim (R s') ∨
    ((∀ t ∈ L s, t.rest.length ≠ r0.length + 2) ∧
      ∀ a s1, R s = .ok a s1 →
        s1.rest.length < r0.length + 2 ∨ ∃ s1' q1, R s' = .ok a s1' ∧ Before d r0 q1 s1 s1'))

/-! ## The stream left by a decoder

`Initialize` takes the stream by reference: the state in which it leaves `iss` when it
returns, `true` or `false`, shows what it has read. -/

/-- A call with the state in which `iss` is left when the call returns; for a call that does
not return, the state is of no consequence. -/
structure Run (α : Type) where
  res : Res α
  iss : IStream

/-- A call that returns `false` leaves the stream in the state `onFalse`; one that returns
`true` leaves the state its result carries. -/
def Run.of {α : Type} (r : Res α) (onFalse : IStream) : Run α :=
  match r with
  | .ok a s => ⟨.ok a s, s⟩
  | .reject => ⟨.reject, onFalse⟩
  | .diverge => ⟨.diverge, onFalse⟩
  | .undefined => ⟨.undefined, onFalse⟩

/-- Sequencing of two calls: when the first returns `false` the function returns at once
and the stream stays as the first call left it. -/
def Run.andThen {α β : Type} (r : Run α) (f : α → IStream → Run β) : Run β :=
  match r.res with
  | .ok a s => f a s
  | .reject => ⟨.reject, r.iss⟩
  | .diverge => ⟨.diverge, r.iss⟩
  | .undefined => ⟨.undefined, r.iss⟩

/-- `ReadUInt32` with the stream it leaves: the state after the extraction. -/
def ReadUInt32Run (s : IStream) : Run Nat := Run.of (ReadUInt32 s) (s.extract 10 false).2

/-- `ReadInt32` with the stream it leaves: the state after the extraction. -/
def ReadInt32Run (s : IStream) : Run Int := Run.of (ReadInt32 s) (s.extract 10 true).2

/-- `CheckDelimiter` with the stream it leaves: on `false` the state after `peek()`. -/
def CheckDelimiterRun (s : IStream) (delimiter : Char) : Run Unit :=
  Run.of (CheckDelimiter s delimiter) s.peek.2

/-- `ReadHex` with the stream it leaves: the state after the extraction, and after the
second `tellg()` when `length ≠ 0`. -/
def ReadHexRun (s : IStream) (length : Nat) : Run Nat :=
  Run.of (ReadHex s length)
    (if length ≠ 0 then (s.tellg.2.extract 16 false).2.tellg.2 else (s.tellg.2.extract 16 false).2)

/-- `ReadSkip` with the stream it leaves; it never returns `false`. -/
def ReadSkipRun (fuel : Nat) (s : IStream) (term : Char) : Run (List Char) :=
  Run.of (ReadSkip fuel s term []) s

/-- The loop of `AchievementChatLink::Initialize` over the progress values, with the stream
it leaves. -/
def readProgressRun : Nat → IStream → Run (List Nat)
  | 0, s => ⟨.ok [] s, s⟩
  | n + 1, s =>
    (CheckDelimiterRun s DELIMITER).andThen fun _ s =>
    (ReadUInt32Run s).andThen fun d s =>
    (readProgressRun n s).andThen fun ds s => ⟨.ok (d :: ds) s, s⟩

/-- `SpellChatLink::Initialize` with the stream it leaves. -/
def SpellChatLink.InitializeRun (w : World) (color : Nat) (s : IStream) : Run SpellInfo :=
  if color ≠ w.CHAT_LINK_COLOR_SPELL then ⟨.reject, s⟩ else
  (ReadUInt32Run s).andThen fun spellId s =>
  match w.GetSpellInfo spellId with
  | none => ⟨.reject, s⟩
  | some spell => ⟨.ok spell s, s⟩

/-- `AchievementChatLink::Initialize` with the stream it leaves. -/
def AchievementChatLink.InitializeRun (w : World) (color : Nat) (s : IStream) :
    Run AchievementChatLink :=
  if color ≠ w.CHAT_LINK_COLOR_ACHIEVEMENT then ⟨.reject, s⟩ else
  (ReadUInt32Run s).andThen fun achievementId s =>
  match w.AchievementLookup achievementId with
  | none => ⟨.reject, s⟩
  | some achievement =>
    (CheckDelimiterRun s DELIMITER).andThen fun _ s =>
    (ReadHexRun s 0).andThen fun guid s =>
    (readProgressRun 8 s).andThen fun data s =>
    ⟨.ok { achievement := achievement, guid := guid, data := data } s, s⟩

/-- `TradeChatLink::Initialize` with the stream it leaves. -/
def TradeChatLink.InitializeRun (w : World) (fuel : Nat) (color : Nat) (s : IStream) :
    Run TradeChatLink :=
  if color ≠ w.CHAT_LINK_COLOR_TRADE then ⟨.reject, s⟩ else
  (ReadUInt32Run s).andThen fun spellId s =>
  match w.GetSpellInfo spellId with
  | none => ⟨.reject, s⟩
  | some spell =>
    (CheckDelimiterRun s DELIMITER).andThen fun _ s =>
    (ReadInt32Run s).andThen fun minSkillLevel s =>
    (CheckDelimiterRun s DELIMITER).andThen fun _ s =>
    (ReadInt32Run s).andThen fun maxSkillLevel s =>
    (CheckDelimiterRun s DELIMITER).andThen fun _ s =>
    (ReadHexRun s 0).andThen fun guid s =>
    (ReadSkipRun fuel s PIPE_CHAR).andThen fun base64 s =>
    ⟨.ok { spell := spell, minSkillLevel := minSkillLevel, maxSkillLevel := maxSkillLevel,
           guid := guid, base64 := base64 } s, s⟩

/-- `TalentChatLink::Initialize` with the stream it leaves. -/
def TalentChatLink.InitializeRun (w : World) (color : Nat) (s : IStream) : Run TalentChatLink :=
  if color ≠ w.CHAT_LINK_COLOR_TALENT then ⟨.reject, s⟩ else
  (ReadUInt32Run s).andThen fun talentId s =>
  match w.TalentLookup talentId with
  | none => ⟨.reject, s⟩
  | some talentInfo =>
    match w.GetSpellInfo talentInfo.SpellID with
    | none => ⟨.reject, s⟩
    | some spell =>
      (CheckDelimiterRun s DELIMITER).andThen fun _ s =>
      (ReadInt32Run s).andThen fun rankId s =>
      ⟨.ok { talentId := talentId, spell := spell, rankId := rankId } s, s⟩

/-- `EnchantmentChatLink::Initialize` with the stream it leaves. -/
def EnchantmentChatLink.InitializeRun (w : World) (color : Nat) (s : IStream) : Run SpellInfo :=
  if color ≠ w.CHAT_LINK_COLOR_ENCHANT then ⟨.reject, s⟩ else
  (ReadUInt32Run s).andThen fun spellId s =>
  match w.GetSpellInfo spellId with
  | none => ⟨.reject, s⟩
  | some spell => ⟨.ok spell s, s⟩

/-- `GlyphChatLink::Initialize` with the stream it leaves. -/
def GlyphChatLink.InitializeRun (w : World) (color : Nat) (s : IStream) : Run GlyphChatLink :=
  if color ≠ w.CHAT_LINK_COLOR_GLYPH then ⟨.reject, s⟩ else
  (ReadUInt32Run s).andThen fun slotId s =>
  (CheckDelimiterRun s DELIMITER).andThen fun _ s =>
  (ReadUInt32Run s).andThen fun glyphId s =>
  match w.GlyphPropertiesLookup glyphId with
  | none => ⟨.reject, s⟩
  | some glyph =>
    match w.GetSpellInfo glyph.SpellID with
    | none => ⟨.reject, s⟩
    | some spell => ⟨.ok { slotId := slotId, glyph := glyph, spell := spell } s, s⟩

/-! ## Lemmas on the stream operations and the scanner -/

theorem digitVal_bounds {base : Nat} {c : Char} {d : Nat} (h : digitVal base c = some d) :
    48 ≤ c.toNat ∧ c.toNat ≤ 102 := by
  unfold digitVal at h
  split_ifs at h with h1 h2 h3 <;> omega

theorem readDigits_append (base : Nat) (c0 : Char) (r : List Char) (h0 : digitVal base c0 = none) :
    ∀ (ds b : List Char) (acc cnt v : Nat), digitsValueFrom base acc ds = some v →
      readDigits base (ds ++ c0 :: r) b acc cnt = (v, cnt + ds.length, ds.reverse ++ b, c0 :: r) := by
  intro ds
  induction ds with
  | nil =>
    intro b acc cnt v h
    simp [digitsValueFrom] at h
    simp [readDigits, h0, h]
  | cons d ds ih =>
    intro b acc cnt v h
    simp only [digitsValueFrom] at h
    cases hd : digitVal base d with
    | none => simp [hd] at h
    | some x =>
      simp only [hd] at h
      have e := ih (d :: b) _ (cnt + 1) _ h
      simp only [List.cons_append, readDigits, hd, e]
      simp only [List.length_cons, List.reverse_cons, List.append_assoc, List.singleton_append]
      show readDigits base (ds ++ c0 :: r) (d :: b) (acc * base + x) (cnt + 1) = _
      rw [e, Nat.add_assoc, Nat.add_comm 1]

theorem skipWs_nonspace (c : Char) (r b : List Char) (h : isSpace c = false) :
    skipWs (c :: r) b = (b, c :: r) := by
  simp [skipWs, h]

theorem isSpace_of_ge {c : Char} (h : 33 ≤ c.toNat) : isSpace c = false := by
  simp [isSpace]
  omega

theorem readSign_of_ge {c : Char} (r b : List Char) (h : 48 ≤ c.toNat) :
    readSign (c :: r) b = (false, b, c :: r) := by
  have h1 : c ≠ '-' := by
    rintro rfl
    simp at h
  have h2 : c ≠ '+' := by
    rintro rfl
    simp at h
  simp [readSign, h1, h2]

theorem readHexPrefix_none (base : Nat) (c x : Char) (r b : List Char)
    (hx : base = 16 → x ≠ 'x' ∧ x ≠ 'X') :
    readHexPrefix base (c :: x :: r) b = (b, c :: x :: r) := by
  by_cases hb : base = 16
  · simp [readHexPrefix, (hx hb).1, (hx hb).2]
  · simp [readHexPrefix, hb]

theorem digitVal_ne_x {base : Nat} {c : Char} {d : Nat} (h : digitVal base c = some d) :
    c ≠ 'x' ∧ c ≠ 'X' := by
  constructor
  · rintro rfl
    simp [digitVal] at h
  · rintro rfl
    simp [digitVal] at h

theorem digitsValueFrom_head {base acc v : Nat} {d : Char} {ds : List Char}
    (h : digitsValueFrom base acc (d :: ds) = some v) : ∃ x, digitVal base d = some x := by
  simp only [digitsValueFrom] at h
  cases hd : digitVal base d with
  | none => simp [hd] at h
  | some x => exact ⟨x, rfl⟩

/-- What the number parser sees on a run of digits followed by a non-digit. -/
theorem extract_prelude (base : Nat) (b ds r : List Char) (c0 : Char) (v : Nat)
    (hne : ds ≠ []) (hv : digitsValueFrom base 0 ds = some v) (h0 : digitVal base c0 = none)
    (hx : base = 16 → c0 ≠ 'x' ∧ c0 ≠ 'X') :
    skipWs (ds ++ c0 :: r) b = (b, ds ++ c0 :: r) ∧
    readSign (ds ++ c0 :: r) b = (false, b, ds ++ c0 :: r) ∧
    readHexPrefix base (ds ++ c0 :: r) b = (b, ds ++ c0 :: r) ∧
    readDigits base (ds ++ c0 :: r) b 0 0 = (v, ds.length, ds.reverse ++ b, c0 :: r) := by
  obtain ⟨d, ds', rfl⟩ := List.exists_cons_of_ne_nil hne
  obtain ⟨x, hd⟩ := digitsValueFrom_head hv
  have hb := digitVal_bounds hd
  refine ⟨?_, ?_, ?_, ?_⟩
  · exact skipWs_nonspace _ _ _ (isSpace_of_ge (by omega))
  · exact readSign_of_ge _ _ hb.1
  · cases ds' with
    | nil => exact readHexPrefix_none _ _ _ _ _ hx
    | cons e es =>
      have hv' : digitsValueFrom base (0 * base + x) (e :: es) = some v := by
        simpa [digitsValueFrom, hd] using hv
      obtain ⟨y, he⟩ := digitsValueFrom_head hv'
      exact readHexPrefix_none _ _ _ _ _ (fun _ => digitVal_ne_x he)
  · have := readDigits_append base c0 r h0 (d :: ds') b 0 0 v hv
    simpa using this

theorem extract_unsigned (base : Nat) (b ds r : List Char) (c0 : Char) (v : Nat)
    (hne : ds ≠ []) (hv : digitsValueFrom base 0 ds = some v) (h0 : digitVal base c0 = none)
    (hx : base = 16 → c0 ≠ 'x' ∧ c0 ≠ 'X') (hmax : v ≤ 4294967295) :
    IStream.extract ⟨b, ds ++ c0 :: r, false, false⟩ base false =
      (some (v : Int), ⟨ds.reverse ++ b, c0 :: r, false, false⟩) := by
  obtain ⟨h1, h2, h3, h4⟩ := extract_prelude base b ds r c0 v hne hv h0 hx
  have hl : ds.length ≠ 0 := by simpa using hne
  simp [IStream.extract, IStream.good, h1, h2, h3, h4, hl, hmax]

theorem ReadUInt32_digits (b ds r : List Char) (c0 : Char) (v : Nat)
    (hne : ds ≠ []) (hv : digitsValueFrom 10 0 ds = some v) (h0 : digitVal 10 c0 = none)
    (hmax : v ≤ 4294967295) :
    ReadUInt32 ⟨b, ds ++ c0 :: r, false, false⟩ = .ok v ⟨ds.reverse ++ b, c0 :: r, false, false⟩ := by
  have h := extract_unsigned 10 b ds r c0 v hne hv h0 (by simp) hmax
  simp [ReadUInt32, h, IStream.fail, IStream.eof]

theorem digitsValueFrom_length (base : Nat) : ∀ (ds : List Char) (acc v : Nat),
    digitsValueFrom base acc ds = some v → 10 ≤ base → v < (acc + 1) * base ^ ds.length := by
  intro ds
  induction ds with
  | nil =>
    intro acc v h _
    simp [digitsValueFrom] at h
    simp
    omega
  | cons d ds ih =>
    intro acc v h hb
    simp only [digitsValueFrom] at h
    cases hd : digitVal base d with
    | none => simp [hd] at h
    | some x =>
      simp only [hd] at h
      have := ih _ _ h hb
      have hx : x < base := by
        unfold digitVal at hd
        split_ifs at hd with h1 h2 h3 <;> simp at hd <;> omega
      calc v < (acc * base + x + 1) * base ^ ds.length := this
        _ ≤ ((acc + 1) * base) * base ^ ds.length := by
            apply Nat.mul_le_mul_right
            nlinarith
        _ = (acc + 1) * base ^ (d :: ds).length := by
            simp [pow_succ]
            ring

theorem ReadHex_eight (b hs r : List Char) (c0 : Char) (v : Nat)
    (hlen : hs.length = 8) (hv : digitsValueFrom 16 0 hs = some v) (h0 : digitVal 16 c0 = none)
    (hx : c0 ≠ 'x' ∧ c0 ≠ 'X') :
    ReadHex ⟨b, hs ++ c0 :: r, false, false⟩ 8 = .ok v ⟨hs.reverse ++ b, c0 :: r, false, false⟩ := by
  have hne : hs ≠ [] := by
    rintro rfl
    simp at hlen
  have hmax : v ≤ 4294967295 := by
    have := digitsValueFrom_length 16 hs 0 v hv (by norm_num)
    rw [hlen] at this
    norm_num at this
    omega
  have h := extract_unsigned 16 b hs r c0 v hne hv h0 (fun _ => hx) hmax
  simp [ReadHex, IStream.tellg, IStream.good, h, IStream.fail, IStream.eof, hlen]

theorem getlineLoop_delim (d : Char) (r : List Char) : ∀ (xs : List Char) (k : Nat) (acc b : List Char),
    d ∉ xs → xs.length ≤ k →
    getlineLoop k d acc b (xs ++ d :: r) = (acc.reverse ++ xs, d :: (xs.reverse ++ b), r, false, true) := by
  intro xs
  induction xs with
  | nil =>
    intro k acc b _ _
    cases k <;> simp [getlineLoop]
  | cons x xs ih =>
    intro k acc b hd hk
    have hx : x ≠ d := fun h => hd (by simp [h])
    have hd' : d ∉ xs := fun h => hd (by simp [h])
    cases k with
    | zero => simp at hk
    | succ k =>
      have e := ih k (x :: acc) (x :: b) hd' (by simpa using hk)
      simp only [List.cons_append, getlineLoop, hx, if_false]
      show getlineLoop k d (x :: acc) (x :: b) (xs ++ d :: r) = _
      rw [e]
      simp

theorem getline_delim (d : Char) (b xs r : List Char) (n : Nat) (hd : d ∉ xs) (hk : xs.length ≤ n - 1) :
    IStream.getline ⟨b, xs ++ d :: r, false, false⟩ n d = (xs, ⟨d :: (xs.reverse ++ b), r, false, false⟩) := by
  simp [IStream.getline, IStream.good, getlineLoop_delim d r xs (n - 1) [] b hd hk]

theorem body_c (w : World) (fuel : Nat) (st : Scan) (b hs r : List Char) (c0 : Char) (v : Nat)
    (hseq : st.seq = 0) (hiss : st.iss = ⟨b, '|' :: 'c' :: (hs ++ c0 :: r), false, false⟩)
    (hlen : hs.length = 8) (hv : digitsValueFrom 16 0 hs = some v) (h0 : digitVal 16 c0 = none)
    (hx : c0 ≠ 'x' ∧ c0 ≠ 'X') :
    body w fuel st = .next { iss := ⟨hs.reverse ++ 'c' :: '|' :: b, c0 :: r, false, false⟩, seq := 1,
                             startPos := b.length, color := v, link := none,
                             links := st.links ++ st.link.toList } := by
  have h := ReadHex_eight ('c' :: '|' :: b) hs r c0 v hlen hv h0 hx
  simp [body, hseq, hiss, IStream.ignore, IStream.good, ignoreLoop, PIPE_CHAR, IStream.tellg,
    IStream.peek, IStream.get, IStream.eof, validSequence, command, h]

theorem body_H (w : World) (fuel : Nat) (st : Scan) (b tag r : List Char) (t : LinkType)
    (hseq : st.seq = 1) (hiss : st.iss = ⟨b, '|' :: 'H' :: (tag ++ ':' :: r), false, false⟩)
    (htag : ':' ∉ tag) (hlen : tag.length ≤ 255) (ht : linkTypeOf tag = some t) :
    body w fuel st =
      match Initialize w fuel t st.color ⟨':' :: (tag.reverse ++ 'H' :: '|' :: b), r, false, false⟩ with
      | .ok d s =>
        .next { iss := s, seq := 2, startPos := st.startPos, color := st.color,
                link := some { color := st.color, data := d, name := [], startPos := 0, endPos := 0 },
                links := st.links ++ st.link.toList }
      | .reject => .fail
      | .diverge => .diverge
      | .undefined => .undefined := by
  have h := getline_delim ':' ('H' :: '|' :: b) tag r 256 htag (by simpa using hlen)
  simp [body, hseq, hiss, IStream.good, PIPE_CHAR, DELIMITER, IStream.peek, IStream.get, IStream.eof,
    validSequence, command, h, ht]

theorem body_h_caption (w : World) (fuel : Nat) (st : Scan) (b N r : List Char) (link : Link)
    (hseq : st.seq = 2) (hiss : st.iss = ⟨b, '|' :: 'h' :: '[' :: (N ++ ']' :: r), false, false⟩)
    (hN : ']' ∉ N) (hlen : N.length ≤ 255) (hlink : st.link = some link) :
    body w fuel st =
      match ValidateName w link.data N with
      | none => .undefined
      | some false => .fail
      | some true =>
        .next { iss := ⟨']' :: (N.reverse ++ '[' :: 'h' :: '|' :: b), r, false, false⟩, seq := 3,
                startPos := st.startPos, color := st.color,
                link := some { link with name := N }, links := st.links } := by
  have h := getline_delim ']' ('[' :: 'h' :: '|' :: b) N r 256 hN (by simpa using hlen)
  simp [body, hseq, hiss, IStream.good, PIPE_CHAR, IStream.peek, IStream.get, IStream.eof,
    validSequence, command, h, hlink]

theorem body_h_plain (w : World) (fuel : Nat) (st : Scan) (b r : List Char)
    (hseq : st.seq = 3) (hiss : st.iss = ⟨b, '|' :: 'h' :: r, false, false⟩) :
    body w fuel st = .next { st with iss := ⟨'h' :: '|' :: b, r, false, false⟩, seq := 4 } := by
  simp [body, hseq, hiss, IStream.good, PIPE_CHAR, IStream.peek, IStream.get, IStream.eof,
    validSequence, command]

theorem body_r (w : World) (fuel : Nat) (st : Scan) (b r : List Char) (link : Link)
    (hseq : st.seq = 4) (hiss : st.iss = ⟨b, '|' :: 'r' :: r, false, false⟩)
    (hlink : st.link = some link) :
    body w fuel st =
      .next { st with iss := ⟨'r' :: '|' :: b, r, false, false⟩, seq := 0,
                      link := some { link with startPos := st.startPos, endPos := (b.length : Int) + 2 } } := by
  simp [body, hseq, hiss, IStream.good, PIPE_CHAR, IStream.peek, IStream.get, IStream.eof,
    validSequence, command, hlink, IStream.tellg]
  omega

theorem scanLoop_end (w : World) (fuel : Nat) (st : Scan) (b : List Char)
    (hseq : st.seq = 0) (hiss : st.iss = ⟨b, [], false, false⟩) :
    scanLoop w (fuel + 1) st = .ok (st.links ++ st.link.toList) ⟨b, [], true, true⟩ := by
  simp [scanLoop, hiss, IStream.eof, body, hseq, IStream.ignore, IStream.good, ignoreLoop,
    IStream.tellg, IStream.peek, finish]

theorem digitsValueFrom_ge {base : Nat} : ∀ (ds : List Char) (acc v : Nat),
    digitsValueFrom base acc ds = some v → ∀ c ∈ ds, 48 ≤ c.toNat := by
  intro ds
  induction ds with
  | nil => simp
  | cons d ds ih =>
    intro acc v h c hc
    simp only [digitsValueFrom] at h
    cases hd : digitVal base d with
    | none => simp [hd] at h
    | some x =>
      simp only [hd] at h
      rcases List.mem_cons.1 hc with rfl | hc
      · exact (digitVal_bounds hd).1
      · exact ih _ _ h c hc

theorem ofCStr_eq (msg : List Char) (h : Char.ofNat 0 ∉ msg) :
    IStream.ofCStr msg = ⟨[], msg, false, false⟩ := by
  have : msg.takeWhile (fun c => c != Char.ofNat 0) = msg := by
    rw [List.takeWhile_eq_self_iff]
    intro c hc
    simp only [bne_iff_ne, ne_eq]
    rintro rfl
    exact h hc
  simp [IStream.ofCStr, this]

theorem scanLoop_step {w : World} {fuel : Nat} {st : Scan} (st1 : Scan) {R : Res (List Link)}
    (hb : body w fuel st = .next st1) (heof : st.iss.eofbit = false)
    (hrest : scanLoop w fuel st1 = R) : scanLoop w (fuel + 1) st = R := by
  simp [scanLoop, IStream.eof, heof, hb, hrest]

theorem mem_localesFrom (i : Nat) : ∀ (n a : Nat), i ∈ localesFrom a n ↔ a ≤ i ∧ i < a + n := by
  intro n
  induction n with
  | zero =>
    intro a
    simp [localesFrom]
  | succ n ih =>
    intro a
    simp only [localesFrom, List.mem_cons, ih]
    omega

theorem mem_locales (w : World) (first i : Nat) :
    i ∈ locales w first ↔ first ≤ i ∧ i < w.TOTAL_LOCALES := by
  simp only [locales, mem_localesFrom]
  omega

/-- C1: for every spell id that resolves to a spell without the trade-spell attribute
and every caption `N` equal to the spell's name in some locale (non-empty, shorter than
255 bytes, without `]`), `IsValidMessage` accepts
`|c<spell link colour as 8 hex digits>|Hspell:<id>|h[N]|h|r`, with any fuel of at least 6
loop passes. -/
theorem spell_link_accepted (w : World) (fuel : Nat) (hs ds N : List Char) (id i : Nat)
    (spell : SpellInfo) (hfuel : 6 ≤ fuel)
    (hcol : hs.length = 8) (hcolv : digitsValue 16 hs = some w.CHAT_LINK_COLOR_SPELL)
    (hid : digitsValue 10 ds = some id) (hid32 : id ≤ 4294967295)
    (hspell : w.GetSpellInfo id = some spell) (htrade : spell.TradeSpell = false)
    (hi : i < w.TOTAL_LOCALES) (hname : spell.SpellName i = N)
    (hN : N ≠ []) (hlen : N.length < 255) (hbr : ']' ∉ N) (hnul : Char.ofNat 0 ∉ N) :
    verdict (IsValidMessage w fuel
      ("|c".toList ++ hs ++ "|Hspell:".toList ++ ds ++ "|h[".toList ++ N ++ "]|h|r".toList))
      = some true := by
  obtain ⟨k, rfl⟩ : ∃ k, fuel = k + 6 := ⟨fuel - 6, by omega⟩
  have hdne : ds ≠ [] := by
    rintro rfl
    simp [digitsValue] at hid
  have hhne : hs ≠ [] := by
    rintro rfl
    simp at hcol
  simp only [digitsValue, hdne, hhne, if_false] at hid hcolv
  have hmsg : "|c".toList ++ hs ++ "|Hspell:".toList ++ ds ++ "|h[".toList ++ N ++ "]|h|r".toList
      = '|' :: 'c' :: (hs ++ '|' :: 'H' :: ("spell".toList ++ ':' :: (ds ++ '|' :: 'h' :: '[' ::
          (N ++ ']' :: '|' :: 'h' :: '|' :: 'r' :: [])))) := by
    simp
  rw [hmsg]
  have hnul' : Char.ofNat 0 ∉ '|' :: 'c' :: (hs ++ '|' :: 'H' :: ("spell".toList ++ ':' :: (ds ++
      '|' :: 'h' :: '[' :: (N ++ ']' :: '|' :: 'h' :: '|' :: 'r' :: [])))) := by
    have e1 : Char.ofNat 0 ∉ hs := fun h => by
      have := digitsValueFrom_ge hs 0 _ hcolv _ h
      simp at this
    have e2 : Char.ofNat 0 ∉ ds := fun h => by
      have := digitsValueFrom_ge ds 0 _ hid _ h
      simp at this
    simp [e1, e2, hnul]
  have hval : ValidateName w (.spell spell) N = some true := by
    have hmem : i ∈ locales w 0 := (mem_locales w 0 i).2 ⟨Nat.zero_le _, hi⟩
    simp only [ValidateName, SpellChatLink.ValidateName, htrade, spellNameMatches]
    simp
    exact ⟨i, hmem, by simpa [hname] using hN, hname⟩
  simp only [IsValidMessage, ofCStr_eq _ hnul']
  have key : ∃ l s, scanLoop w (k + 6) (initScan ⟨[], '|' :: 'c' :: (hs ++ '|' :: 'H' ::
      ("spell".toList ++ ':' :: (ds ++ '|' :: 'h' :: '[' :: (N ++ ']' :: '|' :: 'h' :: '|' :: 'r' :: [])))),
      false, false⟩) = .ok l s := by
    apply Exists.intro
    apply Exists.intro
    refine scanLoop_step _ (body_c w _ _ [] hs _ '|' _ rfl rfl hcol hcolv (by decide) (by decide)) rfl ?_
    refine scanLoop_step {
        iss := ⟨ds.reverse ++ ':' :: ("spell".toList.reverse ++ 'H' :: '|' :: (hs.reverse ++ 'c' :: '|' :: [])),
          '|' :: 'h' :: '[' :: (N ++ ']' :: '|' :: 'h' :: '|' :: 'r' :: []), false, false⟩,
        seq := 2, startPos := 0, color := w.CHAT_LINK_COLOR_SPELL,
        link := some ⟨w.CHAT_LINK_COLOR_SPELL, .spell spell, [], 0, 0⟩,
        links := [] } ?_ rfl ?_
    · rw [body_H w _ _ _ "spell".toList _ .spell rfl rfl (by decide) (by decide) (by decide)]
      have hread := ReadUInt32_digits (':' :: ("spell".toList.reverse ++ 'H' :: '|' :: (hs.reverse ++ 'c' :: '|' :: [])))
        ds ('h' :: '[' :: (N ++ ']' :: '|' :: 'h' :: '|' :: 'r' :: [])) '|' id hdne hid (by decide) hid32
      simp only [Initialize, SpellChatLink.Initialize, ne_eq, not_true_eq_false, if_false, hread,
        Res.andThen, hspell]
      rfl
    refine scanLoop_step {
        iss := ⟨']' :: (N.reverse ++ '[' :: 'h' :: '|' :: (ds.reverse ++ ':' :: ("spell".toList.reverse
            ++ 'H' :: '|' :: (hs.reverse ++ 'c' :: '|' :: [])))), '|' :: 'h' :: '|' :: 'r' :: [], false, false⟩,
        seq := 3, startPos := 0, color := w.CHAT_LINK_COLOR_SPELL,
        link := some ⟨w.CHAT_LINK_COLOR_SPELL, .spell spell, N, 0, 0⟩,
        links := [] } ?_ rfl ?_
    · rw [body_h_caption w _ _ _ N _ _ rfl rfl hbr (by omega) rfl]
      simp only [hval]
    refine scanLoop_step _ (body_h_plain w _ _ _ _ rfl rfl) rfl ?_
    refine scanLoop_step _ (body_r w _ _ _ _ _ rfl rfl rfl) rfl ?_
    exact scanLoop_end w _ _ _ rfl rfl
  obtain ⟨l, s, h⟩ := key
  rw [h]
  rfl

/-- The source's example `|cff71d5ff|Hspell:21563|h[Command]|h|r` is accepted. -/
theorem spell_link_accepted_witness :
    verdict (IsValidMessage demoWorld 6 "|cff71d5ff|Hspell:21563|h[Command]|h|r".toList) = some true :=
  spell_link_accepted demoWorld 6 "ff71d5ff".toList "21563".toList "Command".toList 21563 0
    spellCommand (by decide) (by decide) (by decide) (by decide) (by decide) (by rfl) (by rfl)
    (by decide) (by rfl) (by decide) (by decide) (by decide) (by decide)


theorem spellNameMatches_iff (w : World) (spell : SpellInfo) (buffer : List Char) :
    spellNameMatches w spell buffer = true ↔
      ∃ i, i < w.TOTAL_LOCALES ∧ spell.SpellName i ≠ [] ∧ spell.SpellName i = buffer := by
  simp only [spellNameMatches, List.any_eq_true, mem_locales, Bool.and_eq_true, Bool.not_eq_true',
    List.isEmpty_eq_false, beq_iff_eq]
  constructor
  · rintro ⟨i, ⟨_, hi⟩, hne, he⟩
    exact ⟨i, hi, by simpa using hne, he⟩
  · rintro ⟨i, hi, hne, he⟩
    exact ⟨i, ⟨Nat.zero_le _, hi⟩, by simpa using hne, he⟩

theorem stripProfession_no_match (displayName : Nat → List Char) (buffer : List Char) :
    ∀ (is : List Nat),
      (∀ i ∈ is, ¬ ((displayName i).length > 0 ∧ (displayName i).isPrefixOf buffer = true)) →
      stripProfession displayName is buffer = some buffer := by
  intro is
  induction is with
  | nil => intro _; rfl
  | cons i is ih =>
    intro h
    have hi := h i (by simp)
    simp only [stripProfession, hi, if_false]
    exact ih (fun j hj => h j (by simp [hj]))

theorem stripProfession_first (displayName : Nat → List Char) (i : Nat) (rest : List Char)
    (hne : displayName i ≠ []) :
    ∀ (n a : Nat), a ≤ i → i < a + n →
      (∀ j, a ≤ j → j < i → ¬ ((displayName j).length > 0 ∧
        (displayName j).isPrefixOf (displayName i ++ ':' :: ' ' :: rest) = true)) →
      stripProfession displayName (localesFrom a n) (displayName i ++ ':' :: ' ' :: rest) = some rest := by
  intro n
  induction n with
  | zero => intro a h1 h2; omega
  | succ n ih =>
    intro a h1 h2 h
    simp only [localesFrom, stripProfession]
    by_cases hai : a = i
    · subst hai
      have hlen : 0 < (displayName a).length := List.length_pos.2 hne
      have hp : (displayName a).isPrefixOf (displayName a ++ ':' :: ' ' :: rest) = true := by
        simp
      simp [hlen, hp]
    · have := h a (le_refl _) (by omega)
      simp only [this, if_false]
      exact ih (a + 1) (by omega) (by omega) (fun j hj1 hj2 => h j (by omega) hj2)

/-- C2 (amended): `SpellChatLink::ValidateName` accepts a caption iff, after the removal
of the profession prefix, it equals a non-empty localized name of the spell.  Without the
trade-spell attribute nothing is removed.  With it, the caption is rejected when the skill
line does not resolve; when no locale's non-empty display name starts the caption nothing
is removed; and at the first locale whose non-empty display name starts a caption of the
form `<display name>: <name>`, the display name and the `: ` are removed. -/
theorem SpellChatLink.ValidateName_amended (w : World) (spell : SpellInfo) (buffer : List Char) :
    (spell.TradeSpell = false →
      (SpellChatLink.ValidateName w spell buffer = some true ↔
        ∃ i, i < w.TOTAL_LOCALES ∧ spell.SpellName i ≠ [] ∧ spell.SpellName i = buffer) ∧
      SpellChatLink.ValidateName w spell buffer ≠ none) ∧
    (spell.TradeSpell = true → SpellChatLink.skillLine w spell = none →
      SpellChatLink.ValidateName w spell buffer = some false) ∧
    (∀ (skillLine : SkillLineEntry), spell.TradeSpell = true →
      SpellChatLink.skillLine w spell = some skillLine →
      (∀ i, w.LOCALE_enUS ≤ i → i < w.TOTAL_LOCALES →
        ¬ (skillLine.DisplayName i ≠ [] ∧ (skillLine.DisplayName i).isPrefixOf buffer = true)) →
      (SpellChatLink.ValidateName w spell buffer = some true ↔
        ∃ i, i < w.TOTAL_LOCALES ∧ spell.SpellName i ≠ [] ∧ spell.SpellName i = buffer)) ∧
    (∀ (skillLine : SkillLineEntry) (i : Nat) (name : List Char), spell.TradeSpell = true →
      SpellChatLink.skillLine w spell = some skillLine →
      w.LOCALE_enUS ≤ i → i < w.TOTAL_LOCALES → skillLine.DisplayName i ≠ [] →
      buffer = skillLine.DisplayName i ++ ':' :: ' ' :: name →
      (∀ j, w.LOCALE_enUS ≤ j → j < i →
        ¬ (skillLine.DisplayName j ≠ [] ∧ (skillLine.DisplayName j).isPrefixOf buffer = true)) →
      (SpellChatLink.ValidateName w spell buffer = some true ↔
        ∃ k, k < w.TOTAL_LOCALES ∧ spell.SpellName k ≠ [] ∧ spell.SpellName k = name)) := by
  refine ⟨?_, ?_, ?_, ?_⟩
  · intro ht
    simp [SpellChatLink.ValidateName, ht, spellNameMatches_iff]
  · intro ht hs
    simp [SpellChatLink.ValidateName, ht, hs]
  · intro skillLine ht hs hno
    have h := stripProfession_no_match skillLine.DisplayName buffer (locales w w.LOCALE_enUS)
      (fun i hi => by
        have := (mem_locales w _ i).1 hi
        have := hno i this.1 this.2
        intro hc
        exact this ⟨List.length_pos.1 hc.1, hc.2⟩)
    simp [SpellChatLink.ValidateName, ht, hs, h, spellNameMatches_iff]
  · intro skillLine i name ht hs h1 h2 hne hb hfirst
    subst hb
    have h := stripProfession_first skillLine.DisplayName i name hne (w.TOTAL_LOCALES - w.LOCALE_enUS)
      w.LOCALE_enUS h1 (by omega)
      (fun j hj1 hj2 hc => hfirst j hj1 hj2 ⟨List.length_pos.1 hc.1, hc.2⟩)
    simp only [locales] at *
    simp [SpellChatLink.ValidateName, ht, hs, locales, h, spellNameMatches_iff]

/-- The source's caption `Engineering: Rough Dynamite` is accepted for the recipe spell. -/
theorem SpellChatLink.ValidateName_amended_witness :
    SpellChatLink.ValidateName demoWorld spellRoughDynamite "Engineering: Rough Dynamite".toList = some true :=
  ((SpellChatLink.ValidateName_amended demoWorld spellRoughDynamite
      "Engineering: Rough Dynamite".toList).2.2.2 ⟨fun _ => "Engineering".toList⟩ 0 "Rough Dynamite".toList
      rfl rfl (by decide) (by decide) (by decide) (by decide) (fun j hj1 hj2 => absurd hj2 (Nat.not_lt_zero j))).2
    ⟨0, by decide, by decide, by decide⟩


/-- C2 as stated fails: the caption `Smelt` equals the localized name of a trade spell whose
skill line ability is not found, and is rejected. -/
theorem SpellChatLink.ValidateName_claim_fails :
    ¬ (SpellChatLink.ValidateName demoWorld spellNoSkillLine "Smelt".toList = some true ↔
        ((∃ i, i < demoWorld.TOTAL_LOCALES ∧ spellNoSkillLine.SpellName i = "Smelt".toList) ∨
         (spellNoSkillLine.TradeSpell = true ∧
           ∃ (skillLine : SkillLineEntry) (i j : Nat),
             SpellChatLink.skillLine demoWorld spellNoSkillLine = some skillLine ∧
             i < demoWorld.TOTAL_LOCALES ∧ j < demoWorld.TOTAL_LOCALES ∧
             "Smelt".toList = skillLine.DisplayName i ++ ": ".toList ++ spellNoSkillLine.SpellName j))) := by
  intro h
  have h1 := h.2 (Or.inl ⟨0, by decide, rfl⟩)
  have h2 : SpellChatLink.ValidateName demoWorld spellNoSkillLine "Smelt".toList = some false := by
    decide
  rw [h2] at h1
  exact absurd h1 (by decide)

/-- The two bytes after the display name are skipped without being compared with `: `. -/
theorem SpellChatLink.ValidateName_two_bytes_unchecked :
    SpellChatLink.ValidateName demoWorld spellRoughDynamite "EngineeringXXRough Dynamite".toList
      = some true := by
  decide

/-- C3 (amended): `ItemChatLink::ValidateName` accepts a caption iff it equals the item's
localized base name in some locale from `LOCALE_enUS` up to `TOTAL_LOCALES` other than
`LOCALE_none`; the suffix table it passes to `FormatName` is the null pointer, so nothing
is appended whatever the hide-name-suffix flag. -/
theorem ItemChatLink.ValidateName_iff (w : World) (item : ItemTemplate) (buffer : List Char) :
    ItemChatLink.ValidateName w item buffer = true ↔
      ∃ locale, w.LOCALE_enUS ≤ locale ∧ locale < w.TOTAL_LOCALES ∧ locale ≠ w.LOCALE_none ∧
        item.Name locale = buffer := by
  simp only [ItemChatLink.ValidateName, List.any_eq_true, mem_locales, Bool.and_eq_true,
    bne_iff_ne, ne_eq, beq_iff_eq]
  have hf : ∀ locale, ItemChatLink.FormatName w item locale none = item.Name locale := by
    intro locale
    simp [ItemChatLink.FormatName]
  constructor
  · rintro ⟨locale, ⟨h1, h2⟩, h3, h4⟩
    exact ⟨locale, h1, h2, h3, by rw [← hf]; exact h4⟩
  · rintro ⟨locale, h1, h2, h3, h4⟩
    exact ⟨locale, ⟨h1, h2⟩, h3, by rw [hf]; exact h4⟩

/-- C3 as stated fails: for an item without the hide-name-suffix flag, no suffix table
makes the accepted captions those of the form `<name> <suffix>`; the bare name is accepted. -/
theorem ItemChatLink.ValidateName_suffix_claim_fails :
    ¬ ∃ suffix : Nat → List Char, ∀ buffer : List Char,
      (ItemChatLink.ValidateName demoWorld itemEdict buffer = true ↔
        ∃ locale, demoWorld.LOCALE_enUS ≤ locale ∧ locale < demoWorld.TOTAL_LOCALES ∧
          locale ≠ demoWorld.LOCALE_none ∧
          ItemChatLink.FormatName demoWorld itemEdict locale (some suffix) = buffer) := by
  rintro ⟨suffix, h⟩
  have hacc : ItemChatLink.ValidateName demoWorld itemEdict "Edict of Argus".toList = true := by
    decide
  obtain ⟨locale, _, _, _, he⟩ := (h _).1 hacc
  have hl := congrArg List.length he
  simp [ItemChatLink.FormatName, demoWorld, itemEdict] at hl

/-- C5: once the item id resolves, `ItemChatLink::Initialize` returns `false` when the
stated colour differs from `ItemQualityColors[colorQuality]`, and with the matching colour
its result is that of the remaining fields alone; `colorQuality` is the item's quality
unless the display-as-heirloom flag is set, and then `ITEM_QUALITY_HEIRLOOM`. -/
theorem ItemChatLink.Initialize_color (w : World) (color itemEntry : Nat) (s s1 : IStream)
    (item : ItemTemplate) (hread : ReadUInt32 s = .ok itemEntry s1)
    (hitem : w.GetItemTemplate itemEntry = some item) :
    (color ≠ w.ItemQualityColors (ItemChatLink.colorQuality w item) →
      ItemChatLink.Initialize w color s = .reject) ∧
    (color = w.ItemQualityColors (ItemChatLink.colorQuality w item) →
      ItemChatLink.Initialize w color s = ItemChatLink.readFields w item s1) ∧
    (item.Flags3 &&& w.ITEM_FLAG3_DISPLAY_AS_HEIRLOOM = 0 →
      ItemChatLink.colorQuality w item = item.Quality) ∧
    (item.Flags3 &&& w.ITEM_FLAG3_DISPLAY_AS_HEIRLOOM ≠ 0 →
      ItemChatLink.colorQuality w item = w.ITEM_QUALITY_HEIRLOOM) := by
  refine ⟨?_, ?_, ?_, ?_⟩ <;> intro h
  · simp [ItemChatLink.Initialize, hread, Res.andThen, hitem, h]
  · simp [ItemChatLink.Initialize, hread, Res.andThen, hitem, h]
  · simp [ItemChatLink.colorQuality, h]
  · simp [ItemChatLink.colorQuality, h]


theorem readBonusListIDs_unresolved (w : World) (m : Nat) (bid : Int) (u1 u2 u3 : IStream)
    (hd : CheckDelimiter u1 DELIMITER = .ok () u2) (hr : ReadInt32 u2 = .ok bid u3)
    (hb : w.GetItemBonusList bid = false) :
    ∀ (k : Nat) (s : IStream) (ids : List Int), readBonusListIDs w k s = .ok ids u1 →
      readBonusListIDs w (k + 1 + m) s = .reject := by
  intro k
  induction k with
  | zero =>
    intro s ids h
    simp only [readBonusListIDs, Res.ok.injEq] at h
    obtain ⟨_, rfl⟩ := h
    have e : 0 + 1 + m = m + 1 := by omega
    rw [e]
    simp [readBonusListIDs, hd, hr, hb, Res.andThen]
  | succ k ih =>
    intro s ids h
    have e : k + 1 + 1 + m = (k + 1 + m) + 1 := by omega
    rw [e]
    simp only [readBonusListIDs] at h ⊢
    cases h1 : CheckDelimiter s DELIMITER with
    | ok a s1 =>
      simp only [h1, Res.andThen] at h ⊢
      cases h2 : ReadInt32 s1 with
      | ok id s2 =>
        simp only [h2] at h ⊢
        by_cases hg : w.GetItemBonusList id = true
        · simp only [hg, if_true] at h ⊢
          cases h3 : readBonusListIDs w k s2 with
          | ok ids' s3 =>
            simp only [h3, Res.ok.injEq] at h
            obtain ⟨_, rfl⟩ := h
            rw [ih s2 ids' h3]
          | reject => simp [h3] at h
          | diverge => simp [h3] at h
          | undefined => simp [h3] at h
        · simp [hg] at h
      | reject => simp [h2] at h
      | diverge => simp [h2] at h
      | undefined => simp [h2] at h
    | reject => simp [h1, Res.andThen] at h
    | diverge => simp [h1, Res.andThen] at h
    | undefined => simp [h1, Res.andThen] at h

theorem Res.andThen_eq_ok {α β : Type} (r : Res α) (f : α → IStream → Res β) (b : β) (s1 : IStream) :
    r.andThen f = .ok b s1 ↔ ∃ a s, r = .ok a s ∧ f a s = .ok b s1 := by
  cases r with
  | ok a s =>
    simp only [Res.andThen, Res.ok.injEq]
    constructor
    · intro h
      exact ⟨a, s, ⟨rfl, rfl⟩, h⟩
    · rintro ⟨a1, s2, ⟨rfl, rfl⟩, h⟩
      exact h
  | reject => simp [Res.andThen]
  | diverge => simp [Res.andThen]
  | undefined => simp [Res.andThen]

theorem readGemBonusLists_reject (w : World) (m : Nat) (u1 u2 : IStream)
    (hd : CheckDelimiter u1 DELIMITER = .ok () u2) (hr : readCountedBonusList w u2 = .reject) :
    ∀ (j : Nat) (s : IStream) (gems : List (List Int)), readGemBonusLists w j s = .ok gems u1 →
      readGemBonusLists w (j + 1 + m) s = .reject := by
  intro j
  induction j with
  | zero =>
    intro s gems h
    simp only [readGemBonusLists, Res.ok.injEq] at h
    obtain ⟨_, rfl⟩ := h
    have e : 0 + 1 + m = m + 1 := by omega
    rw [e]
    simp [readGemBonusLists, hd, hr, Res.andThen]
  | succ j ih =>
    intro s gems h
    have e : j + 1 + 1 + m = (j + 1 + m) + 1 := by omega
    rw [e]
    simp only [readGemBonusLists, Res.andThen_eq_ok] at h
    obtain ⟨_, s1, h1, ids, s2, h2, rest, s3, h3, h4⟩ := h
    simp only [Res.ok.injEq] at h4
    obtain ⟨_, rfl⟩ := h4
    simp [readGemBonusLists, h1, h2, Res.andThen, ih s2 rest h3]

theorem readCountedBonusList_unresolved (w : World) (s s1 u1 u2 u3 : IStream) (n k : Nat)
    (ids : List Int) (bid : Int) (hn : optUInt32 s 0 = .ok n s1) (hk : k < n)
    (hp : readBonusListIDs w k s1 = .ok ids u1)
    (hd : CheckDelimiter u1 DELIMITER = .ok () u2) (hr : ReadInt32 u2 = .ok bid u3)
    (hb : w.GetItemBonusList bid = false) : readCountedBonusList w s = .reject := by
  obtain ⟨m, rfl⟩ : ∃ m, n = k + 1 + m := ⟨n - k - 1, by omega⟩
  simp only [readCountedBonusList, hn, Res.andThen]
  split
  · rfl
  · exact readBonusListIDs_unresolved w m bid u1 u2 u3 hd hr hb k s1 ids hp

theorem readCountedBonusList_over (w : World) (s s1 : IStream) (n : Nat)
    (hn : optUInt32 s 0 = .ok n s1) (h16 : 16 < n) : readCountedBonusList w s = .reject := by
  simp [readCountedBonusList, hn, Res.andThen, h16]

theorem scanLoop_H_reject (w : World) (fuel : Nat) (st : Scan) (b tag r : List Char) (t : LinkType)
    (hseq : st.seq = 1) (hiss : st.iss = ⟨b, '|' :: 'H' :: (tag ++ ':' :: r), false, false⟩)
    (htag : ':' ∉ tag) (hlen : tag.length ≤ 255) (ht : linkTypeOf tag = some t)
    (hrej : Initialize w fuel t st.color ⟨':' :: (tag.reverse ++ 'H' :: '|' :: b), r, false, false⟩ = .reject) :
    scanLoop w (fuel + 1) st = .reject := by
  have hb := body_H w fuel st b tag r t hseq hiss htag hlen ht
  rw [hrej] at hb
  simp [scanLoop, hiss, IStream.eof, hb]

theorem ItemChatLink.Initialize_of_bonus_reject (w : World) (color id : Nat) (s s1 s2 : IStream)
    (item : ItemTemplate) (l : ItemChatLink) (hread : ReadUInt32 s = .ok id s1)
    (hitem : w.GetItemTemplate id = some item)
    (hfixed : ItemChatLink.readFixed (ItemChatLink.new item) s1 = .ok l s2)
    (hrej : readCountedBonusList w s2 = .reject) : ItemChatLink.Initialize w color s = .reject := by
  simp only [ItemChatLink.Initialize, hread, Res.andThen, hitem, ItemChatLink.readFields, hfixed, hrej]
  split <;> rfl

theorem ItemChatLink.Initialize_of_gem_reject (w : World) (color id : Nat) (s s1 s2 s3 s4 : IStream)
    (item : ItemTemplate) (l : ItemChatLink) (ids : List Int) (mods : List (Int × Int))
    (hread : ReadUInt32 s = .ok id s1) (hitem : w.GetItemTemplate id = some item)
    (hfixed : ItemChatLink.readFixed (ItemChatLink.new item) s1 = .ok l s2)
    (hbonus : readCountedBonusList w s2 = .ok ids s3)
    (hmods : ItemChatLink.readModifierList w s3 = .ok mods s4)
    (hrej : readGemBonusLists w w.MAX_ITEM_PROTO_SOCKETS s4 = .reject) :
    ItemChatLink.Initialize w color s = .reject := by
  simp only [ItemChatLink.Initialize, hread, Res.andThen, hitem, ItemChatLink.readFields, hfixed,
    hbonus, hmods, hrej]
  split <;> rfl

/-- Every decoder returns `false` when a reference id it has read does not resolve:
item id, quest id, spell id (spell, trade, enchantment), achievement id, talent id and the
talent's spell, glyph id and the glyph's spell, and a bonus-list id of the item or of a gem
socket; and whenever the decoder called at an `H` command returns `false`, the scan of the
message returns `false`. -/
theorem unresolved_reference_rejected (w : World) (fuel color id : Nat) (s s1 : IStream)
    (hread : ReadUInt32 s = .ok id s1) :
    (w.GetItemTemplate id = none → ItemChatLink.Initialize w color s = .reject) ∧
    (w.GetQuestTemplate id = none → QuestChatLink.Initialize w color s = .reject) ∧
    (w.GetSpellInfo id = none →
      SpellChatLink.Initialize w color s = .reject ∧
      TradeChatLink.Initialize w fuel color s = .reject ∧
      EnchantmentChatLink.Initialize w color s = .reject) ∧
    (w.AchievementLookup id = none → AchievementChatLink.Initialize w color s = .reject) ∧
    (w.TalentLookup id = none → TalentChatLink.Initialize w color s = .reject) ∧
    (∀ talentInfo : TalentEntry, w.TalentLookup id = some talentInfo →
      w.GetSpellInfo talentInfo.SpellID = none → TalentChatLink.Initialize w color s = .reject) ∧
    (∀ (s0 u : IStream) (slotId : Nat), ReadUInt32 s0 = .ok slotId u →
      CheckDelimiter u DELIMITER = .ok () s →
      (w.GlyphPropertiesLookup id = none → GlyphChatLink.Initialize w color s0 = .reject) ∧
      (∀ glyph : GlyphPropertiesEntry, w.GlyphPropertiesLookup id = some glyph →
        w.GetSpellInfo glyph.SpellID = none → GlyphChatLink.Initialize w color s0 = .reject)) ∧
    (∀ (item : ItemTemplate) (l : ItemChatLink) (s2 s3 u1 u2 u3 : IStream) (n k : Nat)
        (ids : List Int) (bid : Int),
      w.GetItemTemplate id = some item →
      ItemChatLink.readFixed (ItemChatLink.new item) s1 = .ok l s2 →
      optUInt32 s2 0 = .ok n s3 → k < n → readBonusListIDs w k s3 = .ok ids u1 →
      CheckDelimiter u1 DELIMITER = .ok () u2 → ReadInt32 u2 = .ok bid u3 →
      w.GetItemBonusList bid = false → ItemChatLink.Initialize w color s = .reject) ∧
    (∀ (item : ItemTemplate) (l : ItemChatLink) (s2 s3 s4 s5 s6 s7 u1 u2 u3 : IStream)
        (ids gids : List Int) (mods : List (Int × Int)) (gems : List (List Int)) (j n k : Nat)
        (bid : Int),
      w.GetItemTemplate id = some item →
      ItemChatLink.readFixed (ItemChatLink.new item) s1 = .ok l s2 →
      readCountedBonusList w s2 = .ok ids s3 → ItemChatLink.readModifierList w s3 = .ok mods s4 →
      j < w.MAX_ITEM_PROTO_SOCKETS → readGemBonusLists w j s4 = .ok gems s5 →
      CheckDelimiter s5 DELIMITER = .ok () s6 →
      optUInt32 s6 0 = .ok n s7 → k < n → readBonusListIDs w k s7 = .ok gids u1 →
      CheckDelimiter u1 DELIMITER = .ok () u2 → ReadInt32 u2 = .ok bid u3 →
      w.GetItemBonusList bid = false → ItemChatLink.Initialize w color s = .reject) ∧
    (∀ (st : Scan) (b tag r : List Char) (t : LinkType), st.seq = 1 →
      st.iss = ⟨b, '|' :: 'H' :: (tag ++ ':' :: r), false, false⟩ → ':' ∉ tag → tag.length ≤ 255 →
      linkTypeOf tag = some t →
      Initialize w fuel t st.color ⟨':' :: (tag.reverse ++ 'H' :: '|' :: b), r, false, false⟩ = .reject →
      scanLoop w (fuel + 1) st = .reject) := by
  refine ⟨?_, ?_, ?_, ?_, ?_, ?_, ?_, ?_, ?_, ?_⟩
  · intro h
    simp [ItemChatLink.Initialize, hread, Res.andThen, h]
  · intro h
    simp [QuestChatLink.Initialize, hread, Res.andThen, h]
  · intro h
    refine ⟨?_, ?_, ?_⟩
    · simp only [SpellChatLink.Initialize, hread, Res.andThen, h]
      split <;> rfl
    · simp only [TradeChatLink.Initialize, hread, Res.andThen, h]
      split <;> rfl
    · simp only [EnchantmentChatLink.Initialize, hread, Res.andThen, h]
      split <;> rfl
  · intro h
    simp only [AchievementChatLink.Initialize, hread, Res.andThen, h]
    split <;> rfl
  · intro h
    simp only [TalentChatLink.Initialize, hread, Res.andThen, h]
    split <;> rfl
  · intro talentInfo h1 h2
    simp only [TalentChatLink.Initialize, hread, Res.andThen, h1, h2]
    split <;> rfl
  · intro s0 u slotId h1 h2
    refine ⟨?_, ?_⟩
    · intro h
      simp only [GlyphChatLink.Initialize, h1, h2, hread, Res.andThen, h]
      split <;> rfl
    · intro glyph h3 h4
      simp only [GlyphChatLink.Initialize, h1, h2, hread, Res.andThen, h3, h4]
      split <;> rfl
  · intro item l s2 s3 u1 u2 u3 n k ids bid hitem hfixed hn hk hp hd hr hb
    exact ItemChatLink.Initialize_of_bonus_reject w color id s s1 s2 item l hread hitem hfixed
      (readCountedBonusList_unresolved w s2 s3 u1 u2 u3 n k ids bid hn hk hp hd hr hb)
  · intro item l s2 s3 s4 s5 s6 s7 u1 u2 u3 ids gids mods gems j n k bid hitem hfixed hbonus hmods
      hj hgems hd6 hn hk hp hd hr hb
    obtain ⟨m, hm⟩ : ∃ m, w.MAX_ITEM_PROTO_SOCKETS = j + 1 + m :=
      ⟨w.MAX_ITEM_PROTO_SOCKETS - j - 1, by omega⟩
    refine ItemChatLink.Initialize_of_gem_reject w color id s s1 s2 s3 s4 item l ids mods hread hitem
      hfixed hbonus hmods ?_
    rw [hm]
    exact readGemBonusLists_reject w m s5 s6 hd6
      (readCountedBonusList_unresolved w s6 s7 u1 u2 u3 n k gids bid hn hk hp hd hr hb) j s4 gems hgems
  · intro st b tag r t hseq hiss htag hlen ht hrej
    exact scanLoop_H_reject w fuel st b tag r t hseq hiss htag hlen ht hrej

/-- The spell id 99999 does not resolve: the three spell-id decoders reject it. -/
theorem unresolved_reference_rejected_witness :
    SpellChatLink.Initialize demoWorld 0xff71d5ff ⟨[], "99999|".toList, false, false⟩ = .reject ∧
    TradeChatLink.Initialize demoWorld 0 0xff71d5ff ⟨[], "99999|".toList, false, false⟩ = .reject ∧
    EnchantmentChatLink.Initialize demoWorld 0xff71d5ff ⟨[], "99999|".toList, false, false⟩ = .reject :=
  (unresolved_reference_rejected demoWorld 0 0xff71d5ff 99999 ⟨[], "99999|".toList, false, false⟩
    ⟨"99999".toList.reverse, "|".toList, false, false⟩ (by decide)).2.2.1 rfl

/-- C7: `ItemChatLink::Initialize` returns `false` when the bonus-list count of the item,
or of any gem socket reached, is greater than 16, whatever follows the count. -/
theorem bonus_count_over_16_rejected (w : World) (color id : Nat) (s s1 s2 : IStream)
    (item : ItemTemplate) (l : ItemChatLink) (hread : ReadUInt32 s = .ok id s1)
    (hitem : w.GetItemTemplate id = some item)
    (hfixed : ItemChatLink.readFixed (ItemChatLink.new item) s1 = .ok l s2) :
    (∀ (n : Nat) (s3 : IStream), optUInt32 s2 0 = .ok n s3 → 16 < n →
      ItemChatLink.Initialize w color s = .reject) ∧
    (∀ (s3 s4 s5 s6 s7 : IStream) (ids : List Int) (mods : List (Int × Int))
        (gems : List (List Int)) (j n : Nat),
      readCountedBonusList w s2 = .ok ids s3 → ItemChatLink.readModifierList w s3 = .ok mods s4 →
      j < w.MAX_ITEM_PROTO_SOCKETS → readGemBonusLists w j s4 = .ok gems s5 →
      CheckDelimiter s5 DELIMITER = .ok () s6 → optUInt32 s6 0 = .ok n s7 → 16 < n →
      ItemChatLink.Initialize w color s = .reject) := by
  refine ⟨?_, ?_⟩
  · intro n s3 hn h16
    exact ItemChatLink.Initialize_of_bonus_reject w color id s s1 s2 item l hread hitem hfixed
      (readCountedBonusList_over w s2 s3 n hn h16)
  · intro s3 s4 s5 s6 s7 ids mods gems j n hbonus hmods hj hgems hd6 hn h16
    obtain ⟨m, hm⟩ : ∃ m, w.MAX_ITEM_PROTO_SOCKETS = j + 1 + m :=
      ⟨w.MAX_ITEM_PROTO_SOCKETS - j - 1, by omega⟩
    refine ItemChatLink.Initialize_of_gem_reject w color id s s1 s2 s3 s4 item l ids mods hread hitem
      hfixed hbonus hmods ?_
    rw [hm]
    exact readGemBonusLists_reject w m s5 s6 hd6 (readCountedBonusList_over w s6 s7 n hn h16) j s4
      gems hgems

/-- A count of 17 followed by 17 ids that all resolve is rejected. -/
theorem bonus_count_over_16_rejected_witness :
    ItemChatLink.Initialize demoWorld 0xffa335ee ⟨[], itemOverFields, false, false⟩ = .reject :=
  (bonus_count_over_16_rejected demoWorld 0xffa335ee 124382 ⟨[], itemOverFields, false, false⟩
    ⟨(itemOverFields.take 6).reverse, itemOverFields.drop 6, false, false⟩
    ⟨(itemOverFields.take 18).reverse, itemOverFields.drop 18, false, false⟩
    itemEdict (ItemChatLink.new itemEdict) (by decide) rfl rfl).1 17
    ⟨(itemOverFields.take 20).reverse, itemOverFields.drop 20, false, false⟩ (by decide) (by decide)

/-- The epic item 124382 stated in white is rejected. -/
theorem ItemChatLink.Initialize_color_witness :
    ItemChatLink.Initialize demoWorld 0xffffffff ⟨[], "124382:".toList, false, false⟩ = .reject :=
  (ItemChatLink.Initialize_color demoWorld 0xffffffff 124382 ⟨[], "124382:".toList, false, false⟩
    ⟨"124382".toList.reverse, ":".toList, false, false⟩ itemEdict (by decide) rfl).1 (by decide)

theorem peek_not_good (s : IStream) (h : s.good = false) :
    s.peek = (none, { s with failbit := true }) := by
  simp [IStream.peek, h]

theorem peek_nil (b : List Char) : (IStream.mk b [] false false).peek = (none, ⟨b, [], true, false⟩) := rfl

theorem peek_cons (b r : List Char) (c : Char) :
    (IStream.mk b (c :: r) false false).peek = (some c, ⟨b, c :: r, false, false⟩) := rfl

theorem good_iff (s : IStream) : s.good = true ↔ s.eofbit = false ∧ s.failbit = false := by
  simp [IStream.good]

theorem ReadSkip_diverges (term : Char) (hterm : term ≠ Char.ofNat 255) :
    ∀ (fuel : Nat) (s : IStream) (res : List Char),
      (∀ c ∈ s.rest, c ≠ term ∧ c ≠ Char.ofNat 0) → ReadSkip fuel s term res = .diverge := by
  intro fuel
  induction fuel with
  | zero => intro s res _; rfl
  | succ fuel ih =>
    intro s res h
    have hc : ((Char.ofNat 255 != term) && (Char.ofNat 255 != Char.ofNat 0)) = true := by
      simp [Ne.symm hterm]
    simp only [ReadSkip]
    by_cases hg : s.good = true
    · obtain ⟨b, r, e, f⟩ := s
      obtain ⟨rfl, rfl⟩ := (good_iff _).1 hg
      cases r with
      | nil =>
        simp only [peek_nil, toChar, hc, if_true]
        exact ih _ _ (by simp [IStream.ignore, IStream.good])
      | cons c r =>
        have hc0 := h c (by simp)
        have hc1 : ((c != term) && (c != Char.ofNat 0)) = true := by
          simp [hc0.1, hc0.2]
        simp only [peek_cons, toChar, hc1, if_true]
        apply ih
        intro x hx
        simp [IStream.ignore, IStream.good, ignoreLoop] at hx
        exact h x (by simp [hx])
    · have hg' : s.good = false := by simpa using hg
      simp only [peek_not_good s hg', toChar, hc, if_true]
      apply ih
      simp only [IStream.ignore, IStream.good, Bool.not_true, Bool.and_false]
      exact h

theorem CheckDelimiter_cons (b r : List Char) (d : Char) :
    CheckDelimiter ⟨b, d :: r, false, false⟩ d = .ok () ⟨d :: b, r, false, false⟩ := by
  simp [CheckDelimiter, peek_cons, toChar, IStream.ignore, IStream.good, ignoreLoop]

theorem extract_signed (base : Nat) (b ds r : List Char) (c0 : Char) (v : Nat)
    (hne : ds ≠ []) (hv : digitsValueFrom base 0 ds = some v) (h0 : digitVal base c0 = none)
    (hx : base = 16 → c0 ≠ 'x' ∧ c0 ≠ 'X') (hmax : v ≤ 2147483647) :
    IStream.extract ⟨b, ds ++ c0 :: r, false, false⟩ base true =
      (some (v : Int), ⟨ds.reverse ++ b, c0 :: r, false, false⟩) := by
  obtain ⟨h1, h2, h3, h4⟩ := extract_prelude base b ds r c0 v hne hv h0 hx
  have hl : ds.length ≠ 0 := by simpa using hne
  simp [IStream.extract, IStream.good, h1, h2, h3, h4, hl, hmax]

theorem ReadInt32_digits (b ds r : List Char) (c0 : Char) (v : Nat)
    (hne : ds ≠ []) (hv : digitsValueFrom 10 0 ds = some v) (h0 : digitVal 10 c0 = none)
    (hmax : v ≤ 2147483647) :
    ReadInt32 ⟨b, ds ++ c0 :: r, false, false⟩ = .ok v ⟨ds.reverse ++ b, c0 :: r, false, false⟩ := by
  have h := extract_signed 10 b ds r c0 v hne hv h0 (by simp) hmax
  simp [ReadInt32, h, IStream.fail, IStream.eof]

theorem ReadHex_any (b hs r : List Char) (c0 : Char) (v : Nat)
    (hne : hs ≠ []) (hv : digitsValueFrom 16 0 hs = some v) (h0 : digitVal 16 c0 = none)
    (hx : c0 ≠ 'x' ∧ c0 ≠ 'X') (hmax : v ≤ 4294967295) :
    ReadHex ⟨b, hs ++ c0 :: r, false, false⟩ 0 = .ok v ⟨hs.reverse ++ b, c0 :: r, false, false⟩ := by
  have h := extract_unsigned 16 b hs r c0 v hne hv h0 (fun _ => hx) hmax
  simp [ReadHex, IStream.tellg, IStream.good, h, IStream.fail, IStream.eof]

theorem scanLoop_diverge {w : World} {fuel : Nat} {st : Scan}
    (hb : body w fuel st = .diverge) (heof : st.iss.eofbit = false) :
    scanLoop w (fuel + 1) st = .diverge := by
  simp [scanLoop, IStream.eof, heof, hb]


/-- A trade link that ends inside its trailing blob: the loop of `ReadSkip` never sees the
separator, and `peek()` at the end of input yields the byte 0xFF, never NUL, so that no
amount of fuel gives a verdict. -/
theorem trade_unclosed_diverges (w : World) (spell : SpellInfo)
    (hcolor : w.CHAT_LINK_COLOR_TRADE = 4294955008) (hsp : w.GetSpellInfo 4037 = some spell)
    (t : List Char) (ht : ∀ c ∈ t, c ≠ '|' ∧ c ≠ Char.ofNat 0) :
    ∀ fuel, IsValidMessage w fuel ("|cffffd000|Htrade:4037:1:150:1:".toList ++ t) = .diverge := by
  have hnul : Char.ofNat 0 ∉ "|cffffd000|Htrade:4037:1:150:1:".toList ++ t := by
    intro h
    rcases List.mem_append.1 h with h | h
    · revert h
      decide
    · exact (ht _ h).2 rfl
  have hinit : initScan (IStream.ofCStr ("|cffffd000|Htrade:4037:1:150:1:".toList ++ t)) =
      initScan ⟨[], '|' :: 'c' :: ("ffffd000".toList ++ '|' ::
        ('H' :: ("trade".toList ++ ':' :: ("4037".toList ++ ':' :: ("1".toList ++ ':' ::
          ("150".toList ++ ':' :: ("1".toList ++ ':' :: t))))))), false, false⟩ := by
    rw [ofCStr_eq _ hnul]
    rfl
  have hc := fun fuel => body_c w fuel (initScan ⟨[], '|' :: 'c' :: ("ffffd000".toList ++ '|' ::
        ('H' :: ("trade".toList ++ ':' :: ("4037".toList ++ ':' :: ("1".toList ++ ':' ::
          ("150".toList ++ ':' :: ("1".toList ++ ':' :: t))))))), false, false⟩) [] "ffffd000".toList
        ('H' :: ("trade".toList ++ ':' :: ("4037".toList ++ ':' :: ("1".toList ++ ':' ::
          ("150".toList ++ ':' :: ("1".toList ++ ':' :: t)))))) '|' 0xffffd000 rfl rfl (by decide)
        (by decide) (by decide) (by decide)
  intro fuel
  simp only [IsValidMessage, hinit]
  match fuel with
  | 0 => rfl
  | 1 => exact scanLoop_step _ (hc 0) rfl rfl
  | k + 2 =>
    refine scanLoop_step _ (hc (k + 1)) rfl ?_
    refine scanLoop_diverge ?_ rfl
    rw [body_H w k _ _ "trade".toList _ .trade rfl rfl (by decide) (by decide) (by decide)]
    simp only [Initialize, TradeChatLink.Initialize, hcolor, ne_eq, not_true_eq_false, if_false]
    rw [ReadUInt32_digits _ "4037".toList _ ':' 4037 (by decide) (by decide) (by decide) (by decide)]
    simp only [Res.andThen, hsp, DELIMITER, CheckDelimiter_cons]
    rw [ReadInt32_digits _ "1".toList _ ':' 1 (by decide) (by decide) (by decide) (by decide)]
    simp only [Res.andThen, CheckDelimiter_cons]
    rw [ReadInt32_digits _ "150".toList _ ':' 150 (by decide) (by decide) (by decide) (by decide)]
    simp only [Res.andThen, CheckDelimiter_cons]
    rw [ReadHex_any _ "1".toList _ ':' 1 (by decide) (by decide) (by decide) (by decide) (by decide)]
    simp only [Res.andThen]
    rw [ReadSkip_diverges PIPE_CHAR (by decide) k _ []]
    intro c hc
    simp only [List.mem_cons] at hc
    rcases hc with rfl | hc
    · decide
    · exact ht c hc



/-- C8 (fails on the code): on the trade link `|cffffd000|Htrade:4037:1:150:1:6AAAA`, unclosed
before the end of input, `IsValidMessage` gives no verdict with any fuel. -/
theorem IsValidMessage_trade_unclosed_diverges :
    ∀ fuel, IsValidMessage demoWorld fuel tradeUnclosed = .diverge :=
  fun fuel => trade_unclosed_diverges demoWorld spellEngineering rfl rfl "6AAAA".toList (by decide) fuel

/-- C9 (fails on the code): the trade link `tradeLink` is accepted, and its proper prefix
of 31 bytes, which ends right after the delimiter that follows the guid, is not rejected:
`IsValidMessage` gives no verdict on it with any fuel. -/
theorem IsValidMessage_trade_prefix_diverges :
    verdict (IsValidMessage demoWorld 20 tradeLink) = some true ∧ 2 ≤ 31 ∧ 31 < tradeLink.length ∧
      ∀ fuel, IsValidMessage demoWorld fuel (tradeLink.take 31) = .diverge :=
  ⟨by decide, by decide, by decide,
    fun fuel => trade_unclosed_diverges demoWorld spellEngineering rfl rfl [] (by simp) fuel⟩

/-- C10 (fails on the code): two messages of the shape of one link sequence, each rejected
alone, whose concatenation is accepted: the creator string of the item link is read by
`getline` up to the next `:`, across the end of the first link into the second. -/
theorem IsValidMessage_concat_accepts_invalid_links :
    itemCreatorLink = "|cffa335ee|Hitem:".toList ++ "124382:::::::::::::::::abc".toList ++
      "|h[".toList ++ "Edict of Argus".toList ++ "]|h|r".toList ∧
    spellEdictLink = "|cff71d5ff|Hspell:".toList ++ "21563".toList ++
      "|h[".toList ++ "Edict of Argus".toList ++ "]|h|r".toList ∧
    verdict (IsValidMessage demoWorld 20 itemCreatorLink) = some false ∧
    verdict (IsValidMessage demoWorld 20 spellEdictLink) = some false ∧
    verdict (IsValidMessage demoWorld 20 (itemCreatorLink ++ spellEdictLink)) = some true := by
  refine ⟨?_, ?_, ?_, ?_, ?_⟩ <;> decide


/-- C11 (fails on the code): the messages `abc|` and `|`, which end with a separator that
introduces a command, are accepted, with no link recorded. -/
theorem IsValidMessage_trailing_separator_accepted :
    verdict (IsValidMessage demoWorld 1 "abc|".toList) = some true ∧
    verdict (IsValidMessage demoWorld 1 "|".toList) = some true ∧
    linkSpans (IsValidMessage demoWorld 1 "abc|".toList) = some [] := by
  refine ⟨?_, ?_, ?_⟩ <;> decide

set_option maxRecDepth 100000 in
/-- C12 (fails on the code): a message of 256 bytes, none of them a separator, is
rejected. -/
theorem IsValidMessage_long_text_rejected :
    longText.length = 256 ∧ (∀ c ∈ longText, c ≠ PIPE_CHAR) ∧
    verdict (IsValidMessage demoWorld 2 longText) = some false := by
  refine ⟨?_, ?_, ?_⟩ <;> decide

/-- C15 (fails on the code): the item link of the source comment, which stops right after
its four bonus-list ids, is rejected by `ItemChatLink::Initialize` and by `IsValidMessage`,
although the item resolves, the colour is that of its quality, the four bonus lists
resolve and the caption is the item's name. -/
theorem IsValidMessage_item_comment_example_rejected :
    demoWorld.GetItemTemplate 124382 = some itemEdict ∧
    demoWorld.ItemQualityColors (ItemChatLink.colorQuality demoWorld itemEdict) = 0xffa335ee ∧
    (∀ id ∈ [42, 562, 565, 567], demoWorld.GetItemBonusList id = true) ∧
    ItemChatLink.ValidateName demoWorld itemEdict "Edict of Argus".toList = true ∧
    verdict (ItemChatLink.Initialize demoWorld 0xffa335ee
      ⟨[], "124382:0:0:0:0:0:0:0:0:0:0:0:4:42:562:565:567|".toList, false, false⟩) = some false ∧
    verdict (IsValidMessage demoWorld 20 itemCommentExample) = some false :=
  ⟨rfl, by decide, by decide, by decide, by decide, by decide⟩

/-- C16 (fails on the code): the quest link of the source comment, with colon-separated
fields, is rejected by `QuestChatLink::Initialize` and by `IsValidMessage`, although the
quest resolves, the level -1 is below `STRONG_MAX_LEVEL` and the caption is its title. -/
theorem IsValidMessage_quest_comment_example_rejected :
    demoWorld.GetQuestTemplate 51101 = some questWoundedKing ∧
    QuestChatLink.ValidateName demoWorld questWoundedKing "The Wounded King".toList = true ∧
    (-1 : Int) < demoWorld.STRONG_MAX_LEVEL ∧
    verdict (QuestChatLink.Initialize demoWorld 0xffffff00
      ⟨[], "51101:-1:110:120:5|".toList, false, false⟩) = some false ∧
    verdict (IsValidMessage demoWorld 20 questCommentExample) = some false :=
  ⟨rfl, by decide, by decide, by decide, by decide⟩

set_option maxRecDepth 100000 in
/-- C19 (fails on the code): an accepted message of 292 bytes whose only link is recorded
with the span (254, 292), and whose byte at offset 254 is `a`, not a separator. -/
theorem IsValidMessage_span_start_not_separator :
    linkSpans (IsValidMessage demoWorld 10 unseparatedLink) = some [(254, 292)] ∧
    unseparatedLink.get? 254 = some 'a' ∧ unseparatedLink.length = 292 := by
  refine ⟨?_, ?_, ?_⟩ <;> decide

/-- C20 (amended): quest links enforce no colour, `QuestChatLink::Initialize` gives the
same result for any two stated colours; enchantment links require
`CHAT_LINK_COLOR_ENCHANT`: with any other colour `EnchantmentChatLink::Initialize` returns
`false`, and with that colour its result is that of reading and resolving the spell id. -/
theorem QuestChatLink.Initialize_color_irrelevant (w : World) :
    (∀ (color1 color2 : Nat) (s : IStream),
      QuestChatLink.Initialize w color1 s = QuestChatLink.Initialize w color2 s) ∧
    (∀ (color : Nat) (s : IStream), color ≠ w.CHAT_LINK_COLOR_ENCHANT →
      EnchantmentChatLink.Initialize w color s = .reject) ∧
    (∀ (s : IStream), EnchantmentChatLink.Initialize w w.CHAT_LINK_COLOR_ENCHANT s =
      (ReadUInt32 s).andThen fun spellId s =>
        match w.GetSpellInfo spellId with
        | none => .reject
        | some spell => .ok spell s) := by
  refine ⟨?_, ?_, ?_⟩
  · intro c1 c2 s
    rfl
  · intro color s h
    simp [EnchantmentChatLink.Initialize, h]
  · intro s
    unfold EnchantmentChatLink.Initialize
    rw [if_neg (not_not.2 rfl)]

/-- An enchantment link stated in white is rejected. -/
theorem QuestChatLink.Initialize_color_irrelevant_witness :
    EnchantmentChatLink.Initialize demoWorld 0xffffffff ⟨[], "3919|".toList, false, false⟩ = .reject :=
  (QuestChatLink.Initialize_color_irrelevant demoWorld).2.1 0xffffffff
    ⟨[], "3919|".toList, false, false⟩ (by decide)

/-- C20 as stated fails: two colours give different verdicts of
`EnchantmentChatLink::Initialize` on the same input. -/
theorem EnchantmentChatLink.Initialize_color_matters :
    ¬ (∀ (color1 color2 : Nat) (s : IStream),
        verdict (EnchantmentChatLink.Initialize demoWorld color1 s) =
          verdict (EnchantmentChatLink.Initialize demoWorld color2 s)) := by
  intro h
  have := h 0xffffd000 0xffffffff ⟨[], "3919|".toList, false, false⟩
  revert this
  decide


/-- C17: once the quest id, the delimiter and the level have been read,
`QuestChatLink::Initialize` returns `false` when the level is at least `STRONG_MAX_LEVEL`,
and otherwise its result is that of the three reads that follow: the level check does not
reject a level below `STRONG_MAX_LEVEL`, negative or not. -/
theorem QuestChatLink.Initialize_level (w : World) (color id : Nat) (s s1 s2 s3 : IStream)
    (quest : Quest) (level : Int) (hread : ReadUInt32 s = .ok id s1)
    (hquest : w.GetQuestTemplate id = some quest)
    (hdelim : CheckDelimiter s1 DELIMITER = .ok () s2) (hlevel : ReadInt32 s2 = .ok level s3) :
    (level ≥ w.STRONG_MAX_LEVEL → QuestChatLink.Initialize w color s = .reject) ∧
    (level < w.STRONG_MAX_LEVEL →
      QuestChatLink.Initialize w color s =
        (ReadInt32 s3).andThen fun minLevel s =>
        (ReadInt32 s).andThen fun maxLevel s =>
        (ReadInt32 s).andThen fun scalingFaction s =>
        .ok { quest := quest, questLevel := level, minLevel := minLevel,
              maxLevel := maxLevel, scalingFaction := scalingFaction } s) := by
  refine ⟨?_, ?_⟩ <;> intro h
  · simp [QuestChatLink.Initialize, hread, Res.andThen, hquest, hdelim, hlevel, h]
  · have h' : ¬ level ≥ w.STRONG_MAX_LEVEL := not_le.2 h
    simp only [QuestChatLink.Initialize, hread, Res.andThen, hquest, hdelim, hlevel, h', if_false]

/-- Level 255 is rejected; level -1 passes. -/
theorem QuestChatLink.Initialize_level_witness :
    QuestChatLink.Initialize demoWorld 0 ⟨[], "51101:255 110 120 5|".toList, false, false⟩ = .reject ∧
    verdict (QuestChatLink.Initialize demoWorld 0 ⟨[], "51101:-1 110 120 5|".toList, false, false⟩)
      = some true :=
  ⟨(QuestChatLink.Initialize_level demoWorld 0 51101 ⟨[], "51101:255 110 120 5|".toList, false, false⟩
      ⟨"51101".toList.reverse, ":255 110 120 5|".toList, false, false⟩
      ⟨"51101:".toList.reverse, "255 110 120 5|".toList, false, false⟩
      ⟨"51101:255".toList.reverse, " 110 120 5|".toList, false, false⟩
      questWoundedKing 255 (by decide) rfl (by decide) (by decide)).1 (by decide),
   by
    rw [(QuestChatLink.Initialize_level demoWorld 0 51101 ⟨[], "51101:-1 110 120 5|".toList, false, false⟩
      ⟨"51101".toList.reverse, ":-1 110 120 5|".toList, false, false⟩
      ⟨"51101:".toList.reverse, "-1 110 120 5|".toList, false, false⟩
      ⟨"51101:-1".toList.reverse, " 110 120 5|".toList, false, false⟩
      questWoundedKing (-1) (by decide) rfl (by decide) (by decide)).2 (by decide)]
    rfl⟩

theorem extract_unsigned_overflow (base : Nat) (b ds r : List Char) (c0 : Char) (v : Nat)
    (hne : ds ≠ []) (hv : digitsValueFrom base 0 ds = some v) (h0 : digitVal base c0 = none)
    (hx : base = 16 → c0 ≠ 'x' ∧ c0 ≠ 'X') (hmax : 4294967295 < v) :
    IStream.extract ⟨b, ds ++ c0 :: r, false, false⟩ base false =
      (none, ⟨ds.reverse ++ b, c0 :: r, false, true⟩) := by
  obtain ⟨h1, h2, h3, h4⟩ := extract_prelude base b ds r c0 v hne hv h0 hx
  have hl : ds.length ≠ 0 := by simpa using hne
  have hmax' : ¬ v ≤ 4294967295 := by omega
  simp [IStream.extract, IStream.good, h1, h2, h3, h4, hl, hmax']

theorem ReadHex_overflow (b hs r : List Char) (c0 : Char) (v : Nat)
    (hne : hs ≠ []) (hv : digitsValueFrom 16 0 hs = some v) (h0 : digitVal 16 c0 = none)
    (hx : c0 ≠ 'x' ∧ c0 ≠ 'X') (hmax : 4294967295 < v) :
    ReadHex ⟨b, hs ++ c0 :: r, false, false⟩ 0 = .reject := by
  have h := extract_unsigned_overflow 16 b hs r c0 v hne hv h0 (fun _ => hx) hmax
  simp [ReadHex, IStream.tellg, IStream.good, h, IStream.fail, IStream.eof]

/-- C18 (amended): `AchievementChatLink::Initialize` reads the character identifier as a
run of hex digits into a 32-bit value: with a resolving achievement id, the right colour
and 8 progress values, it succeeds for every run of hex digits whose value fits in 32 bits
(whatever the number of digits) and returns `false` when the value does not. -/
theorem AchievementChatLink.Initialize_guid (w : World) (b ids hs r : List Char) (id v : Nat)
    (achievement : AchievementEntry)
    (hid : digitsValue 10 ids = some id) (hid32 : id ≤ 4294967295)
    (hach : w.AchievementLookup id = some achievement)
    (hv : digitsValue 16 hs = some v) :
    (v ≤ 4294967295 → ∀ (data : List Nat) (s1 : IStream),
      readProgress 8 ⟨hs.reverse ++ ':' :: (ids.reverse ++ b), ':' :: r, false, false⟩ = .ok data s1 →
      AchievementChatLink.Initialize w w.CHAT_LINK_COLOR_ACHIEVEMENT
          ⟨b, ids ++ ':' :: (hs ++ ':' :: r), false, false⟩ =
        .ok { achievement := achievement, guid := v, data := data } s1) ∧
    (4294967295 < v →
      AchievementChatLink.Initialize w w.CHAT_LINK_COLOR_ACHIEVEMENT
          ⟨b, ids ++ ':' :: (hs ++ ':' :: r), false, false⟩ = .reject) := by
  have hdne : ids ≠ [] := by
    rintro rfl
    simp [digitsValue] at hid
  have hhne : hs ≠ [] := by
    rintro rfl
    simp [digitsValue] at hv
  simp only [digitsValue, hdne, hhne, if_false] at hid hv
  have h1 := ReadUInt32_digits b ids (hs ++ ':' :: r) ':' id hdne hid (by decide) hid32
  refine ⟨?_, ?_⟩
  · intro hmax data s1 hp
    have h2 := ReadHex_any (':' :: (ids.reverse ++ b)) hs r ':' v hhne hv (by decide) (by decide) hmax
    simp [AchievementChatLink.Initialize, h1, Res.andThen, hach, DELIMITER, CheckDelimiter_cons, h2, hp]
  · intro hmax
    have h2 := ReadHex_overflow (':' :: (ids.reverse ++ b)) hs r ':' v hhne hv (by decide) (by decide) hmax
    simp [AchievementChatLink.Initialize, h1, Res.andThen, hach, DELIMITER, CheckDelimiter_cons, h2]

/-- The identifier `0000000000000001` of the source comment is read. -/
theorem AchievementChatLink.Initialize_guid_witness :
    verdict (AchievementChatLink.Initialize demoWorld demoWorld.CHAT_LINK_COLOR_ACHIEVEMENT
      ⟨[], "546".toList ++ ':' :: ("0000000000000001".toList ++ ':' :: "0:0:0:0:0:0:0:0|".toList),
        false, false⟩) = some true := by
  rw [(AchievementChatLink.Initialize_guid demoWorld [] "546".toList "0000000000000001".toList
    "0:0:0:0:0:0:0:0|".toList 546 1 ⟨546, fun _ => "Safe Deposit".toList⟩ (by decide) (by decide) rfl
    (by decide)).1 (by decide) [0, 0, 0, 0, 0, 0, 0, 0]
    ⟨"546:0000000000000001:0:0:0:0:0:0:0:0".toList.reverse, "|".toList, false, false⟩ (by decide)]
  rfl

/-- C18 as stated fails: an identifier of 16 hex digits with a non-zero upper half, which
fits in 64 bits, makes `AchievementChatLink::Initialize` return `false`. -/
theorem AchievementChatLink.Initialize_wide_guid_rejected :
    digitsValue 16 "0000000100000001".toList = some 4294967297 ∧ (4294967297 : Nat) < 2 ^ 64 ∧
    (demoWorld.AchievementLookup 546).isSome = true ∧
    verdict (AchievementChatLink.Initialize demoWorld demoWorld.CHAT_LINK_COLOR_ACHIEVEMENT
      ⟨[], achievementWideGuid, false, false⟩) = some false := by
  refine ⟨?_, ?_, ?_, ?_⟩ <;> decide


theorem getlineLoop_long (d : Char) (r : List Char) : ∀ (xs : List Char) (k : Nat) (acc b : List Char),
    d ∉ xs → k < xs.length →
    getlineLoop k d acc b (xs ++ d :: r) =
      (acc.reverse ++ xs.take k, (xs.take k).reverse ++ b, xs.drop k ++ d :: r, false, false) := by
  intro xs
  induction xs with
  | nil =>
    intro k acc b _ hk
    simp at hk
  | cons x xs ih =>
    intro k acc b hd hk
    have hx : x ≠ d := fun h => hd (by simp [h])
    have hd' : d ∉ xs := fun h => hd (by simp [h])
    cases k with
    | zero => simp [getlineLoop, hx]
    | succ k =>
      have e := ih k (x :: acc) (x :: b) hd' (by simpa using hk)
      simp only [List.cons_append, getlineLoop, hx, if_false]
      show getlineLoop k d (x :: acc) (x :: b) (xs ++ d :: r) = _
      rw [e]
      simp

theorem getline_long (d : Char) (b xs r : List Char) (n : Nat) (hd : d ∉ xs) (hk : n - 1 < xs.length) :
    IStream.getline ⟨b, xs ++ d :: r, false, false⟩ n d =
      (xs.take (n - 1), ⟨(xs.take (n - 1)).reverse ++ b, xs.drop (n - 1) ++ d :: r, false, true⟩) := by
  simp [IStream.getline, IStream.good, getlineLoop_long d r xs (n - 1) [] b hd hk]

theorem linkTypeOf_isSome (buffer : List Char) :
    (linkTypeOf buffer).isSome = true ↔ buffer ∈ linkTags := by
  unfold linkTypeOf linkTags
  simp only [List.mem_cons, List.mem_singleton, List.not_mem_nil, or_false]
  split_ifs <;> simp_all

theorem linkTypeOf_length (buffer : List Char) (t : LinkType) (h : linkTypeOf buffer = some t) :
    buffer.length ≤ 11 := by
  have hm := (linkTypeOf_isSome buffer).1 (by simp [h])
  simp only [linkTags, List.mem_cons, List.mem_singleton, List.not_mem_nil, or_false] at hm
  rcases hm with h | h | h | h | h | h | h | h <;> (rw [h]; decide)

theorem linkTypeOf_none_of_not_mem (buffer : List Char) (h : buffer ∉ linkTags) :
    linkTypeOf buffer = none := by
  cases hl : linkTypeOf buffer with
  | none => rfl
  | some t => exact absurd ((linkTypeOf_isSome buffer).1 (by simp [hl])) h

theorem getlineLoop_eof (d : Char) : ∀ (xs : List Char) (k : Nat) (acc b : List Char),
    d ∉ xs → xs.length ≤ k →
    getlineLoop k d acc b xs = (acc.reverse ++ xs, xs.reverse ++ b, [], true, false) := by
  intro xs
  induction xs with
  | nil =>
    intro k acc b _ _
    cases k <;> simp [getlineLoop]
  | cons x xs ih =>
    intro k acc b hd hk
    have hx : x ≠ d := fun h => hd (by simp [h])
    have hd' : d ∉ xs := fun h => hd (by simp [h])
    cases k with
    | zero => simp at hk
    | succ k =>
      have e := ih k (x :: acc) (x :: b) hd' (by simpa using hk)
      simp only [getlineLoop, hx, if_false]
      rw [e]
      simp

theorem getlineLoop_full (d : Char) : ∀ (xs : List Char) (k : Nat) (acc b : List Char),
    d ∉ xs → k < xs.length →
    getlineLoop k d acc b xs =
      (acc.reverse ++ xs.take k, (xs.take k).reverse ++ b, xs.drop k, false, false) := by
  intro xs
  induction xs with
  | nil =>
    intro k acc b _ hk
    simp at hk
  | cons x xs ih =>
    intro k acc b hd hk
    have hx : x ≠ d := fun h => hd (by simp [h])
    have hd' : d ∉ xs := fun h => hd (by simp [h])
    cases k with
    | zero => simp [getlineLoop, hx]
    | succ k =>
      have e := ih k (x :: acc) (x :: b) hd' (by simpa using hk)
      simp only [getlineLoop, hx, if_false]
      rw [e]
      simp

/-- C14: at an `H` command the bytes up to the next `:` select a decoder if and only if
they are one of the eight tags, compared as whole strings: for a tag of the list the pass
of the loop is decided by `Initialize` of the matching class; for any other tag, and when
no `:` follows, the scan returns `false`. -/
theorem H_command_tag (w : World) (fuel : Nat) (st : Scan) (b tag r : List Char)
    (hseq : st.seq = 1) (htag : DELIMITER ∉ tag) :
    (st.iss = ⟨b, '|' :: 'H' :: (tag ++ DELIMITER :: r), false, false⟩ → tag ∈ linkTags →
      ∃ t, linkTypeOf tag = some t ∧
        body w fuel st =
          match Initialize w fuel t st.color
              ⟨DELIMITER :: (tag.reverse ++ 'H' :: '|' :: b), r, false, false⟩ with
          | .ok d s =>
            .next { iss := s, seq := 2, startPos := st.startPos, color := st.color,
                    link := some { color := st.color, data := d, name := [], startPos := 0, endPos := 0 },
                    links := st.links ++ st.link.toList }
          | .reject => .fail
          | .diverge => .diverge
          | .undefined => .undefined) ∧
    (st.iss = ⟨b, '|' :: 'H' :: (tag ++ DELIMITER :: r), false, false⟩ → tag ∉ linkTags →
      scanLoop w (fuel + 1) st = .reject) ∧
    (st.iss = ⟨b, '|' :: 'H' :: tag, false, false⟩ → scanLoop w (fuel + 1) st = .reject) ∧
    linkTags.map linkTypeOf =
      [some .item, some .quest, some .trade, some .talent, some .spell, some .enchant,
       some .achievement, some .glyph] := by
  have htag' : ':' ∉ tag := htag
  refine ⟨?_, ?_, ?_, by decide⟩
  · intro hiss hmem
    cases hl : linkTypeOf tag with
    | none =>
      have := (linkTypeOf_isSome tag).2 hmem
      simp [hl] at this
    | some t =>
      exact ⟨t, rfl, body_H w fuel st b tag r t hseq hiss htag'
        (le_trans (linkTypeOf_length tag t hl) (by decide)) hl⟩
  · intro hiss hmem
    have hn := linkTypeOf_none_of_not_mem tag hmem
    have hb : body w fuel st = .fail := by
      by_cases hlen : tag.length ≤ 255
      · have h := getline_delim ':' ('H' :: '|' :: b) tag r 256 htag' (by simpa using hlen)
        simp [body, hseq, hiss, IStream.good, PIPE_CHAR, DELIMITER, IStream.peek, IStream.get,
          IStream.eof, validSequence, command, h, hn]
      · have h := getline_long ':' ('H' :: '|' :: b) tag r 256 htag' (by simp; omega)
        have hn' : linkTypeOf (tag.take 255) = none := by
          cases hl : linkTypeOf (tag.take 255) with
          | none => rfl
          | some t =>
            have := linkTypeOf_length _ t hl
            simp at this
            omega
        simp [body, hseq, hiss, IStream.good, PIPE_CHAR, DELIMITER, IStream.peek, IStream.get,
          IStream.eof, validSequence, command, h, hn']
    simp [scanLoop, hiss, IStream.eof, hb]
  · intro hiss
    have hb : body w fuel st = .fail := by
      by_cases hlen : tag.length ≤ 255
      · have h := getlineLoop_eof ':' tag 255 [] ('H' :: '|' :: b) htag' hlen
        simp [body, hseq, hiss, IStream.good, PIPE_CHAR, DELIMITER, IStream.peek, IStream.get,
          IStream.eof, validSequence, command, IStream.getline, h]
      · have h := getlineLoop_full ':' tag 255 [] ('H' :: '|' :: b) htag' (by omega)
        have hn' : linkTypeOf (tag.take 255) = none := by
          cases hl : linkTypeOf (tag.take 255) with
          | none => rfl
          | some t =>
            have := linkTypeOf_length _ t hl
            simp at this
            omega
        simp [body, hseq, hiss, IStream.good, PIPE_CHAR, DELIMITER, IStream.peek, IStream.get,
          IStream.eof, validSequence, command, IStream.getline, h, hn']
    simp [scanLoop, hiss, IStream.eof, hb]

/-- The tag `Item`, with a capital, is rejected. -/
theorem H_command_tag_witness :
    scanLoop demoWorld 1
      { iss := ⟨"|cffffff00".toList.reverse, "|HItem:546|h[x]|h|r".toList, false, false⟩, seq := 1,
        startPos := 0, color := 0xffffff00, link := none, links := [] } = .reject :=
  (H_command_tag demoWorld 0 _ "|cffffff00".toList.reverse "Item".toList "546|h[x]|h|r".toList rfl
    (by decide)).2.1 rfl (by decide)


theorem command_seq (w : World) (fuel : Nat) (c : Char) (st st1 : Scan)
    (h : command w fuel c st = .next st1) : st1.seq = st.seq := by
  unfold command at h
  dsimp only at h
  repeat' split at h
  all_goals first
    | (simp only [Iter.next.injEq] at h; subst h; rfl)
    | (exact absurd h (by simp))

theorem body_next (w : World) (fuel : Nat) (st st1 : Scan) (h : body w fuel st = .next st1) :
    ∃ c, readCommandChar st = some c ∧
      ((c = PIPE_CHAR ∧ st.seq = 0 ∧ st1.seq = 0) ∨
       (c ≠ PIPE_CHAR ∧ validSequence.get? st.seq = some c ∧
         st1.seq = if st.seq = 4 then 0 else st.seq + 1)) := by
  unfold body at h
  unfold readCommandChar
  by_cases hseq : st.seq = 0
  · simp only [hseq, if_true] at h ⊢
    split at h
    · exact absurd h (by simp)
    · split at h
      · exact absurd h (by simp)
      · split at h
        · exact absurd h (by simp)
        · rename_i c i2 hget
          refine ⟨c, by rw [hget], ?_⟩
          split at h
          · rename_i hc
            split at h
            · rename_i hv
              have := command_seq w fuel c _ st1 h
              exact Or.inr ⟨hc, hv, by simpa using this⟩
            · exact absurd h (by simp)
          · rename_i hc
            have hc' : c = PIPE_CHAR := by simpa using hc
            split at h
            · exact absurd h (by simp)
            · have := command_seq w fuel c _ st1 h
              exact Or.inl ⟨hc', trivial, by simpa using this⟩
  · simp only [hseq, if_false] at h ⊢
    by_cases hp : st.iss.get.1 ≠ some PIPE_CHAR
    · rw [if_pos hp] at h
      exact absurd h (by simp)
    · have hp' : st.iss.get.1 = some PIPE_CHAR := by simpa using hp
      simp only [hp', ne_eq, not_true_eq_false, if_false] at h
      split at h
      · exact absurd h (by simp)
      · split at h
        · exact absurd h (by simp)
        · split at h
          · exact absurd h (by simp)
          · rename_i c i2 hget
            refine ⟨c, by rw [hget], ?_⟩
            split at h
            · rename_i hc
              split at h
              · rename_i hv
                have := command_seq w fuel c _ st1 h
                exact Or.inr ⟨hc, hv, by simpa using this⟩
              · exact absurd h (by simp)
            · exact absurd h (by simp)

theorem body_stop (w : World) (fuel : Nat) (st st1 : Scan) (h : body w fuel st = .stop st1) :
    st1.seq = st.seq := by
  have hc : ∀ c (s' : Scan), command w fuel c s' ≠ .stop st1 := by
    intro c s' hcmd
    unfold command at hcmd
    dsimp only at hcmd
    repeat' split at hcmd
    all_goals exact absurd hcmd (by simp)
  unfold body at h
  by_cases hseq : st.seq = 0
  · simp only [hseq, if_true] at h
    split at h
    · exact absurd h (by simp)
    · split at h
      · simp only [Iter.stop.injEq] at h
        subst h
        exact hseq.symm
      · split at h
        · exact absurd h (by simp)
        · repeat' split at h
          all_goals first
            | exact absurd h (hc _ _)
            | simp at h
  · simp only [hseq, if_false] at h
    by_cases hp : st.iss.get.1 ≠ some PIPE_CHAR
    · rw [if_pos hp] at h
      exact absurd h (by simp)
    · have hp' : st.iss.get.1 = some PIPE_CHAR := by simpa using hp
      simp only [hp', ne_eq, not_true_eq_false, if_false] at h
      split at h
      · exact absurd h (by simp)
      · split at h
        · simp only [Iter.stop.injEq] at h
          subst h
          rfl
        · split at h
          · exact absurd h (by simp)
          · repeat' split at h
            all_goals first
              | exact absurd h (hc _ _)
              | simp at h

theorem body_sequence_reject (w : World) (fuel : Nat) (st : Scan) (hseq : st.seq ≠ 0)
    (h : ¬ ∃ c r, st.iss.rest = PIPE_CHAR :: c :: r ∧ validSequence.get? st.seq = some c) :
    body w fuel st = .fail ∨ ∃ st1, body w fuel st = .stop st1 := by
  obtain ⟨iss, seq, startPos, color, link, links⟩ := st
  obtain ⟨b, rest, e, f⟩ := iss
  simp only at hseq h
  cases e with
  | true => left; simp [body, hseq, IStream.get, IStream.good]
  | false =>
    cases f with
    | true => left; simp [body, hseq, IStream.get, IStream.good]
    | false =>
      cases rest with
      | nil => left; simp [body, hseq, IStream.get, IStream.good]
      | cons c1 r1 =>
        by_cases h1 : c1 = PIPE_CHAR
        · subst h1
          cases r1 with
          | nil =>
            right
            simp [body, hseq, IStream.get, IStream.good, IStream.peek, IStream.eof]
          | cons c2 r2 =>
            left
            have hv : ¬ validSequence.get? seq = some c2 := fun hv => h ⟨c2, r2, rfl, hv⟩
            by_cases h2 : c2 = PIPE_CHAR
            · simp [body, hseq, IStream.get, IStream.good, IStream.peek, IStream.eof, h2, PIPE_CHAR]
            · have hv' : ¬ validSequence[seq]? = some c2 := by simpa using hv
              simp [body, hseq, IStream.get, IStream.good, IStream.peek, IStream.eof, h2, hv']
        · left
          simp [body, hseq, IStream.get, IStream.good, h1]

theorem finish_ok_seq (st : Scan) (links : List Link) (s : IStream) (h : finish st = .ok links s) :
    st.seq = 0 := by
  unfold finish at h
  split at h
  · exact absurd h (by simp)
  · rename_i hz
    simpa using hz

theorem take_succ_validSequence (i : Nat) (c : Char) (h : validSequence.get? i = some c) :
    validSequence.take i ++ [c] = validSequence.take (i + 1) := by
  have hi : i < 5 := by
    by_contra hc
    have : validSequence.get? i = none := by
      simp [validSequence]
      omega
    rw [this] at h
    exact absurd h (by simp)
  interval_cases i <;> simp [validSequence] at h ⊢ <;> exact h.symm

theorem commandLetters_cycle (w : World) : ∀ (fuel : Nat) (st : Scan) (links : List Link) (s : IStream),
    scanLoop w fuel st = .ok links s →
    ∃ n, validSequence.take st.seq ++ commandLetters w fuel st = (List.replicate n validSequence).flatten := by
  intro fuel
  induction fuel with
  | zero =>
    intro st links s h
    exact absurd h (by simp [scanLoop])
  | succ fuel ih =>
    intro st links s h
    simp only [scanLoop, commandLetters] at h ⊢
    by_cases heof : st.iss.eof = true
    · simp only [heof, if_true] at h ⊢
      exact ⟨0, by simp [finish_ok_seq st links s h]⟩
    · simp only [heof] at h ⊢
      cases hb : body w fuel st with
      | next st1 =>
        simp only [hb] at h ⊢
        obtain ⟨n, hn⟩ := ih st1 links s h
        obtain ⟨c, hc, hcase⟩ := body_next w fuel st st1 hb
        simp only [hc]
        rcases hcase with ⟨hp, h0, h1⟩ | ⟨hp, hv, h1⟩
        · refine ⟨n, ?_⟩
          simp only [hp, ne_eq, not_true_eq_false, if_false]
          rw [h0]
          rw [h1] at hn
          exact hn
        · simp only [hp, ne_eq, not_false_eq_true, if_true]
          by_cases h4 : st.seq = 4
          · refine ⟨n + 1, ?_⟩
            simp only [h4, if_true] at h1
            rw [h1] at hn
            simp only [List.take_zero, List.nil_append] at hn
            rw [hn, List.replicate_succ, List.flatten_cons]
            have := take_succ_validSequence st.seq c hv
            rw [h4] at this
            rw [h4]
            simp [validSequence] at this ⊢
            exact this
          · refine ⟨n, ?_⟩
            simp only [h4, if_false] at h1
            rw [h1] at hn
            rw [← hn, ← take_succ_validSequence st.seq c hv]
            simp
      | stop st1 =>
        simp only [hb] at h ⊢
        have := finish_ok_seq st1 links s h
        rw [body_stop w fuel st st1 hb] at this
        exact ⟨0, by simp [this]⟩
      | fail => simp [hb] at h
      | diverge => simp [hb] at h
      | undefined => simp [hb] at h

theorem validSequence_no_separator (i : Nat) (c : Char) (h : validSequence.get? i = some c) :
    c ≠ PIPE_CHAR := by
  have hm : c ∈ validSequence := List.get?_mem h
  intro hc
  subst hc
  revert hm
  decide

/-- At the head of the loop inside an active sequence the scan returns `false` unless the
next two bytes are the separator and the letter the cycle `c H h h r` expects, so an escaped
separator `||` met there is rejected; and the commands run on an accepted message are a
whole number of repetitions of `cHhhr`. Separators that a decoder consumes are not seen by
the loop. -/
theorem sequence_enforced (w : World) (fuel : Nat) :
    (∀ st : Scan, st.seq ≠ 0 →
      (¬ ∃ c r, st.iss.rest = PIPE_CHAR :: c :: r ∧ validSequence.get? st.seq = some c) →
      scanLoop w (fuel + 1) st = .reject) ∧
    (∀ (st : Scan) (r : List Char), st.seq ≠ 0 → st.iss.rest = PIPE_CHAR :: PIPE_CHAR :: r →
      scanLoop w (fuel + 1) st = .reject) ∧
    (∀ (msg : List Char) (links : List Link) (s : IStream),
      IsValidMessage w fuel msg = .ok links s →
      ∃ n, commandLetters w fuel (initScan (IStream.ofCStr msg)) =
        (List.replicate n validSequence).flatten) := by
  have h1 : ∀ st : Scan, st.seq ≠ 0 →
      (¬ ∃ c r, st.iss.rest = PIPE_CHAR :: c :: r ∧ validSequence.get? st.seq = some c) →
      scanLoop w (fuel + 1) st = .reject := by
    intro st hseq h
    simp only [scanLoop]
    by_cases heof : st.iss.eof = true
    · simp [heof, finish, hseq]
    · simp only [heof]
      rcases body_sequence_reject w fuel st hseq h with hb | ⟨st1, hb⟩
      · simp [hb]
      · have hs := body_stop w fuel st st1 hb
        simp [hb, finish, hs, hseq]
  refine ⟨h1, ?_, ?_⟩
  · intro st r hseq hrest
    refine h1 st hseq ?_
    rintro ⟨c, r', he, hv⟩
    rw [hrest] at he
    simp only [List.cons.injEq] at he
    exact validSequence_no_separator _ _ hv he.2.1.symm
  · intro msg links s h
    obtain ⟨n, hn⟩ := commandLetters_cycle w fuel _ links s h
    exact ⟨n, by simpa [initScan] using hn⟩

/-- An escaped separator right after the colour is rejected; the command letters of the
accepted spell link are `cHhhr`. -/
theorem sequence_enforced_witness :
    scanLoop demoWorld 1
      { iss := ⟨"|cff71d5ff".toList.reverse, "||Hspell:21563|h[Command]|h|r".toList, false, false⟩,
        seq := 1, startPos := 0, color := 0xff71d5ff, link := none, links := [] } = .reject ∧
    commandLetters demoWorld 6 (initScan (IStream.ofCStr "|cff71d5ff|Hspell:21563|h[Command]|h|r".toList))
      = validSequence :=
  ⟨(sequence_enforced demoWorld 0).2.1 _ "Hspell:21563|h[Command]|h|r".toList (by decide) rfl,
   by decide⟩

theorem ignoreLoop_delim (d : Char) (r : List Char) : ∀ (t : List Char) (n : Nat) (b : List Char),
    d ∉ t → t.length < n →
    ignoreLoop n (some d) b (t ++ d :: r) = (d :: (t.reverse ++ b), r, false) := by
  intro t
  induction t with
  | nil =>
    intro n b _ hn
    obtain ⟨m, rfl⟩ : ∃ m, n = m + 1 := ⟨n - 1, by simp at hn; omega⟩
    simp [ignoreLoop]
  | cons x t ih =>
    intro n b hd hn
    obtain ⟨m, rfl⟩ : ∃ m, n = m + 1 := ⟨n - 1, by simp at hn; omega⟩
    have hx : d ≠ x := fun h => hd (by simp [h])
    have hd' : d ∉ t := fun h => hd (by simp [h])
    have e := ih m (x :: b) hd' (by simpa using hn)
    simp only [List.cons_append, ignoreLoop, Option.some.injEq, hx, if_false]
    show ignoreLoop m (some d) (x :: b) (t ++ d :: r) = _
    rw [e]
    simp

theorem ignoreLoop_end (d : Char) : ∀ (t : List Char) (n : Nat) (b : List Char),
    d ∉ t → t.length ≤ n →
    ignoreLoop n (some d) b t = (t.reverse ++ b, [], decide (t.length < n)) := by
  intro t
  induction t with
  | nil =>
    intro n b _ _
    cases n <;> simp [ignoreLoop]
  | cons x t ih =>
    intro n b hd hn
    obtain ⟨m, rfl⟩ : ∃ m, n = m + 1 := ⟨n - 1, by simp at hn; omega⟩
    have hx : d ≠ x := fun h => hd (by simp [h])
    have hd' : d ∉ t := fun h => hd (by simp [h])
    have e := ih m (x :: b) hd' (by simpa using hn)
    simp only [ignoreLoop, Option.some.injEq, hx, if_false]
    rw [e]
    simp

theorem scanLoop_plain_end (w : World) (fuel : Nat) (st : Scan) (b t : List Char)
    (hseq : st.seq = 0) (hiss : st.iss = ⟨b, t, false, false⟩)
    (hp : PIPE_CHAR ∉ t) (hlen : t.length ≤ 255) :
    scanLoop w (fuel + 1) st =
      .ok (st.links ++ st.link.toList) ⟨t.reverse ++ b, [], true, decide (t.length < 255)⟩ := by
  have h := ignoreLoop_end PIPE_CHAR t 255 b hp hlen
  by_cases hl : t.length < 255
  · simp [scanLoop, hiss, IStream.eof, body, hseq, IStream.ignore, IStream.good, h, hl,
      IStream.tellg, IStream.peek, finish]
  · simp [scanLoop, hiss, IStream.eof, body, hseq, IStream.ignore, IStream.good, h, hl,
      IStream.tellg, IStream.peek, finish]

theorem body_escaped (w : World) (fuel : Nat) (st : Scan) (b x r : List Char)
    (hseq : st.seq = 0) (hiss : st.iss = ⟨b, x ++ PIPE_CHAR :: PIPE_CHAR :: r, false, false⟩)
    (hp : PIPE_CHAR ∉ x) (hlen : x.length ≤ 254) :
    body w fuel st =
      .next { iss := ⟨PIPE_CHAR :: PIPE_CHAR :: (x.reverse ++ b), r, false, false⟩, seq := 0,
              startPos := (x.length : Int) + b.length, color := st.color, link := none,
              links := st.links ++ st.link.toList } := by
  have h := ignoreLoop_delim '|' ('|' :: r) x 255 b (show '|' ∉ x from hp) (by omega)
  simp [body, hseq, hiss, IStream.ignore, IStream.good, h, IStream.tellg, IStream.peek,
    IStream.get, IStream.eof, command, PIPE_CHAR]

theorem scanLoop_plain (w : World) (t : List Char) (hp : PIPE_CHAR ∉ t) (hlen : t.length ≤ 255) :
    ∀ (ts : List (List Char)) (k : Nat) (st : Scan) (b : List Char),
      (∀ x ∈ ts, PIPE_CHAR ∉ x ∧ x.length ≤ 254) → st.seq = 0 →
      st.iss = ⟨b, escapedText ts t, false, false⟩ →
      ∃ s, scanLoop w (ts.length + 1 + k) st = .ok (st.links ++ st.link.toList) s := by
  intro ts
  induction ts with
  | nil =>
    intro k st b _ hseq hiss
    have e : ([] : List (List Char)).length + 1 + k = k + 1 := by simp; omega
    rw [e]
    exact ⟨_, scanLoop_plain_end w k st b t hseq (by simpa [escapedText] using hiss) hp hlen⟩
  | cons x ts ih =>
    intro k st b hts hseq hiss
    have hx := hts x (by simp)
    have e : (x :: ts).length + 1 + k = (ts.length + 1 + k) + 1 := by simp; omega
    rw [e]
    have hiss' : st.iss = ⟨b, x ++ PIPE_CHAR :: PIPE_CHAR :: escapedText ts t, false, false⟩ := by
      simpa [escapedText] using hiss
    have hb := body_escaped w (ts.length + 1 + k) st b x (escapedText ts t) hseq hiss' hx.1 hx.2
    obtain ⟨s, hs⟩ := ih k
      ⟨⟨PIPE_CHAR :: PIPE_CHAR :: (x.reverse ++ b), escapedText ts t, false, false⟩, 0,
        (x.length : Int) + b.length, st.color, none, st.links ++ st.link.toList⟩
      (PIPE_CHAR :: PIPE_CHAR :: (x.reverse ++ b))
      (fun y hy => hts y (by simp [hy])) rfl rfl
    refine ⟨s, ?_⟩
    rw [scanLoop_step _ hb (by simp [hiss]) hs]
    simp

/-- Plain text with escaped separators is accepted, with no link recorded, when every run
of non-separator bytes before a `||` has at most 254 bytes and the last run at most 255. -/
theorem plain_text_accepted (w : World) (ts : List (List Char)) (t : List Char) (fuel : Nat)
    (hts : ∀ x ∈ ts, PIPE_CHAR ∉ x ∧ Char.ofNat 0 ∉ x ∧ x.length ≤ 254)
    (ht : PIPE_CHAR ∉ t ∧ Char.ofNat 0 ∉ t ∧ t.length ≤ 255) (hfuel : ts.length + 1 ≤ fuel) :
    linkSpans (IsValidMessage w fuel (escapedText ts t)) = some [] := by
  obtain ⟨k, rfl⟩ : ∃ k, fuel = ts.length + 1 + k := ⟨fuel - (ts.length + 1), by omega⟩
  have hnul : Char.ofNat 0 ∉ escapedText ts t := by
    simp only [escapedText, List.mem_append, List.mem_flatten, List.mem_map, not_or]
    refine ⟨?_, ht.2.1⟩
    rintro ⟨l, ⟨x, hx, rfl⟩, hm⟩
    rcases List.mem_append.1 hm with h | h
    · exact (hts x hx).2.1 h
    · revert h
      decide
  obtain ⟨s, hs⟩ := scanLoop_plain w t ht.1 ht.2.2 ts k (initScan ⟨[], escapedText ts t, false, false⟩) []
    (fun x hx => ⟨(hts x hx).1, (hts x hx).2.2⟩) rfl rfl
  simp only [IsValidMessage, ofCStr_eq _ hnul, hs]
  rfl

/-- No spell name matches the empty caption: empty names are skipped. -/
theorem spellNameMatches_nil (w : World) (spell : SpellInfo) : spellNameMatches w spell [] = false := by
  simp only [spellNameMatches, List.any_eq_false]
  intro i _
  cases h : spell.SpellName i <;> simp

/-- C28: `SpellChatLink::ValidateName` rejects the empty caption for every spell, trade
spell or not: whatever the names and profession prefixes in the stores, the answer is `false`. -/
theorem SpellChatLink.ValidateName_empty (w : World) (spell : SpellInfo) :
    SpellChatLink.ValidateName w spell [] = some false := by
  unfold SpellChatLink.ValidateName
  by_cases ht : spell.TradeSpell = true
  · simp only [ht, if_true]
    cases hs : SpellChatLink.skillLine w spell with
    | none => rfl
    | some skillLine =>
      have h := stripProfession_no_match skillLine.DisplayName [] (locales w w.LOCALE_enUS)
        (fun i _ hc => by
          cases hd : skillLine.DisplayName i with
          | nil => simp [hd] at hc
          | cons c r => simp [hd] at hc)
      simp only [h, spellNameMatches_nil]
  · simp only [ht, spellNameMatches_nil]
    rfl

/-- When the terminator is present, `ReadSkip` returns the bytes before it and leaves the
stream on the terminator. -/
theorem ReadSkip_terminator (term : Char) (r : List Char) :
    ∀ (xs : List Char) (fuel : Nat) (b res : List Char),
      term ∉ xs → Char.ofNat 0 ∉ xs → xs.length < fuel →
      ReadSkip fuel ⟨b, xs ++ term :: r, false, false⟩ term res =
        .ok (res ++ xs) ⟨xs.reverse ++ b, term :: r, false, false⟩ := by
  intro xs
  induction xs with
  | nil =>
    intro fuel b res _ _ hf
    obtain ⟨k, rfl⟩ : ∃ k, fuel = k + 1 := ⟨fuel - 1, by simp at hf; omega⟩
    simp [ReadSkip, peek_cons, toChar]
  | cons x xs ih =>
    intro fuel b res ht hn hf
    obtain ⟨k, rfl⟩ : ∃ k, fuel = k + 1 := ⟨fuel - 1, by simp at hf; omega⟩
    have hx : x ≠ term := fun h => ht (by simp [h])
    have hx0 : x ≠ Char.ofNat 0 := fun h => hn (by simp [h])
    have hc : ((x != term) && (x != Char.ofNat 0)) = true := by simp [hx, hx0]
    have e := ih k (x :: b) (res ++ [x]) (fun h => ht (by simp [h])) (fun h => hn (by simp [h]))
      (by simpa using hf)
    simp only [List.cons_append, ReadSkip, peek_cons, toChar, hc, if_true]
    have hi : (IStream.mk b (x :: (xs ++ term :: r)) false false).ignore 1 none =
        ⟨x :: b, xs ++ term :: r, false, false⟩ := by
      simp [IStream.ignore, IStream.good, ignoreLoop]
    rw [hi, e]
    simp

/-- C29: on the input `abc`, which holds no `|`, `ReadSkip` with terminator `|` does not stop
at the end of the input: whatever the number of iterations allowed, the loop is still running. -/
theorem ReadSkip_no_terminator_diverges :
    ∀ fuel, ReadSkip fuel ⟨[], "abc".toList, false, false⟩ PIPE_CHAR [] = .diverge :=
  fun fuel => ReadSkip_diverges PIPE_CHAR (by decide) fuel _ [] (by decide)

/-- C21 (amended): the caption is read at the first `h` of a link. There the byte after the
`h` must be `[`, the bytes up to the next `]` are the caption handed to `ValidateName`, and any
other byte after the first `h` rejects the message; the second `h` consumes its letter only. -/
theorem caption_at_first_h (w : World) (fuel : Nat) (st : Scan) (b r : List Char) :
    (∀ (N : List Char) (link : Link), st.seq = 2 →
      st.iss = ⟨b, '|' :: 'h' :: '[' :: (N ++ ']' :: r), false, false⟩ → ']' ∉ N → N.length ≤ 255 →
      st.link = some link →
      body w fuel st =
        match ValidateName w link.data N with
        | none => .undefined
        | some false => .fail
        | some true =>
          .next { iss := ⟨']' :: (N.reverse ++ '[' :: 'h' :: '|' :: b), r, false, false⟩, seq := 3,
                  startPos := st.startPos, color := st.color,
                  link := some { link with name := N }, links := st.links }) ∧
    (∀ c : Char, st.seq = 2 → st.iss = ⟨b, '|' :: 'h' :: c :: r, false, false⟩ → c ≠ '[' →
      body w fuel st = .fail) ∧
    (st.seq = 3 → st.iss = ⟨b, '|' :: 'h' :: r, false, false⟩ →
      body w fuel st = .next { st with iss := ⟨'h' :: '|' :: b, r, false, false⟩, seq := 4 }) := by
  refine ⟨?_, ?_, ?_⟩
  · intro N link hseq hiss hN hlen hlink
    exact body_h_caption w fuel st b N r link hseq hiss hN hlen hlink
  · intro c hseq hiss hc
    simp [body, hseq, hiss, IStream.good, PIPE_CHAR, IStream.peek, IStream.get, IStream.eof,
      validSequence, command, hc]
  · intro hseq hiss
    exact body_h_plain w fuel st b r hseq hiss

/-- A first `h` followed by `|` instead of `[` rejects the message. -/
theorem caption_at_first_h_witness :
    body demoWorld 0
      { iss := ⟨"|cff71d5ff|Hspell:21563".toList.reverse, "|h|h[Command]|r".toList, false, false⟩,
        seq := 2, startPos := 0, color := 0xff71d5ff,
        link := some ⟨0xff71d5ff, .spell spellCommand, [], 0, 0⟩, links := [] } = .fail :=
  (caption_at_first_h demoWorld 0 _ "|cff71d5ff|Hspell:21563".toList.reverse "h[Command]|r".toList).2.1
    '|' rfl rfl (by decide)

/-- C21 (counterexample): a link whose first `h` is bare and whose second `h` carries the
caption is rejected, and the link with the caption after the first `h` is accepted. -/
theorem caption_at_second_h_rejected :
    verdict (IsValidMessage demoWorld 10 "|cff71d5ff|Hspell:21563|h|h[Command]|r".toList) = some false ∧
    verdict (IsValidMessage demoWorld 10 "|cff71d5ff|Hspell:21563|h[Command]|h|r".toList) = some true := by
  refine ⟨?_, ?_⟩ <;> decide

/-- C24: with `MAX_ITEM_MODIFIERS = 24`, the item decoder accepts and stores the modifier
type 24, which is not below the bound, and the negative modifier type -7. -/
theorem ItemChatLink.Initialize_stores_invalid_modifier_type :
    demoWorld.MAX_ITEM_MODIFIERS = 24 ∧
    itemModifiers (ItemChatLink.Initialize demoWorld 0xffa335ee
      ⟨[], "124382:::::::::::::1:24:5:::::|".toList, false, false⟩) = some [(24, 5)] ∧
    itemModifiers (ItemChatLink.Initialize demoWorld 0xffa335ee
      ⟨[], "124382:::::::::::::1:-7:5:::::|".toList, false, false⟩) = some [(-7, 5)] := by
  refine ⟨?_, ?_, ?_⟩ <;> decide

/-- C25: the scanner accepts colour fields that are not eight hexadecimal digits: `0xffff00`
(a prefix and six digits), ` +123456` (a blank and a sign) and `-1234567` (a negated value). -/
theorem IsValidMessage_color_not_eight_hex_digits :
    linkColors (IsValidMessage demoWorld 10
      "|c0xffff00|Hquest:51101:-1 110 120 5|h[The Wounded King]|h|r".toList) = some [0xffff00] ∧
    linkColors (IsValidMessage demoWorld 10
      "|c +123456|Hquest:51101:-1 110 120 5|h[The Wounded King]|h|r".toList) = some [0x123456] ∧
    linkColors (IsValidMessage demoWorld 10
      "|c-1234567|Hquest:51101:-1 110 120 5|h[The Wounded King]|h|r".toList) = some [0xfedcba99] := by
  refine ⟨?_, ?_, ?_⟩ <;> decide

/-- Reading `k + m` progress values is reading `k` of them, then `m`. -/
theorem readProgress_add (k m : Nat) : ∀ s : IStream,
    readProgress (k + m) s =
      (readProgress k s).andThen fun ds s1 =>
      (readProgress m s1).andThen fun ds' s2 => .ok (ds ++ ds') s2 := by
  induction k with
  | zero =>
    intro s
    simp only [Nat.zero_add, readProgress, Res.andThen]
    cases readProgress m s <;> simp [Res.andThen]
  | succ k ih =>
    intro s
    rw [Nat.succ_add]
    simp only [readProgress]
    cases CheckDelimiter s DELIMITER <;> simp only [Res.andThen]
    rename_i u s1
    cases ReadUInt32 s1 <;> simp only [Res.andThen]
    rename_i d s2
    rw [ih s2]
    cases readProgress k s2 <;> simp only [Res.andThen]
    rename_i ds s3
    cases readProgress m s3 <;> simp [Res.andThen]

/-- A successful `readProgress n` returns `n` values. -/
theorem readProgress_length : ∀ (n : Nat) (s : IStream) (ds : List Nat) (s1 : IStream),
    readProgress n s = .ok ds s1 → ds.length = n := by
  intro n
  induction n with
  | zero =>
    intro s ds s1 h
    simp only [readProgress, Res.ok.injEq] at h
    simp [← h.1]
  | succ n ih =>
    intro s ds s1 h
    simp only [readProgress, Res.andThen_eq_ok] at h
    obtain ⟨_, s2, _, d, s3, _, ds', s4, h3, h4⟩ := h
    simp only [Res.ok.injEq] at h4
    rw [← h4.1, List.length_cons, ih _ _ _ h3]

/-- A byte other than the delimiter makes `CheckDelimiter` fail, whatever the stream state. -/
theorem CheckDelimiter_other (s : IStream) (c : Char) (r : List Char) (hr : s.rest = c :: r)
    (hc : c ≠ DELIMITER) : CheckDelimiter s DELIMITER = .reject := by
  obtain ⟨b, rest, e, f⟩ := s
  simp only at hr
  subst hr
  cases e <;> cases f <;> simp [CheckDelimiter, IStream.peek, IStream.good, toChar, hc, DELIMITER]
  exact hc

/-- If the closing separator follows `k` progress values, reading more than `k` fails. -/
theorem readProgress_short (k m : Nat) (s s1 : IStream) (ds : List Nat) (r : List Char)
    (h : readProgress k s = .ok ds s1) (hr : s1.rest = PIPE_CHAR :: r) :
    readProgress (k + (m + 1)) s = .reject := by
  rw [readProgress_add, h]
  simp only [Res.andThen, readProgress]
  rw [CheckDelimiter_other s1 PIPE_CHAR r hr (by decide)]


/-- C22: an achievement link carries exactly 8 delimiter-prefixed progress values. A
successful `AchievementChatLink::Initialize` has read 8 of them; when the closing separator
follows fewer than 8 values it returns `false`; and when it succeeds with the cursor on a
further `:`, the scan started at the `H` command rejects the message. -/
theorem AchievementChatLink.Initialize_eight_progress_values (w : World) (fuel : Nat) :
    (∀ (color : Nat) (s s1 : IStream) (l : AchievementChatLink),
      AchievementChatLink.Initialize w color s = .ok l s1 → l.data.length = 8) ∧
    (∀ (color k id guid : Nat) (s s1 s2 s3 s4 : IStream) (ds : List Nat) (r : List Char),
      ReadUInt32 s = .ok id s1 → CheckDelimiter s1 DELIMITER = .ok () s2 →
      ReadHex s2 0 = .ok guid s3 → readProgress k s3 = .ok ds s4 → s4.rest = PIPE_CHAR :: r →
      k < 8 → AchievementChatLink.Initialize w color s = .reject) ∧
    (∀ (st : Scan) (b r r1 : List Char) (l : AchievementChatLink) (s1 : IStream),
      st.seq = 1 →
      st.iss = ⟨b, '|' :: 'H' :: ("achievement".toList ++ ':' :: r), false, false⟩ →
      AchievementChatLink.Initialize w st.color
        ⟨':' :: ("achievement".toList.reverse ++ 'H' :: '|' :: b), r, false, false⟩ = .ok l s1 →
      s1.rest = DELIMITER :: r1 → s1.eofbit = false →
      scanLoop w (fuel + 2) st = .reject) := by
  refine ⟨?_, ?_, ?_⟩
  · intro color s s1 l h
    unfold AchievementChatLink.Initialize at h
    split at h
    · exact absurd h (by simp)
    · simp only [Res.andThen_eq_ok] at h
      obtain ⟨id, s2, _, h⟩ := h
      split at h
      · exact absurd h (by simp)
      · simp only [Res.andThen_eq_ok] at h
        obtain ⟨_, s3, _, guid, s4, _, data, s5, h5, h6⟩ := h
        simp only [Res.ok.injEq] at h6
        rw [← h6.1]
        exact readProgress_length _ _ _ _ h5
  · intro color k id guid s s1 s2 s3 s4 ds r h1 h2 h3 h4 hr hk
    obtain ⟨m, hm⟩ : ∃ m, 8 = k + (m + 1) := ⟨7 - k, by omega⟩
    unfold AchievementChatLink.Initialize
    split
    · rfl
    · simp only [h1, Res.andThen]
      split
      · rfl
      · simp only [h2, h3, Res.andThen]
        rw [hm, readProgress_short k m s3 s4 ds r h4 hr]
  · intro st b r r1 l s1 hseq hiss hinit hr he
    have hb := body_H w (fuel + 1) st b "achievement".toList r .achievement hseq hiss (by decide)
      (by decide) (by decide)
    simp only [ChatLink.Initialize, hinit, Res.andThen] at hb
    refine scanLoop_step _ hb (by rw [hiss]) ?_
    have hf : body w fuel
        { iss := s1, seq := 2, startPos := st.startPos, color := st.color,
          link := some { color := st.color, data := .achievement l, name := [], startPos := 0, endPos := 0 },
          links := st.links ++ st.link.toList } = .fail := by
      obtain ⟨b1, rest1, e1, f1⟩ := s1
      simp only at hr he
      subst hr he
      cases f1 <;> simp [body, IStream.get, IStream.good, DELIMITER, PIPE_CHAR]
    simp only [scanLoop, IStream.eof, he, hf]
    simp

/-- Eight values are read into `data`; seven values before `|` are rejected; a ninth value
after the identifier `546` rejects the message. -/
theorem AchievementChatLink.Initialize_eight_progress_values_witness :
    (AchievementChatLink.Initialize demoWorld 0xffffff00
        ⟨[], "546:0000000000000001:1:2:3:4:5:6:7:8|h".toList, false, false⟩ =
      .ok ⟨⟨546, fun _ => "Safe Deposit".toList⟩, 1, [1, 2, 3, 4, 5, 6, 7, 8]⟩
        ⟨"546:0000000000000001:1:2:3:4:5:6:7:8".toList.reverse, "|h".toList, false, false⟩ ∧
      (AchievementChatLink.mk ⟨546, fun _ => "Safe Deposit".toList⟩ 1 [1, 2, 3, 4, 5, 6, 7, 8]).data.length
        = 8) ∧
    AchievementChatLink.Initialize demoWorld 0xffffff00
      ⟨[], "546:0000000000000001:0:0:0:0:0:0:0|h".toList, false, false⟩ = .reject ∧
    scanLoop demoWorld 2
      { iss := ⟨"|cffffff00".toList.reverse,
                "|Hachievement:546:0000000000000001:0:0:0:0:0:0:0:0:0|h".toList, false, false⟩,
        seq := 1, startPos := 0, color := 0xffffff00, link := none, links := [] } = .reject :=
  ⟨⟨rfl, (AchievementChatLink.Initialize_eight_progress_values demoWorld 0).1 0xffffff00
      ⟨[], "546:0000000000000001:1:2:3:4:5:6:7:8|h".toList, false, false⟩
      ⟨"546:0000000000000001:1:2:3:4:5:6:7:8".toList.reverse, "|h".toList, false, false⟩
      ⟨⟨546, fun _ => "Safe Deposit".toList⟩, 1, [1, 2, 3, 4, 5, 6, 7, 8]⟩ rfl⟩,
   (AchievementChatLink.Initialize_eight_progress_values demoWorld 0).2.1 0xffffff00 7 546 1
      ⟨[], "546:0000000000000001:0:0:0:0:0:0:0|h".toList, false, false⟩
      ⟨"546".toList.reverse, ":0000000000000001:0:0:0:0:0:0:0|h".toList, false, false⟩
      ⟨"546:".toList.reverse, "0000000000000001:0:0:0:0:0:0:0|h".toList, false, false⟩
      ⟨"546:0000000000000001".toList.reverse, ":0:0:0:0:0:0:0|h".toList, false, false⟩
      ⟨"546:0000000000000001:0:0:0:0:0:0:0".toList.reverse, "|h".toList, false, false⟩
      [0, 0, 0, 0, 0, 0, 0] "h".toList (by rfl) (by rfl) (by rfl) (by rfl) (by rfl) (by decide),
   (AchievementChatLink.Initialize_eight_progress_values demoWorld 0).2.2
      { iss := ⟨"|cffffff00".toList.reverse,
                "|Hachievement:546:0000000000000001:0:0:0:0:0:0:0:0:0|h".toList, false, false⟩,
        seq := 1, startPos := 0, color := 0xffffff00, link := none, links := [] }
      "|cffffff00".toList.reverse "546:0000000000000001:0:0:0:0:0:0:0:0:0|h".toList "0|h".toList
      ⟨⟨546, fun _ => "Safe Deposit".toList⟩, 1, [0, 0, 0, 0, 0, 0, 0, 0]⟩
      ⟨"|cffffff00|Hachievement:546:0000000000000001:0:0:0:0:0:0:0:0".toList.reverse, ":0|h".toList, false, false⟩
      (by rfl) (by rfl) (by rfl) (by rfl) (by rfl)⟩

/-- A successful `readBonusListIDs w n` returns `n` ids, each resolving in the catalog. -/
theorem readBonusListIDs_ok (w : World) : ∀ (n : Nat) (s s1 : IStream) (ids : List Int),
    readBonusListIDs w n s = .ok ids s1 →
      ids.length = n ∧ ∀ id ∈ ids, w.GetItemBonusList id = true := by
  intro n
  induction n with
  | zero =>
    intro s s1 ids h
    simp only [readBonusListIDs, Res.ok.injEq] at h
    simp [← h.1]
  | succ n ih =>
    intro s s1 ids h
    simp only [readBonusListIDs, Res.andThen_eq_ok] at h
    obtain ⟨_, s2, _, id, s3, _, h⟩ := h
    split at h
    · rename_i hid
      simp only [Res.andThen_eq_ok] at h
      obtain ⟨ids1, s4, h4, h5⟩ := h
      simp only [Res.ok.injEq] at h5
      obtain ⟨hl, hr⟩ := ih _ _ _ h4
      rw [← h5.1]
      refine ⟨by simp [hl], ?_⟩
      intro x hx
      simp only [List.mem_cons] at hx
      rcases hx with rfl | hx
      · exact hid
      · exact hr x hx
    · exact absurd h (by simp)

/-- A successful `readModifiers w n` returns `n` pairs. -/
theorem readModifiers_ok (w : World) : ∀ (n : Nat) (s s1 : IStream) (ms : List (Int × Int)),
    readModifiers w n s = .ok ms s1 → ms.length = n := by
  intro n
  induction n with
  | zero =>
    intro s s1 ms h
    simp only [readModifiers, Res.ok.injEq] at h
    simp [← h.1]
  | succ n ih =>
    intro s s1 ms h
    simp only [readModifiers, Res.andThen_eq_ok] at h
    obtain ⟨_, s2, _, type, s3, _, h⟩ := h
    split at h
    · exact absurd h (by simp)
    · simp only [Res.andThen_eq_ok] at h
      obtain ⟨_, s4, _, id, s5, _, ms1, s6, h6, h7⟩ := h
      simp only [Res.ok.injEq] at h7
      rw [← h7.1, List.length_cons, ih _ _ _ h6]

/-- A successful `readCountedBonusList` has read a count of at most 16 and returns that many
ids, each resolving in the catalog. -/
theorem readCountedBonusList_ok (w : World) (s s1 : IStream) (ids : List Int)
    (h : readCountedBonusList w s = .ok ids s1) :
    ∃ n s0, optUInt32 s 0 = .ok n s0 ∧ n ≤ 16 ∧ ids.length = n ∧
      ∀ id ∈ ids, w.GetItemBonusList id = true := by
  simp only [readCountedBonusList, Res.andThen_eq_ok] at h
  obtain ⟨n, s0, h0, h⟩ := h
  split at h
  · exact absurd h (by simp)
  · rename_i hn
    obtain ⟨hl, hr⟩ := readBonusListIDs_ok w _ _ _ _ h
    exact ⟨n, s0, h0, by omega, hl, hr⟩

/-- A successful `readGemBonusLists w n` returns `n` lists of at most 16 ids, each
resolving in the catalog. -/
theorem readGemBonusLists_ok (w : World) : ∀ (n : Nat) (s s1 : IStream) (gs : List (List Int)),
    readGemBonusLists w n s = .ok gs s1 →
      gs.length = n ∧ ∀ g ∈ gs, g.length ≤ 16 ∧ ∀ id ∈ g, w.GetItemBonusList id = true := by
  intro n
  induction n with
  | zero =>
    intro s s1 gs h
    simp only [readGemBonusLists, Res.ok.injEq] at h
    simp [← h.1]
  | succ n ih =>
    intro s s1 gs h
    simp only [readGemBonusLists, Res.andThen_eq_ok] at h
    obtain ⟨_, s2, _, ids, s3, h3, rest, s4, h4, h5⟩ := h
    simp only [Res.ok.injEq] at h5
    obtain ⟨m, _, _, hm, hl, hr⟩ := readCountedBonusList_ok w _ _ _ h3
    obtain ⟨hl1, hr1⟩ := ih _ _ _ h4
    rw [← h5.1]
    refine ⟨by simp [hl1], ?_⟩
    intro g hg
    simp only [List.mem_cons] at hg
    rcases hg with rfl | hg
    · exact ⟨by omega, hr⟩
    · exact hr1 g hg

/-- C26: whenever `ItemChatLink::Initialize` returns `true`, the bonus-list ids stored are at
most 16 and all resolve in the catalog, the modifiers are at most `MAX_ITEM_MODIFIERS`, there
is one gem bonus list per socket, each of at most 16 ids that all resolve; and the number of
bonus-list ids stored is the count read after the eleven fixed fields. -/
theorem ItemChatLink.Initialize_lists_bounded (w : World) (color : Nat) (s s1 : IStream)
    (l : ItemChatLink) (h : ItemChatLink.Initialize w color s = .ok l s1) :
    (l.bonusListIDs.length ≤ 16 ∧ (∀ id ∈ l.bonusListIDs, w.GetItemBonusList id = true) ∧
      l.modifiers.length ≤ w.MAX_ITEM_MODIFIERS ∧
      l.gemBonusListIDs.length = w.MAX_ITEM_PROTO_SOCKETS ∧
      ∀ g ∈ l.gemBonusListIDs, g.length ≤ 16 ∧ ∀ id ∈ g, w.GetItemBonusList id = true) ∧
    ∃ (itemEntry : Nat) (item : ItemTemplate) (sI sF sN : IStream) (lF : ItemChatLink) (n : Nat),
      ReadUInt32 s = .ok itemEntry sI ∧ w.GetItemTemplate itemEntry = some item ∧
      ItemChatLink.readFixed (ItemChatLink.new item) sI = .ok lF sF ∧
      optUInt32 sF 0 = .ok n sN ∧ l.bonusListIDs.length = n := by
  simp only [ItemChatLink.Initialize, Res.andThen_eq_ok] at h
  obtain ⟨itemEntry, sI, hI, h⟩ := h
  split at h
  · exact absurd h (by simp)
  · rename_i item hitem
    split at h
    · exact absurd h (by simp)
    · simp only [ItemChatLink.readFields, Res.andThen_eq_ok] at h
      obtain ⟨lF, sF, hF, ids, sB, hB, ms, sM, hM, gs, sG, hG, hT⟩ := h
      simp only [ItemChatLink.readTail, Res.andThen_eq_ok] at hT
      obtain ⟨_, _, _, _, _, _, _, _, _, u, sU, _, hT⟩ := hT
      simp only [Res.ok.injEq] at hT
      obtain ⟨n, sN, hN, hn16, hlen, hres⟩ := readCountedBonusList_ok w _ _ _ hB
      obtain ⟨hgl, hgr⟩ := readGemBonusLists_ok w _ _ _ _ hG
      have hml : ms.length ≤ w.MAX_ITEM_MODIFIERS := by
        simp only [ItemChatLink.readModifierList, Res.andThen_eq_ok] at hM
        obtain ⟨_, _, _, k, _, _, hM⟩ := hM
        split at hM
        · exact absurd hM (by simp)
        · rw [readModifiers_ok w _ _ _ _ hM]
          omega
      rw [← hT.1]
      exact ⟨⟨by simpa [hlen] using hn16, hres, hml, hgl, hgr⟩,
        itemEntry, item, sI, sF, sN, lF, n, hI, hitem, hF, hN, hlen⟩

/-- The epic item 124382 with two bonus lists, one modifier pair and one gem bonus list. -/
theorem ItemChatLink.Initialize_lists_bounded_witness :
    ItemChatLink.Initialize demoWorld 0xffa335ee
        ⟨[], "124382::::::::::::2:42:562:1:3:5:1:565::::|h".toList, false, false⟩ =
      .ok { ItemChatLink.new itemEdict with
              bonusListIDs := [42, 562], modifiers := [(3, 5)], gemBonusListIDs := [[565], [], []] }
        ⟨"124382::::::::::::2:42:562:1:3:5:1:565::::".toList.reverse, "|h".toList, false, false⟩ ∧
    ((2 : Nat) ≤ 16 ∧ (∀ id ∈ [(42 : Int), 562], demoWorld.GetItemBonusList id = true) ∧
      (1 : Nat) ≤ demoWorld.MAX_ITEM_MODIFIERS ∧
      (3 : Nat) = demoWorld.MAX_ITEM_PROTO_SOCKETS ∧
      ∀ g ∈ [[(565 : Int)], [], []], g.length ≤ 16 ∧ ∀ id ∈ g, demoWorld.GetItemBonusList id = true) :=
  ⟨rfl, (ItemChatLink.Initialize_lists_bounded demoWorld 0xffa335ee
      ⟨[], "124382::::::::::::2:42:562:1:3:5:1:565::::|h".toList, false, false⟩
      ⟨"124382::::::::::::2:42:562:1:3:5:1:565::::".toList.reverse, "|h".toList, false, false⟩
      { ItemChatLink.new itemEdict with
          bonusListIDs := [42, 562], modifiers := [(3, 5)], gemBonusListIDs := [[565], [], []] }
      rfl).1⟩

/-- A pass of the loop that runs to its end has executed one command, on the state left by
the prologue of the pass: same colour, the link pointer reset if no sequence was open. -/
theorem body_next_command (w : World) (fuel : Nat) (st st1 : Scan) (h : body w fuel st = .next st1) :
    ∃ c st0, command w fuel c st0 = .next st1 ∧ st0.color = st.color ∧
      st0.link = (if st.seq = 0 then none else st.link) ∧
      ((c = PIPE_CHAR ∧ st.seq = 0 ∧ st0.seq = 0) ∨
       (c ≠ PIPE_CHAR ∧ validSequence.get? st.seq = some c ∧
         st0.seq = if st.seq = 4 then 0 else st.seq + 1)) := by
  unfold body at h
  by_cases hseq : st.seq = 0
  · simp only [hseq, if_true] at h ⊢
    split at h
    · exact absurd h (by simp)
    · split at h
      · exact absurd h (by simp)
      · split at h
        · exact absurd h (by simp)
        · rename_i c i2 hget
          split at h
          · rename_i hc
            split at h
            · rename_i hv
              exact ⟨c, _, h, rfl, rfl, Or.inr ⟨hc, hv, rfl⟩⟩
            · exact absurd h (by simp)
          · rename_i hc
            have hc' : c = PIPE_CHAR := by simpa using hc
            split at h
            · exact absurd h (by simp)
            · exact ⟨c, _, h, rfl, rfl, Or.inl ⟨hc', trivial, rfl⟩⟩
  · simp only [hseq, if_false] at h ⊢
    by_cases hp : st.iss.get.1 ≠ some PIPE_CHAR
    · rw [if_pos hp] at h
      exact absurd h (by simp)
    · have hp' : st.iss.get.1 = some PIPE_CHAR := by simpa using hp
      simp only [hp', ne_eq, not_true_eq_false, if_false] at h
      split at h
      · exact absurd h (by simp)
      · split at h
        · exact absurd h (by simp)
        · split at h
          · exact absurd h (by simp)
          · rename_i c i2 hget
            split at h
            · rename_i hc
              split at h
              · rename_i hv
                exact ⟨c, _, h, rfl, rfl, Or.inr ⟨hc, hv, rfl⟩⟩
              · exact absurd h (by simp)
            · exact absurd h (by simp)

/-- What a command that runs to its end does to the colour and the link pointer. -/
theorem command_link (w : World) (fuel : Nat) (c : Char) (st st1 : Scan)
    (h : command w fuel c st = .next st1) :
    (c = 'c' → st1.link = st.link) ∧
    (c = 'H' → st1.color = st.color ∧
      ∃ d, st1.link = some { color := st.color, data := d, name := [], startPos := 0, endPos := 0 }) ∧
    (c = 'h' → st1.color = st.color ∧
      (st1.link = st.link ∨
        ∃ link N, st.link = some link ∧ st1.link = some { link with name := N })) := by
  unfold command at h
  dsimp only at h
  repeat' split at h
  all_goals first
    | (simp only [Iter.next.injEq] at h; subst h; simp_all)
    | (exact absurd h (by simp))

/-- One pass of the loop keeps the link pointer null before `H` and set, with the current
colour and no bounds, between `H` and `r`. -/
theorem link_set_step (w : World) (fuel : Nat) (st st1 : Scan) (h : body w fuel st = .next st1)
    (hi : (st.seq = 1 → st.link = none) ∧
      (st.seq = 2 ∨ st.seq = 3 ∨ st.seq = 4 →
        ∃ d N, st.link = some { color := st.color, data := d, name := N, startPos := 0, endPos := 0 })) :
    (st1.seq = 1 → st1.link = none) ∧
      (st1.seq = 2 ∨ st1.seq = 3 ∨ st1.seq = 4 →
        ∃ d N, st1.link = some { color := st1.color, data := d, name := N, startPos := 0, endPos := 0 }) := by
  obtain ⟨c, st0, hc, hcol, hlink, hcase⟩ := body_next_command w fuel st st1 h
  have hs := command_seq w fuel c st0 st1 hc
  obtain ⟨k1, k2, k3⟩ := command_link w fuel c st0 st1 hc
  rcases hcase with ⟨_, _, h0⟩ | ⟨_, hv, h0⟩
  · rw [h0] at hs
    exact ⟨fun e => by omega, fun e => by omega⟩
  · have hlt : st.seq < 5 := by
      by_contra hge
      have : validSequence.get? st.seq = none := by
        rw [List.get?_eq_none]
        simp only [validSequence, List.length_cons, List.length_nil]
        omega
      rw [this] at hv
      exact absurd hv (by simp)
    rw [h0] at hs
    have hcases : st.seq = 0 ∨ st.seq = 1 ∨ st.seq = 2 ∨ st.seq = 3 ∨ st.seq = 4 := by omega
    rcases hcases with e | e | e | e | e
    · rw [e] at hv hs hlink
      have hcc : c = 'c' := by simpa [validSequence] using hv.symm
      simp only [if_true] at hlink
      refine ⟨fun _ => by rw [k1 hcc, hlink], fun e1 => ?_⟩
      simp at hs
      omega
    · rw [e] at hv hs
      have hcc : c = 'H' := by simpa [validSequence] using hv.symm
      obtain ⟨hc1, d, hd⟩ := k2 hcc
      simp at hs
      refine ⟨fun e1 => by omega, fun _ => ⟨d, [], ?_⟩⟩
      rw [hd, hc1]
    · rw [e] at hv hs hlink
      have hcc : c = 'h' := by simpa [validSequence] using hv.symm
      obtain ⟨hc1, hl⟩ := k3 hcc
      obtain ⟨d, N, hdN⟩ := hi.2 (Or.inl e)
      simp at hs hlink
      refine ⟨fun e1 => by omega, fun _ => ?_⟩
      rw [hc1, hcol]
      rcases hl with hl | ⟨link, N1, hl1, hl2⟩
      · exact ⟨d, N, by rw [hl, hlink, hdN]⟩
      · rw [hlink, hdN] at hl1
        simp only [Option.some.injEq] at hl1
        subst hl1
        exact ⟨d, N1, hl2⟩
    · rw [e] at hv hs hlink
      have hcc : c = 'h' := by simpa [validSequence] using hv.symm
      obtain ⟨hc1, hl⟩ := k3 hcc
      obtain ⟨d, N, hdN⟩ := hi.2 (Or.inr (Or.inl e))
      simp at hs hlink
      refine ⟨fun e1 => by omega, fun _ => ?_⟩
      rw [hc1, hcol]
      rcases hl with hl | ⟨link, N1, hl1, hl2⟩
      · exact ⟨d, N, by rw [hl, hlink, hdN]⟩
      · rw [hlink, hdN] at hl1
        simp only [Option.some.injEq] at hl1
        subst hl1
        exact ⟨d, N1, hl2⟩
    · rw [e] at hs
      simp at hs
      exact ⟨fun e1 => by omega, fun e1 => by omega⟩

/-- The property of `link_set_step` holds at every loop head visited from a state where it
holds. -/
theorem link_set_scanStates (w : World) : ∀ (fuel : Nat) (st : Scan),
    ((st.seq = 1 → st.link = none) ∧
      (st.seq = 2 ∨ st.seq = 3 ∨ st.seq = 4 →
        ∃ d N, st.link = some { color := st.color, data := d, name := N, startPos := 0, endPos := 0 })) →
    ∀ st1 ∈ scanStates w fuel st,
      (st1.seq = 1 → st1.link = none) ∧
      (st1.seq = 2 ∨ st1.seq = 3 ∨ st1.seq = 4 →
        ∃ d N, st1.link = some { color := st1.color, data := d, name := N, startPos := 0, endPos := 0 }) := by
  intro fuel
  induction fuel with
  | zero =>
    intro st hi st1 hm
    simp only [scanStates, List.mem_singleton] at hm
    subst hm
    exact hi
  | succ fuel ih =>
    intro st hi st1 hm
    simp only [scanStates, List.mem_cons] at hm
    rcases hm with rfl | hm
    · exact hi
    · split at hm
      · exact absurd hm (by simp)
      · split at hm
        · rename_i st2 hb
          exact ih st2 (link_set_step w fuel st st2 hb hi) st1 hm
        · exact absurd hm (by simp)

/-- C27: at every head of the loop of `IsValidMessage`, for every message, the link pointer
is null when the `H` command is expected and, when the caption, the second `h` or `r` is
expected, it is the object constructed by the `H` command of this cycle (current colour,
bounds not set): the caption step and the `r` command never find a null pointer. -/
theorem link_set_at_caption (w : World) (fuel : Nat) (msg : List Char) (i : Nat) (st : Scan)
    (h : (scanStates w fuel (initScan (IStream.ofCStr msg))).get? i = some st) :
    (st.seq = 1 → st.link = none) ∧
    (st.seq = 2 ∨ st.seq = 3 ∨ st.seq = 4 →
      ∃ d N, st.link = some { color := st.color, data := d, name := N, startPos := 0, endPos := 0 }) :=
  link_set_scanStates w fuel (initScan (IStream.ofCStr msg))
    ⟨fun _ => rfl, fun e => by simp [initScan] at e⟩ st (List.get?_mem h)

/-- In the source's spell link example the state before the caption holds the spell link. -/
theorem link_set_at_caption_witness :
    (scanStates demoWorld 6 (initScan (IStream.ofCStr "|cff71d5ff|Hspell:21563|h[Command]|h|r".toList))).get? 2
      = some spellScanAfterH ∧
    ∃ d N, spellScanAfterH.link =
      some { color := spellScanAfterH.color, data := d, name := N, startPos := 0, endPos := 0 } :=
  ⟨rfl, (link_set_at_caption demoWorld 6 "|cff71d5ff|Hspell:21563|h[Command]|h|r".toList 2
    spellScanAfterH rfl).2 (Or.inl rfl)⟩

theorem Res.sim_ok_left {α : Type} {a : α} {s : IStream} {r : Res α} (h : (Res.ok a s).sim r) :
    ∃ s', r = .ok a s' ∧ s.sim s' := by
  cases r with
  | ok a' s' => exact ⟨s', by rw [h.1], h.2⟩
  | reject => exact absurd h (by simp [Res.sim])
  | diverge => exact absurd h (by simp [Res.sim])
  | undefined => exact absurd h (by simp [Res.sim])

theorem Res.sim_not_ok {α : Type} {r r' : Res α} (h : r.sim r') (hn : ∀ a s, r ≠ .ok a s) :
    r' = r := by
  cases r <;> cases r' <;> simp_all [Res.sim]

theorem Res.sim_andThen {α β : Type} {r r' : Res α} {K : α → IStream → Res β} (h : r.sim r')
    (hK : ∀ a s s', s.sim s' → (K a s).sim (K a s')) : (r.andThen K).sim (r'.andThen K) := by
  cases r with
  | ok a s =>
    obtain ⟨s', rfl, hs⟩ := Res.sim_ok_left h
    exact hK a s s' hs
  | reject => rw [Res.sim_not_ok h (by simp)]; trivial
  | diverge => rw [Res.sim_not_ok h (by simp)]; trivial
  | undefined => rw [Res.sim_not_ok h (by simp)]; trivial

theorem Stage.bind {d : Char} {r0 : List Char} {α β : Type} {R : IStream → Res α}
    {RL : IStream → List IStream} {K : α → IStream → Res β} {KL : α → IStream → List IStream}
    (hR : Stage d r0 R RL) (hK : ∀ a, Stage d r0 (K a) (KL a)) :
    Stage d r0 (fun s => (R s).andThen K) (fun s => RL s ++ sitesThen (R s) KL) := by
  obtain ⟨hA, hP, hB⟩ := hR
  refine ⟨?_, ?_, ?_⟩
  · intro s s' h
    exact Res.sim_andThen (hA s s' h) (fun a s s' h => (hK a).1 s s' h)
  · intro s hs
    obtain ⟨h1, h2⟩ := hP s hs
    refine ⟨?_, ?_⟩
    · intro t ht
      simp only [List.mem_append] at ht
      rcases ht with ht | ht
      · exact h1 t ht
      · cases hr : R s with
        | ok a s1 =>
          rw [hr] at ht
          exact ((hK a).2.1 s1 (h2 a s1 hr)).1 t ht
        | reject => rw [hr] at ht; simp [sitesThen] at ht
        | diverge => rw [hr] at ht; simp [sitesThen] at ht
        | undefined => rw [hr] at ht; simp [sitesThen] at ht
    · intro b s2 h
      simp only [Res.andThen_eq_ok] at h
      obtain ⟨a, s1, hr, hk⟩ := h
      exact ((hK a).2.1 s1 (h2 a s1 hr)).2 b s2 hk
  · intro s s' q hq
    rcases hB s s' q hq with h | ⟨h1, h2⟩
    · exact Or.inl (Res.sim_andThen h (fun a s s' h => (hK a).1 s s' h))
    · cases hr : R s with
      | ok a s1 =>
        rcases h2 a s1 hr with hp | ⟨s1', q1, hr', hq1⟩
        · refine Or.inr ⟨?_, ?_⟩
          · intro t ht
            simp only [List.mem_append, hr, sitesThen] at ht
            rcases ht with ht | ht
            · exact h1 t ht
            · exact Nat.ne_of_lt (((hK a).2.1 s1 hp).1 t ht)
          · intro b s2 h
            simp only [hr, Res.andThen] at h
            exact Or.inl (((hK a).2.1 s1 hp).2 b s2 h)
        · rcases (hK a).2.2 s1 s1' q1 hq1 with hk | ⟨k1, k2⟩
          · left
            simp only [hr, hr', Res.andThen]
            exact hk
          · refine Or.inr ⟨?_, ?_⟩
            · intro t ht
              simp only [List.mem_append, hr, sitesThen] at ht
              rcases ht with ht | ht
              · exact h1 t ht
              · exact k1 t ht
            · intro b s2 h
              simp only [hr, Res.andThen] at h
              rcases k2 b s2 h with hp | ⟨s2', q2, hk', hq2⟩
              · exact Or.inl hp
              · exact Or.inr ⟨s2', q2, by simp only [hr', Res.andThen, hk'], hq2⟩
      | reject =>
        refine Or.inr ⟨?_, ?_⟩
        · intro t ht
          simp only [List.mem_append, hr, sitesThen, List.not_mem_nil, or_false] at ht
          exact h1 t ht
        · intro b s2 h
          simp [hr, Res.andThen] at h
      | diverge =>
        refine Or.inr ⟨?_, ?_⟩
        · intro t ht
          simp only [List.mem_append, hr, sitesThen, List.not_mem_nil, or_false] at ht
          exact h1 t ht
        · intro b s2 h
          simp [hr, Res.andThen] at h
      | undefined =>
        refine Or.inr ⟨?_, ?_⟩
        · intro t ht
          simp only [List.mem_append, hr, sitesThen, List.not_mem_nil, or_false] at ht
          exact h1 t ht
        · intro b s2 h
          simp [hr, Res.andThen] at h

theorem IStream.sim_refl (s : IStream) : s.sim s := ⟨rfl, rfl, rfl⟩

theorem Stage.congr {d : Char} {r0 : List Char} {α : Type} {R R' : IStream → Res α}
    {L L' : IStream → List IStream} (hR : ∀ s, R s = R' s) (hL : ∀ s, L s = L' s)
    (h : Stage d r0 R L) : Stage d r0 R' L' := by
  have e1 : R = R' := funext hR
  have e2 : L = L' := funext hL
  subst e1 e2
  exact h

theorem Stage.pure (d : Char) (r0 : List Char) {α : Type} (v : α) :
    Stage d r0 (fun s => Res.ok v s) (fun _ => []) := by
  refine ⟨?_, ?_, ?_⟩
  · intro s s' h
    exact ⟨rfl, h⟩
  · intro s hs
    refine ⟨fun t ht => by simp at ht, ?_⟩
    intro a s1 h
    simp only [Res.ok.injEq] at h
    rw [← h.2]
    exact hs
  · intro s s' q hq
    refine Or.inr ⟨fun t ht => by simp at ht, ?_⟩
    intro a s1 h
    simp only [Res.ok.injEq] at h
    obtain ⟨rfl, rfl⟩ := h
    exact Or.inr ⟨s', q, rfl, hq⟩

theorem Stage.reject (d : Char) (r0 : List Char) {α : Type} :
    Stage d r0 (fun _ => (Res.reject : Res α)) (fun _ => []) := by
  refine ⟨?_, ?_, ?_⟩
  · intro s s' h
    trivial
  · intro s hs
    exact ⟨fun t ht => by simp at ht, fun a s1 h => by simp at h⟩
  · intro s s' q hq
    exact Or.inl trivial

theorem sitesThen_nil {α : Type} (r : Res α) : sitesThen r (fun _ _ => []) = [] := by
  cases r <;> rfl

/-- Sequencing of two calls that test no numeric field. -/
theorem Stage.bind_plain {d : Char} {r0 : List Char} {α β : Type} {R : IStream → Res α}
    {K : α → IStream → Res β}
    (hR : Stage d r0 R (fun _ => [])) (hK : ∀ a, Stage d r0 (K a) (fun _ => [])) :
    Stage d r0 (fun s => (R s).andThen K) (fun _ => []) :=
  Stage.congr (fun _ => rfl) (fun s => by simp [sitesThen_nil]) (Stage.bind hR hK)

/-- Sequencing after a call that tests no numeric field. -/
theorem Stage.bind_after {d : Char} {r0 : List Char} {α β : Type} {R : IStream → Res α}
    {K : α → IStream → Res β} {KL : α → IStream → List IStream}
    (hR : Stage d r0 R (fun _ => [])) (hK : ∀ a, Stage d r0 (K a) (KL a)) :
    Stage d r0 (fun s => (R s).andThen K) (fun s => sitesThen (R s) KL) :=
  Stage.congr (fun _ => rfl) (fun s => by simp) (Stage.bind hR hK)

/-- Sequencing after a call that tests one numeric field, at its start. -/
theorem Stage.bind_site {d : Char} {r0 : List Char} {α β : Type} {R : IStream → Res α}
    {K : α → IStream → Res β} {KL : α → IStream → List IStream}
    (hR : Stage d r0 R (fun s => [s])) (hK : ∀ a, Stage d r0 (K a) (KL a)) :
    Stage d r0 (fun s => (R s).andThen K) (fun s => s :: sitesThen (R s) KL) :=
  Stage.congr (fun _ => rfl) (fun s => by simp) (Stage.bind hR hK)

theorem CheckDelimiter_eq (s : IStream) :
    CheckDelimiter s DELIMITER =
      if s.good = true ∧ s.rest.head? = some ':' then
        .ok () ⟨':' :: s.before, s.rest.tail, false, false⟩
      else .reject := by
  obtain ⟨b, r, e, f⟩ := s
  by_cases hg : e = false ∧ f = false
  · obtain ⟨rfl, rfl⟩ := hg
    cases r with
    | nil =>
      simp [CheckDelimiter, IStream.peek, IStream.good, toChar, DELIMITER]
    | cons c r =>
      by_cases hc : c = ':'
      · subst hc
        simp [CheckDelimiter, IStream.peek, IStream.good, toChar, DELIMITER, IStream.ignore,
          ignoreLoop]
      · simp [CheckDelimiter, IStream.peek, IStream.good, toChar, DELIMITER, hc]
  · have hg' : (!e && !f) = false := by
      cases e <;> cases f <;> simp at hg ⊢
    simp only [CheckDelimiter, IStream.peek, IStream.good, hg', toChar, DELIMITER]
    simp

theorem stage_CheckDelimiter (d : Char) (r0 : List Char) :
    Stage d r0 (fun s => CheckDelimiter s DELIMITER) (fun _ => []) := by
  refine ⟨?_, ?_, ?_⟩
  · intro s s' h
    obtain ⟨h1, h2, h3⟩ := h
    simp only [CheckDelimiter_eq, IStream.good, h1, h2, h3]
    split
    · exact ⟨rfl, rfl, rfl, rfl⟩
    · trivial
  · intro s hs
    refine ⟨fun t ht => by simp at ht, ?_⟩
    intro a s1 h
    dsimp only at h
    rw [CheckDelimiter_eq] at h
    split at h
    · simp only [Res.ok.injEq] at h
      rw [← h.2]
      simp only [List.length_tail]
      omega
    · exact absurd h (by simp)
  · intro s s' q hq
    obtain ⟨e1, f1, e2, f2, hr, hr'⟩ := hq
    refine Or.inr ⟨fun t ht => by simp at ht, ?_⟩
    intro a s1 h
    dsimp only at h
    rw [CheckDelimiter_eq] at h
    split at h
    · rename_i hc
      simp only [Res.ok.injEq] at h
      cases q with
      | nil =>
        rw [hr] at hc
        simp at hc
      | cons x q =>
        rw [hr] at hc
        simp only [List.cons_append, List.head?_cons, Option.some.injEq] at hc
        obtain ⟨_, rfl⟩ := hc
        refine Or.inr ⟨⟨':' :: s'.before, s'.rest.tail, false, false⟩, q, ?_, ?_⟩
        · dsimp only
          rw [CheckDelimiter_eq, if_pos (by simp [IStream.good, e2, f2, hr'])]
        · rw [← h.2]
          simp [Before, hr, hr']
    · exact absurd h (by simp)

theorem skipWs_shift : ∀ (r b : List Char),
    skipWs r b = ((skipWs r []).1 ++ b, (skipWs r []).2) := by
  intro r
  induction r with
  | nil => intro b; rfl
  | cons c r ih =>
    intro b
    by_cases hc : isSpace c = true
    · simp only [skipWs, hc, if_true]
      rw [ih (c :: b), ih [c]]
      simp
    · simp [skipWs, hc]

theorem skipWs_length (r b : List Char) : (skipWs r b).2.length ≤ r.length := by
  induction r generalizing b with
  | nil => simp [skipWs]
  | cons c r ih =>
    by_cases hc : isSpace c = true
    · simp only [skipWs, hc, if_true, List.length_cons]
      exact Nat.le_succ_of_le (ih _)
    · simp [skipWs, hc]

theorem readSign_shift (r b : List Char) :
    readSign r b = ((readSign r []).1, (readSign r []).2.1 ++ b, (readSign r []).2.2) := by
  cases r with
  | nil => rfl
  | cons c r =>
    by_cases h1 : c = '-'
    · simp [readSign, h1]
    · by_cases h2 : c = '+'
      · simp [readSign, h2]
      · simp [readSign, h1, h2]

theorem readSign_length (r b : List Char) : (readSign r b).2.2.length ≤ r.length := by
  cases r with
  | nil => simp [readSign]
  | cons c r =>
    by_cases h1 : c = '-'
    · simp [readSign, h1]
    · by_cases h2 : c = '+'
      · simp [readSign, h2]
      · simp [readSign, h1, h2]

theorem readHexPrefix_ten (r b : List Char) : readHexPrefix 10 r b = (b, r) := by
  unfold readHexPrefix
  split
  · simp
  · rfl

theorem readDigits_shift (base : Nat) : ∀ (r b : List Char) (acc cnt : Nat),
    readDigits base r b acc cnt =
      ((readDigits base r [] acc cnt).1, (readDigits base r [] acc cnt).2.1,
        (readDigits base r [] acc cnt).2.2.1 ++ b, (readDigits base r [] acc cnt).2.2.2) := by
  intro r
  induction r with
  | nil => intro b acc cnt; rfl
  | cons c r ih =>
    intro b acc cnt
    cases hd : digitVal base c with
    | none => simp [readDigits, hd]
    | some x =>
      simp only [readDigits, hd]
      rw [ih (c :: b), ih [c]]
      simp

theorem readDigits_length (base : Nat) : ∀ (r b : List Char) (acc cnt : Nat),
    (readDigits base r b acc cnt).2.2.2.length ≤ r.length := by
  intro r
  induction r with
  | nil => intro b acc cnt; simp [readDigits]
  | cons c r ih =>
    intro b acc cnt
    cases hd : digitVal base c with
    | none => simp [readDigits, hd]
    | some x =>
      simp only [readDigits, hd, List.length_cons]
      exact Nat.le_succ_of_le (ih _ _ _)

/-- Formatted extraction in base 10 does not depend on the bytes already consumed. -/
theorem extract_sim (s s' : IStream) (signed : Bool) (h : s.sim s') :
    (s.extract 10 signed).1 = (s'.extract 10 signed).1 ∧
      (s.extract 10 signed).2.sim (s'.extract 10 signed).2 := by
  obtain ⟨b, r, e, f⟩ := s
  obtain ⟨b', r', e', f'⟩ := s'
  obtain ⟨h1, h2, h3⟩ := h
  simp only at h1 h2 h3
  subst h1 h2 h3
  unfold IStream.extract
  simp only [IStream.good, readHexPrefix_ten]
  rw [skipWs_shift r b, skipWs_shift r b']
  generalize skipWs r [] = W
  obtain ⟨W1, W2⟩ := W
  simp only
  rw [readSign_shift W2 (W1 ++ b), readSign_shift W2 (W1 ++ b')]
  generalize readSign W2 [] = S
  obtain ⟨S1, S2, S3⟩ := S
  simp only
  rw [readDigits_shift 10 S3 (S2 ++ (W1 ++ b)), readDigits_shift 10 S3 (S2 ++ (W1 ++ b'))]
  generalize readDigits 10 S3 [] 0 0 = D
  obtain ⟨D1, D2, D3, D4⟩ := D
  simp only
  split_ifs <;> simp [IStream.sim]

/-- Formatted extraction does not lengthen the remaining input. -/
theorem extract_length (s : IStream) (signed : Bool) :
    (s.extract 10 signed).2.rest.length ≤ s.rest.length := by
  obtain ⟨b, r, e, f⟩ := s
  unfold IStream.extract
  simp only [IStream.good, readHexPrefix_ten]
  have k1 := skipWs_length r b
  generalize skipWs r b = W at k1 ⊢
  obtain ⟨W1, W2⟩ := W
  have k2 := readSign_length W2 W1
  generalize readSign W2 W1 = S at k2 ⊢
  obtain ⟨S1, S2, S3⟩ := S
  have k3 := readDigits_length 10 S3 S2 0 0
  generalize readDigits 10 S3 S2 0 0 = D at k3 ⊢
  obtain ⟨D1, D2, D3, D4⟩ := D
  simp only at k1 k2 k3 ⊢
  split_ifs <;> simp <;> omega

theorem skipWs_append (q : List Char) :
    (∃ B c q2, isSpace c = false ∧
      ∀ Y b, skipWs (q ++ Y) b = (B ++ b, c :: q2 ++ Y)) ∨
    (∀ Y b, skipWs (q ++ Y) b = skipWs Y (q.reverse ++ b)) := by
  induction q with
  | nil => exact Or.inr (fun Y b => rfl)
  | cons x q ih =>
    by_cases hx : isSpace x = true
    · rcases ih with ⟨B, c, q2, hc, h⟩ | h
      · refine Or.inl ⟨B ++ [x], c, q2, hc, fun Y b => ?_⟩
        have e : skipWs (x :: (q ++ Y)) b = skipWs (q ++ Y) (x :: b) := by simp [skipWs, hx]
        rw [List.cons_append, e, h]
        simp
      · refine Or.inr (fun Y b => ?_)
        have e : skipWs (x :: (q ++ Y)) b = skipWs (q ++ Y) (x :: b) := by simp [skipWs, hx]
        rw [List.cons_append, e, h]
        simp
    · refine Or.inl ⟨[], x, q, by simpa using hx, fun Y b => ?_⟩
      simp [skipWs, hx]

theorem readDigits_append_tail (q : List Char) :
    (∃ (f : Nat → Nat) (n : Nat) (B : List Char) (c : Char) (q2 : List Char),
      digitVal 10 c = none ∧
      ∀ Y b acc cnt, readDigits 10 (q ++ Y) b acc cnt = (f acc, cnt + n, B ++ b, c :: q2 ++ Y)) ∨
    (∃ f : Nat → Nat, ∀ Y b acc cnt,
      readDigits 10 (q ++ Y) b acc cnt = readDigits 10 Y (q.reverse ++ b) (f acc) (cnt + q.length)) := by
  induction q with
  | nil => exact Or.inr ⟨id, fun Y b acc cnt => rfl⟩
  | cons x q ih =>
    cases hx : digitVal 10 x with
    | none =>
      refine Or.inl ⟨id, 0, [], x, q, hx, fun Y b acc cnt => ?_⟩
      simp [readDigits, hx]
    | some v =>
      rcases ih with ⟨f, n, B, c, q2, hc, h⟩ | ⟨f, h⟩
      · refine Or.inl ⟨fun acc => f (acc * 10 + v), n + 1, B ++ [x], c, q2, hc, fun Y b acc cnt => ?_⟩
        have e : readDigits 10 (x :: (q ++ Y)) b acc cnt =
            readDigits 10 (q ++ Y) (x :: b) (acc * 10 + v) (cnt + 1) := by simp [readDigits, hx]
        rw [List.cons_append, e, h]
        simp only [List.append_assoc, List.singleton_append, List.cons_append, Prod.mk.injEq,
          and_true, true_and]
        exact ⟨by omega, by simp⟩
      · refine Or.inr ⟨fun acc => f (acc * 10 + v), fun Y b acc cnt => ?_⟩
        have e : readDigits 10 (x :: (q ++ Y)) b acc cnt =
            readDigits 10 (q ++ Y) (x :: b) (acc * 10 + v) (cnt + 1) := by simp [readDigits, hx]
        rw [List.cons_append, e, h]
        simp only [List.reverse_cons, List.append_assoc, List.singleton_append, List.length_cons]
        rw [Nat.add_assoc, Nat.add_comm 1]

theorem readDigits_zero (d : Char) (r0 b : List Char) (acc cnt : Nat) (hd : digitVal 10 d = none) :
    readDigits 10 ('0' :: d :: r0) b acc cnt = (acc * 10 + 0, cnt + 1, '0' :: b, d :: r0) := by
  have h0 : digitVal 10 '0' = some 0 := by decide
  simp [readDigits, h0, hd]

theorem readSign_append (c : Char) (q2 : List Char) :
    ∃ (neg : Bool) (S q3 : List Char), ∀ Y b, readSign (c :: q2 ++ Y) b = (neg, S ++ b, q3 ++ Y) := by
  by_cases h1 : c = '-'
  · exact ⟨true, [c], q2, fun Y b => by simp [readSign, h1]⟩
  · by_cases h2 : c = '+'
    · exact ⟨false, [c], q2, fun Y b => by simp [readSign, h2]⟩
    · exact ⟨false, [], c :: q2, fun Y b => by simp [readSign, h1, h2]⟩

theorem skipWs_zero (d : Char) (r0 b : List Char) :
    skipWs ('0' :: d :: r0) b = (b, '0' :: d :: r0) :=
  skipWs_nonspace _ _ _ (by decide)

theorem readSign_zero (d : Char) (r0 b : List Char) :
    readSign ('0' :: d :: r0) b = (false, b, '0' :: d :: r0) := by
  simp [readSign]

/-- The parts of the result of a decimal extraction on a good stream with a byte left after
the white space: value and `failbit` are a function of the sign, the digits' value and
their number; the remaining input is the one left by `readDigits`. -/
theorem extract_parts (signed : Bool) :
    ∃ G : Bool → Nat → Nat → Option Int × Bool, ∀ (b r : List Char), (skipWs r b).2 ≠ [] →
      (IStream.extract ⟨b, r, false, false⟩ 10 signed).1 =
        (G (readSign (skipWs r b).2 (skipWs r b).1).1
          (readDigits 10 (readSign (skipWs r b).2 (skipWs r b).1).2.2
            (readSign (skipWs r b).2 (skipWs r b).1).2.1 0 0).1
          (readDigits 10 (readSign (skipWs r b).2 (skipWs r b).1).2.2
            (readSign (skipWs r b).2 (skipWs r b).1).2.1 0 0).2.1).1 ∧
      (IStream.extract ⟨b, r, false, false⟩ 10 signed).2.failbit =
        (G (readSign (skipWs r b).2 (skipWs r b).1).1
          (readDigits 10 (readSign (skipWs r b).2 (skipWs r b).1).2.2
            (readSign (skipWs r b).2 (skipWs r b).1).2.1 0 0).1
          (readDigits 10 (readSign (skipWs r b).2 (skipWs r b).1).2.2
            (readSign (skipWs r b).2 (skipWs r b).1).2.1 0 0).2.1).2 ∧
      (IStream.extract ⟨b, r, false, false⟩ 10 signed).2.rest =
        (readDigits 10 (readSign (skipWs r b).2 (skipWs r b).1).2.2
          (readSign (skipWs r b).2 (skipWs r b).1).2.1 0 0).2.2.2 ∧
      (IStream.extract ⟨b, r, false, false⟩ 10 signed).2.eofbit =
        (readDigits 10 (readSign (skipWs r b).2 (skipWs r b).1).2.2
          (readSign (skipWs r b).2 (skipWs r b).1).2.1 0 0).2.2.2.isEmpty := by
  refine ⟨fun neg v cnt =>
    if cnt = 0 then (none, true)
    else if signed then
      if neg then (if v ≤ 2147483648 then (some (-(v : Int)), false) else (none, true))
      else (if v ≤ 2147483647 then (some (v : Int), false) else (none, true))
    else
      if v ≤ 4294967295 then
        (some (if neg then (((4294967296 - v) % 4294967296 : Nat) : Int) else (v : Int)), false)
      else (none, true), fun b r hne => ?_⟩
  have he : (skipWs r b).2.isEmpty = false := by
    cases hw : (skipWs r b).2 with
    | nil => exact absurd hw hne
    | cons _ _ => rfl
  unfold IStream.extract
  simp only [IStream.good, Bool.not_false, Bool.and_self, if_true, readHexPrefix_ten, he,
    Bool.false_eq_true, if_false]
  generalize readSign (skipWs r b).2 (skipWs r b).1 = S
  obtain ⟨S1, S2, S3⟩ := S
  generalize readDigits 10 S3 S2 0 0 = D
  obtain ⟨D1, D2, D3, D4⟩ := D
  simp only
  split_ifs <;> simp

/-- Extraction on the two inputs of `Before`: on the first the cursor ends after the `0`,
or both extractions end at the same byte before it with the same value and state bits. -/
theorem extract_before (d : Char) (r0 q b b' : List Char) (signed : Bool)
    (hd : digitVal 10 d = none) :
    (IStream.extract ⟨b, q ++ '0' :: d :: r0, false, false⟩ 10 signed).2.rest.length < r0.length + 2 ∨
    ((IStream.extract ⟨b, q ++ '0' :: d :: r0, false, false⟩ 10 signed).1 =
        (IStream.extract ⟨b', q ++ d :: r0, false, false⟩ 10 signed).1 ∧
      (IStream.extract ⟨b, q ++ '0' :: d :: r0, false, false⟩ 10 signed).2.eofbit = false ∧
      (IStream.extract ⟨b', q ++ d :: r0, false, false⟩ 10 signed).2.eofbit = false ∧
      (IStream.extract ⟨b, q ++ '0' :: d :: r0, false, false⟩ 10 signed).2.failbit =
        (IStream.extract ⟨b', q ++ d :: r0, false, false⟩ 10 signed).2.failbit ∧
      ∃ q1, (IStream.extract ⟨b, q ++ '0' :: d :: r0, false, false⟩ 10 signed).2.rest =
          q1 ++ '0' :: d :: r0 ∧
        (IStream.extract ⟨b', q ++ d :: r0, false, false⟩ 10 signed).2.rest = q1 ++ d :: r0) := by
  obtain ⟨G, hG⟩ := extract_parts signed
  rcases skipWs_append q with ⟨B, c, q2, hc, h⟩ | h
  · obtain ⟨neg, S, q3, hS⟩ := readSign_append c q2
    have n1 : (skipWs (q ++ '0' :: d :: r0) b).2 ≠ [] := by rw [h]; simp
    have n2 : (skipWs (q ++ d :: r0) b').2 ≠ [] := by rw [h]; simp
    obtain ⟨a1, a2, a3, a4⟩ := hG b _ n1
    obtain ⟨b1, b2, b3, b4⟩ := hG b' _ n2
    rw [h] at a1 a2 a3 a4 b1 b2 b3 b4
    simp only [hS] at a1 a2 a3 a4 b1 b2 b3 b4
    rcases readDigits_append_tail q3 with ⟨f, n, D, c1, q4, hc1, hD⟩ | ⟨f, hD⟩
    · right
      simp only [hD] at a1 a2 a3 a4 b1 b2 b3 b4
      rw [a1, a2, a3, a4, b1, b2, b3, b4]
      exact ⟨rfl, by simp, by simp, rfl, c1 :: q4, rfl, rfl⟩
    · left
      simp only [hD, readDigits_zero d r0 _ _ _ hd] at a3
      rw [a3]
      simp
  · left
    have n1 : (skipWs (q ++ '0' :: d :: r0) b).2 ≠ [] := by rw [h, skipWs_zero]; simp
    obtain ⟨a1, a2, a3, a4⟩ := hG b _ n1
    rw [h] at a3
    simp only [skipWs_zero, readSign_zero, readDigits_zero d r0 _ _ _ hd] at a3
    rw [a3]
    simp

theorem ReadInt32_eq_ok (s s1 : IStream) (a : Int) :
    ReadInt32 s = .ok a s1 ↔
      (s.extract 10 true).1 = some a ∧ (s.extract 10 true).2 = s1 ∧
        s1.failbit = false ∧ s1.eofbit = false := by
  unfold ReadInt32
  generalize s.extract 10 true = E
  obtain ⟨v, t⟩ := E
  cases v with
  | none => simp
  | some v =>
    obtain ⟨tb, tr, te, tf⟩ := t
    cases te <;> cases tf <;> simp [IStream.fail, IStream.eof]
    all_goals
      intro _ h
      subst h
      simp

theorem ReadUInt32_eq_ok (s s1 : IStream) (a : Nat) :
    ReadUInt32 s = .ok a s1 ↔
      ∃ v : Int, (s.extract 10 false).1 = some v ∧ v.toNat = a ∧ (s.extract 10 false).2 = s1 ∧
        s1.failbit = false ∧ s1.eofbit = false := by
  unfold ReadUInt32
  generalize s.extract 10 false = E
  obtain ⟨v, t⟩ := E
  cases v with
  | none => simp
  | some v =>
    obtain ⟨tb, tr, te, tf⟩ := t
    cases te <;> cases tf <;> simp [IStream.fail, IStream.eof]
    all_goals
      intro _ h
      subst h
      simp

theorem ReadInt32_sim (s s' : IStream) (h : s.sim s') : (ReadInt32 s).sim (ReadInt32 s') := by
  obtain ⟨h1, h2⟩ := extract_sim s s' true h
  unfold ReadInt32
  generalize s.extract 10 true = E at h1 h2
  generalize s'.extract 10 true = E' at h1 h2
  obtain ⟨v, t⟩ := E
  obtain ⟨v', t'⟩ := E'
  simp only at h1 h2
  subst h1
  obtain ⟨k1, k2, k3⟩ := h2
  cases v with
  | none => trivial
  | some v =>
    simp only [IStream.fail, IStream.eof, k2, k3]
    split
    · exact ⟨rfl, k1, k2, k3⟩
    · trivial

theorem ReadUInt32_sim (s s' : IStream) (h : s.sim s') : (ReadUInt32 s).sim (ReadUInt32 s') := by
  obtain ⟨h1, h2⟩ := extract_sim s s' false h
  unfold ReadUInt32
  generalize s.extract 10 false = E at h1 h2
  generalize s'.extract 10 false = E' at h1 h2
  obtain ⟨v, t⟩ := E
  obtain ⟨v', t'⟩ := E'
  simp only at h1 h2
  subst h1
  obtain ⟨k1, k2, k3⟩ := h2
  cases v with
  | none => trivial
  | some v =>
    simp only [IStream.fail, IStream.eof, k2, k3]
    split
    · exact ⟨rfl, k1, k2, k3⟩
    · trivial

theorem Before.streams {d : Char} {r0 q : List Char} {s s' : IStream} (h : Before d r0 q s s') :
    s = ⟨s.before, q ++ '0' :: d :: r0, false, false⟩ ∧
      s' = ⟨s'.before, q ++ d :: r0, false, false⟩ := by
  obtain ⟨b, r, e, f⟩ := s
  obtain ⟨b', r', e', f'⟩ := s'
  obtain ⟨h1, h2, h3, h4, h5, h6⟩ := h
  simp only at h1 h2 h3 h4 h5 h6
  subst h1 h2 h3 h4 h5 h6
  exact ⟨rfl, rfl⟩

theorem stage_ReadInt32 (d : Char) (r0 : List Char) (hd : digitVal 10 d = none) :
    Stage d r0 ReadInt32 (fun _ => []) := by
  refine ⟨ReadInt32_sim, ?_, ?_⟩
  · intro s hs
    refine ⟨fun t ht => by simp at ht, ?_⟩
    intro a s1 h
    rw [ReadInt32_eq_ok] at h
    have := extract_length s true
    rw [h.2.1] at this
    omega
  · intro s s' q hq
    refine Or.inr ⟨fun t ht => by simp at ht, ?_⟩
    intro a s1 h
    rw [ReadInt32_eq_ok] at h
    obtain ⟨h1, h2, h3, h4⟩ := h
    obtain ⟨e1, e2⟩ := hq.streams
    have key := extract_before d r0 q s.before s'.before true hd
    rw [← e1, ← e2] at key
    rcases key with k | ⟨k1, k2, k3, k4, q1, k5, k6⟩
    · left
      rw [h2] at k
      exact k
    · right
      refine ⟨(s'.extract 10 true).2, q1, ?_, ?_⟩
      · rw [ReadInt32_eq_ok]
        rw [h2, h3] at k4
        exact ⟨by rw [← k1, h1], rfl, k4.symm, k3⟩
      · rw [h2] at k4 k5
        exact ⟨h4, h3, k3, by rw [← k4, h3], k5, k6⟩

theorem stage_ReadUInt32 (d : Char) (r0 : List Char) (hd : digitVal 10 d = none) :
    Stage d r0 ReadUInt32 (fun _ => []) := by
  refine ⟨ReadUInt32_sim, ?_, ?_⟩
  · intro s hs
    refine ⟨fun t ht => by simp at ht, ?_⟩
    intro a s1 h
    rw [ReadUInt32_eq_ok] at h
    obtain ⟨v, _, _, h2, _⟩ := h
    have := extract_length s false
    rw [h2] at this
    omega
  · intro s s' q hq
    refine Or.inr ⟨fun t ht => by simp at ht, ?_⟩
    intro a s1 h
    rw [ReadUInt32_eq_ok] at h
    obtain ⟨v, h1, hv, h2, h3, h4⟩ := h
    obtain ⟨e1, e2⟩ := hq.streams
    have key := extract_before d r0 q s.before s'.before false hd
    rw [← e1, ← e2] at key
    rcases key with k | ⟨k1, k2, k3, k4, q1, k5, k6⟩
    · left
      rw [h2] at k
      exact k
    · right
      refine ⟨(s'.extract 10 false).2, q1, ?_, ?_⟩
      · rw [ReadUInt32_eq_ok]
        rw [h2, h3] at k4
        exact ⟨v, by rw [← k1, h1], hv, rfl, k4.symm, k3⟩
      · rw [h2] at k4 k5
        exact ⟨h4, h3, k3, by rw [← k4, h3], k5, k6⟩

theorem peek_sim (s s' : IStream) (h : s.sim s') : s.peek.1 = s'.peek.1 ∧ s.peek.2.sim s'.peek.2 := by
  obtain ⟨b, r, e, f⟩ := s
  obtain ⟨b', r', e', f'⟩ := s'
  obtain ⟨h1, h2, h3⟩ := h
  simp only at h1 h2 h3
  subst h1 h2 h3
  unfold IStream.peek
  simp only [IStream.good]
  split
  · split <;> exact ⟨rfl, rfl, rfl, rfl⟩
  · exact ⟨rfl, rfl, rfl, rfl⟩

theorem peek_rest (s : IStream) : s.peek.2.rest = s.rest := by
  unfold IStream.peek
  split
  · split <;> rfl
  · rfl

theorem HasValue_sim (s s' : IStream) (h : s.sim s') :
    (HasValue s).1 = (HasValue s').1 ∧ (HasValue s).2.sim (HasValue s').2 := by
  obtain ⟨h1, h2⟩ := peek_sim s s' h
  exact ⟨by simp only [HasValue, h1], by simpa only [HasValue] using h2⟩

theorem HasValue_cons (b r : List Char) (x : Char) :
    HasValue ⟨b, x :: r, false, false⟩ = (x != DELIMITER && x != PIPE_CHAR, ⟨b, x :: r, false, false⟩) := by
  simp [HasValue, peek_cons, toChar]

theorem optInt32_zero (d : Char) (b r0 : List Char) (hd : d = DELIMITER ∨ d = PIPE_CHAR) :
    optInt32 ⟨b, '0' :: d :: r0, false, false⟩ 0 = .ok 0 ⟨'0' :: b, d :: r0, false, false⟩ := by
  have h0 : digitVal 10 d = none := by
    rcases hd with rfl | rfl <;> decide
  have := ReadInt32_digits b ['0'] r0 d 0 (by simp) (by decide) h0 (by decide)
  simp only [List.singleton_append, List.reverse_cons, List.reverse_nil, List.nil_append] at this
  simp only [optInt32, HasValue_cons]
  rw [if_pos (by decide)]
  simpa using this

theorem optInt32_omitted (d : Char) (b r0 : List Char) (x0 : Int) (hd : d = DELIMITER ∨ d = PIPE_CHAR) :
    optInt32 ⟨b, d :: r0, false, false⟩ x0 = .ok x0 ⟨b, d :: r0, false, false⟩ := by
  simp only [optInt32, HasValue_cons]
  rcases hd with rfl | rfl <;> simp [DELIMITER, PIPE_CHAR]

theorem optUInt32_zero (d : Char) (b r0 : List Char) (hd : d = DELIMITER ∨ d = PIPE_CHAR) :
    optUInt32 ⟨b, '0' :: d :: r0, false, false⟩ 0 = .ok 0 ⟨'0' :: b, d :: r0, false, false⟩ := by
  have h0 : digitVal 10 d = none := by
    rcases hd with rfl | rfl <;> decide
  have := ReadUInt32_digits b ['0'] r0 d 0 (by simp) (by decide) h0 (by decide)
  simp only [List.singleton_append, List.reverse_cons, List.reverse_nil, List.nil_append] at this
  simp only [optUInt32, HasValue_cons]
  rw [if_pos (by decide)]
  simpa using this

theorem optUInt32_omitted (d : Char) (b r0 : List Char) (x0 : Nat) (hd : d = DELIMITER ∨ d = PIPE_CHAR) :
    optUInt32 ⟨b, d :: r0, false, false⟩ x0 = .ok x0 ⟨b, d :: r0, false, false⟩ := by
  simp only [optUInt32, HasValue_cons]
  rcases hd with rfl | rfl <;> simp [DELIMITER, PIPE_CHAR]

/-- An optional numeric field read with default 0, as a stage with one numeric site. -/
theorem stage_opt {α : Type} (d : Char) (r0 : List Char) (hd : d = DELIMITER ∨ d = PIPE_CHAR)
    (R : IStream → Res α) (zero : α) (hR : Stage d r0 R (fun _ => []))
    (hz : ∀ b, R ⟨b, '0' :: d :: r0, false, false⟩ = .ok zero ⟨'0' :: b, d :: r0, false, false⟩) :
    Stage d r0 (fun s => if (HasValue s).1 then R (HasValue s).2 else .ok zero (HasValue s).2)
      (fun s => [s]) := by
  obtain ⟨hA, hP, hB⟩ := hR
  refine ⟨?_, ?_, ?_⟩
  · intro s s' h
    obtain ⟨h1, h2⟩ := HasValue_sim s s' h
    simp only [h1]
    split
    · exact hA _ _ h2
    · exact ⟨rfl, h2⟩
  · intro s hs
    refine ⟨fun t ht => by simp at ht; rw [ht]; exact hs, ?_⟩
    intro a s1 h
    have hl : (HasValue s).2.rest.length < r0.length + 2 := by
      simp only [HasValue, peek_rest]
      exact hs
    simp only at h
    split at h
    · exact (hP _ hl).2 a s1 h
    · simp only [Res.ok.injEq] at h
      rw [← h.2]
      exact hl
  · intro s s' q hq
    obtain ⟨e1, e2⟩ := hq.streams
    cases q with
    | nil =>
      left
      rw [e1, e2]
      simp only [List.nil_append, HasValue_cons]
      have c1 : (('0' : Char) != DELIMITER && '0' != PIPE_CHAR) = true := by decide
      have c2 : (d != DELIMITER && d != PIPE_CHAR) = false := by
        rcases hd with rfl | rfl <;> decide
      simp only [c1, c2, if_true, Bool.false_eq_true, if_false, hz]
      exact ⟨rfl, rfl, rfl, rfl⟩
    | cons x q =>
      have hsite : ∀ t ∈ [s], t.rest.length ≠ r0.length + 2 := by
        intro t ht
        simp only [List.mem_singleton] at ht
        rw [ht, hq.2.2.2.2.1]
        simp only [List.length_append, List.length_cons]
        omega
      have hq' : Before d r0 (x :: q) ⟨s.before, x :: (q ++ '0' :: d :: r0), false, false⟩
          ⟨s'.before, x :: (q ++ d :: r0), false, false⟩ := ⟨rfl, rfl, rfl, rfl, rfl, rfl⟩
      by_cases hx : (x != DELIMITER && x != PIPE_CHAR) = true
      · have o1 : (if (HasValue s).1 then R (HasValue s).2 else .ok zero (HasValue s).2) =
            R ⟨s.before, x :: (q ++ '0' :: d :: r0), false, false⟩ := by
          rw [e1]
          simp only [List.cons_append, HasValue_cons, hx, if_true]
        have o2 : (if (HasValue s').1 then R (HasValue s').2 else .ok zero (HasValue s').2) =
            R ⟨s'.before, x :: (q ++ d :: r0), false, false⟩ := by
          rw [e2]
          simp only [List.cons_append, HasValue_cons, hx, if_true]
        simp only [o1, o2]
        rcases hB _ _ _ hq' with k | ⟨_, k⟩
        · exact Or.inl k
        · exact Or.inr ⟨hsite, k⟩
      · have o1 : (if (HasValue s).1 then R (HasValue s).2 else .ok zero (HasValue s).2) =
            .ok zero ⟨s.before, x :: (q ++ '0' :: d :: r0), false, false⟩ := by
          rw [e1]
          simp only [List.cons_append, HasValue_cons, hx, Bool.false_eq_true, if_false]
        have o2 : (if (HasValue s').1 then R (HasValue s').2 else .ok zero (HasValue s').2) =
            .ok zero ⟨s'.before, x :: (q ++ d :: r0), false, false⟩ := by
          rw [e2]
          simp only [List.cons_append, HasValue_cons, hx, Bool.false_eq_true, if_false]
        simp only [o1, o2]
        refine Or.inr ⟨hsite, ?_⟩
        intro a s1 h
        simp only [Res.ok.injEq] at h
        obtain ⟨rfl, rfl⟩ := h
        exact Or.inr ⟨_, x :: q, rfl, hq'⟩

theorem stage_optInt32 (d : Char) (r0 : List Char) (hd : d = DELIMITER ∨ d = PIPE_CHAR) :
    Stage d r0 (fun s => optInt32 s 0) (fun s => [s]) := by
  have h0 : digitVal 10 d = none := by
    rcases hd with rfl | rfl <;> decide
  refine stage_opt d r0 hd ReadInt32 0 (stage_ReadInt32 d r0 h0) (fun b => ?_)
  have := ReadInt32_digits b ['0'] r0 d 0 (by simp) (by decide) h0 (by decide)
  simpa using this

theorem stage_optUInt32 (d : Char) (r0 : List Char) (hd : d = DELIMITER ∨ d = PIPE_CHAR) :
    Stage d r0 (fun s => optUInt32 s 0) (fun s => [s]) := by
  have h0 : digitVal 10 d = none := by
    rcases hd with rfl | rfl <;> decide
  refine stage_opt d r0 hd ReadUInt32 0 (stage_ReadUInt32 d r0 h0) (fun b => ?_)
  have := ReadUInt32_digits b ['0'] r0 d 0 (by simp) (by decide) h0 (by decide)
  simpa using this

theorem readCreator_not_good (s : IStream) (h : s.good = false) : readCreator s = .reject := by
  have hp := peek_not_good s h
  simp only [readCreator, HasValue, hp, toChar]
  rw [if_pos (by decide)]
  simp [IStream.getline, IStream.good, IStream.fail]

theorem readCreator_nil (b : List Char) : readCreator ⟨b, [], false, false⟩ = .reject := by
  simp only [readCreator, HasValue, peek_nil, toChar]
  rw [if_pos (by decide)]
  simp [IStream.getline, IStream.good, IStream.fail]

theorem readCreator_omitted (b r : List Char) (x : Char) (hx : x = DELIMITER ∨ x = PIPE_CHAR) :
    readCreator ⟨b, x :: r, false, false⟩ = .ok () ⟨b, x :: r, false, false⟩ := by
  simp only [readCreator, HasValue_cons]
  rcases hx with rfl | rfl <;> simp [DELIMITER, PIPE_CHAR]

theorem readCreator_delim (b xs r : List Char) (x : Char) (hx : ¬ (x = DELIMITER ∨ x = PIPE_CHAR))
    (hd : DELIMITER ∉ x :: xs) (hk : (x :: xs).length ≤ 127) :
    readCreator ⟨b, x :: xs ++ DELIMITER :: r, false, false⟩ =
      .ok () ⟨(x :: xs).reverse ++ b, DELIMITER :: r, false, false⟩ := by
  have hv : (x != DELIMITER && x != PIPE_CHAR) = true := by
    simp only [not_or] at hx
    simp [hx.1, hx.2]
  have hg := getline_delim DELIMITER b (x :: xs) r 128 hd (by simpa using hk)
  simp only [readCreator, List.cons_append, HasValue_cons, hv, if_true]
  simp only [List.cons_append] at hg
  rw [hg]
  simp [IStream.fail, IStream.unget]

theorem readCreator_long (b xs r : List Char) (x : Char) (hx : ¬ (x = DELIMITER ∨ x = PIPE_CHAR))
    (hd : DELIMITER ∉ x :: xs) (hk : 127 < (x :: xs).length) :
    readCreator ⟨b, x :: xs ++ DELIMITER :: r, false, false⟩ = .reject := by
  have hv : (x != DELIMITER && x != PIPE_CHAR) = true := by
    simp only [not_or] at hx
    simp [hx.1, hx.2]
  have hg := getline_long DELIMITER b (x :: xs) r 128 hd (by simpa using hk)
  simp only [readCreator, List.cons_append, HasValue_cons, hv, if_true]
  simp only [List.cons_append] at hg
  rw [hg]
  simp [IStream.fail]

theorem readCreator_eof (b xs : List Char) (x : Char) (hx : ¬ (x = DELIMITER ∨ x = PIPE_CHAR))
    (hd : DELIMITER ∉ x :: xs) (hk : (x :: xs).length ≤ 127) :
    ∃ c bf, (x :: xs).reverse = c :: bf ∧
      readCreator ⟨b, x :: xs, false, false⟩ = .ok () ⟨bf ++ b, [c], false, false⟩ := by
  have hv : (x != DELIMITER && x != PIPE_CHAR) = true := by
    simp only [not_or] at hx
    simp [hx.1, hx.2]
  have hg := getlineLoop_eof DELIMITER (x :: xs) 127 [] b hd hk
  simp only [readCreator, HasValue_cons, hv, if_true, IStream.getline, IStream.good]
  simp only [Bool.not_false, Bool.and_self, if_true, show 128 - 1 = 127 from rfl, hg]
  obtain ⟨c, bf, hr⟩ : ∃ c bf, (x :: xs).reverse = c :: bf := by
    cases h : (x :: xs).reverse with
    | nil => simp at h
    | cons c bf => exact ⟨c, bf, rfl⟩
  refine ⟨c, bf, hr, ?_⟩
  rw [hr]
  simp [IStream.fail, IStream.unget]

theorem readCreator_full (b xs : List Char) (x : Char) (hx : ¬ (x = DELIMITER ∨ x = PIPE_CHAR))
    (hd : DELIMITER ∉ x :: xs) (hk : 127 < (x :: xs).length) :
    readCreator ⟨b, x :: xs, false, false⟩ = .reject := by
  have hv : (x != DELIMITER && x != PIPE_CHAR) = true := by
    simp only [not_or] at hx
    simp [hx.1, hx.2]
  have hg := getlineLoop_full DELIMITER (x :: xs) 127 [] b hd hk
  simp only [readCreator, HasValue_cons, hv, if_true, IStream.getline, IStream.good]
  simp only [Bool.not_false, Bool.and_self, if_true, show 128 - 1 = 127 from rfl, hg]
  simp [IStream.fail]

theorem first_delim (l : List Char) :
    (∃ xs r, l = xs ++ DELIMITER :: r ∧ DELIMITER ∉ xs) ∨ DELIMITER ∉ l := by
  by_cases h : DELIMITER ∈ l
  · exact Or.inl (List.eq_append_cons_of_mem h)
  · exact Or.inr h

/-- The outcomes of `readCreator` on a good stream with a byte left, by the place of the
first delimiter. -/
theorem readCreator_cases (x : Char) (r : List Char) :
    (∀ b, readCreator ⟨b, x :: r, false, false⟩ = .reject) ∨
    ((x = DELIMITER ∨ x = PIPE_CHAR) ∧
      ∀ b, readCreator ⟨b, x :: r, false, false⟩ = .ok () ⟨b, x :: r, false, false⟩) ∨
    (∃ xs r1, r = xs ++ DELIMITER :: r1 ∧ DELIMITER ∉ x :: xs ∧
      ∀ b r2, readCreator ⟨b, x :: (xs ++ DELIMITER :: r2), false, false⟩ =
        .ok () ⟨(x :: xs).reverse ++ b, DELIMITER :: r2, false, false⟩) ∨
    (DELIMITER ∉ x :: r ∧ ∃ c bf,
      ∀ b, readCreator ⟨b, x :: r, false, false⟩ = .ok () ⟨bf ++ b, [c], false, false⟩) := by
  by_cases hx : x = DELIMITER ∨ x = PIPE_CHAR
  · exact Or.inr (Or.inl ⟨hx, fun b => readCreator_omitted b r x hx⟩)
  · rcases first_delim (x :: r) with ⟨xs, r1, hl, hn⟩ | hn
    · cases xs with
      | nil =>
        simp only [List.nil_append, List.cons.injEq] at hl
        exact absurd (Or.inl hl.1) hx
      | cons y xs =>
        simp only [List.cons_append, List.cons.injEq] at hl
        obtain ⟨rfl, rfl⟩ := hl
        by_cases hk : (x :: xs).length ≤ 127
        · exact Or.inr (Or.inr (Or.inl ⟨xs, r1, rfl, hn,
            fun b r2 => readCreator_delim b xs r2 x hx hn hk⟩))
        · exact Or.inl (fun b => readCreator_long b xs r1 x hx hn (by omega))
    · by_cases hk : (x :: r).length ≤ 127
      · obtain ⟨c, bf, hr, _⟩ := readCreator_eof [] r x hx hn hk
        refine Or.inr (Or.inr (Or.inr ⟨hn, c, bf, fun b => ?_⟩))
        obtain ⟨c', bf', hr', h'⟩ := readCreator_eof b r x hx hn hk
        rw [hr] at hr'
        simp only [List.cons.injEq] at hr'
        obtain ⟨rfl, rfl⟩ := hr'
        exact h'
      · exact Or.inl (fun b => readCreator_full b r x hx hn (by omega))

theorem readCreator_sim (s s' : IStream) (h : s.sim s') : (readCreator s).sim (readCreator s') := by
  obtain ⟨b, r, e, f⟩ := s
  obtain ⟨b', r', e', f'⟩ := s'
  obtain ⟨h1, h2, h3⟩ := h
  simp only at h1 h2 h3
  subst h1 h2 h3
  by_cases hg : e = false ∧ f = false
  · obtain ⟨rfl, rfl⟩ := hg
    cases r with
    | nil => rw [readCreator_nil, readCreator_nil]; trivial
    | cons x r =>
      rcases readCreator_cases x r with k | ⟨_, k⟩ | ⟨xs, r1, hr, _, k⟩ | ⟨_, c, bf, k⟩
      · rw [k, k]; trivial
      · rw [k, k]; exact ⟨rfl, rfl, rfl, rfl⟩
      · rw [hr, k, k]; exact ⟨rfl, rfl, rfl, rfl⟩
      · rw [k, k]; exact ⟨rfl, rfl, rfl, rfl⟩
  · have hg' : ∀ b, (IStream.mk b r e f).good = false := by
      intro b
      cases e <;> cases f <;> simp [IStream.good] at hg ⊢
    rw [readCreator_not_good _ (hg' b), readCreator_not_good _ (hg' b')]
    trivial

theorem readCreator_length (s s1 : IStream) (a : Unit) (h : readCreator s = .ok a s1) :
    s1.rest.length ≤ s.rest.length := by
  obtain ⟨b, r, e, f⟩ := s
  by_cases hg : e = false ∧ f = false
  · obtain ⟨rfl, rfl⟩ := hg
    cases r with
    | nil => rw [readCreator_nil] at h; exact absurd h (by simp)
    | cons x r =>
      rcases readCreator_cases x r with k | ⟨_, k⟩ | ⟨xs, r1, hr, _, k⟩ | ⟨_, c, bf, k⟩
      · rw [k] at h; exact absurd h (by simp)
      · rw [k] at h
        simp only [Res.ok.injEq] at h
        rw [← h.2]
      · rw [hr, k] at h
        simp only [Res.ok.injEq] at h
        rw [← h.2, hr]
        simp only [List.length_cons, List.length_append]
        omega
      · rw [k] at h
        simp only [Res.ok.injEq] at h
        rw [← h.2]
        simp
  · have hg' : (IStream.mk b r e f).good = false := by
      cases e <;> cases f <;> simp [IStream.good] at hg ⊢
    rw [readCreator_not_good _ hg'] at h
    exact absurd h (by simp)

theorem readCreator_before (d : Char) (r0 q : List Char) (s s' : IStream)
    (hq : Before d r0 q s s') (a : Unit) (s1 : IStream) (h : readCreator s = .ok a s1) :
    s1.rest.length < r0.length + 2 ∨
      ∃ s1' q1, readCreator s' = .ok a s1' ∧ Before d r0 q1 s1 s1' := by
  obtain ⟨e1, e2⟩ := hq.streams
  rw [e1] at h
  cases q with
  | nil =>
    left
    simp only [List.nil_append] at h
    rcases readCreator_cases '0' (d :: r0) with k | ⟨k0, _⟩ | ⟨xs, r1, hr, _, k⟩ | ⟨_, c, bf, k⟩
    · rw [k] at h; exact absurd h (by simp)
    · exact absurd k0 (by decide)
    · rw [hr, k] at h
      simp only [Res.ok.injEq] at h
      rw [← h.2]
      have hl := congrArg List.length hr
      simp only [List.length_cons, List.length_append] at hl ⊢
      omega
    · rw [k] at h
      simp only [Res.ok.injEq] at h
      rw [← h.2]
      simp
  | cons x q2 =>
    simp only [List.cons_append] at h
    rcases readCreator_cases x (q2 ++ '0' :: d :: r0) with
      k | ⟨k0, k⟩ | ⟨xs, r1, hr, hn, k⟩ | ⟨_, c, bf, k⟩
    · rw [k] at h; exact absurd h (by simp)
    · right
      rw [k] at h
      simp only [Res.ok.injEq] at h
      refine ⟨s', x :: q2, ?_, ?_⟩
      · rw [e2]
        simp only [List.cons_append]
        rw [readCreator_omitted _ _ _ k0]
      · rw [← h.2]
        exact ⟨rfl, rfl, hq.2.2.1, hq.2.2.2.1, rfl, hq.2.2.2.2.2⟩
    · rw [hr, k] at h
      simp only [Res.ok.injEq] at h
      rw [List.append_eq_append_iff] at hr
      rcases hr with ⟨a', h1, h2⟩ | ⟨c', h1, h2⟩
      · left
        rw [← h.2]
        cases a' with
        | nil =>
          simp only [List.nil_append, List.cons.injEq] at h2
          exact absurd h2.1 (by decide)
        | cons y a' =>
          simp only [List.cons_append, List.cons.injEq] at h2
          have hl := congrArg List.length h2.2
          simp only [List.length_cons, List.length_append] at hl ⊢
          omega
      · right
        cases c' with
        | nil =>
          simp only [List.nil_append, List.cons.injEq] at h2
          exact absurd h2.1 (by decide)
        | cons y c' =>
          simp only [List.cons_append, List.cons.injEq] at h2
          obtain ⟨rfl, rfl⟩ := h2
          subst h1
          refine ⟨⟨(x :: xs).reverse ++ s'.before, DELIMITER :: (c' ++ d :: r0), false, false⟩,
            DELIMITER :: c', ?_, ?_⟩
          · rw [e2]
            have := k s'.before (c' ++ d :: r0)
            simpa using this
          · rw [← h.2]
            exact ⟨rfl, rfl, rfl, rfl, rfl, rfl⟩
    · left
      rw [k] at h
      simp only [Res.ok.injEq] at h
      rw [← h.2]
      simp

theorem stage_readCreator (d : Char) (r0 : List Char) :
    Stage d r0 readCreator (fun _ => []) := by
  refine ⟨readCreator_sim, ?_, ?_⟩
  · intro s hs
    refine ⟨fun t ht => by simp at ht, ?_⟩
    intro a s1 h
    have := readCreator_length s s1 a h
    omega
  · intro s s' q hq
    exact Or.inr ⟨fun t ht => by simp at ht, fun a s1 h => readCreator_before d r0 q s s' hq a s1 h⟩

theorem optInt32_default {β : Type} (s : IStream) (x : Int) (K : IStream → Res β) :
    (optInt32 s x).andThen (fun _ s => K s) = (optInt32 s 0).andThen (fun _ s => K s) := by
  unfold optInt32
  split <;> rfl

theorem Res.andThen_congr {α β : Type} (r : Res α) {K K' : α → IStream → Res β}
    (h : ∀ a s, K a s = K' a s) : r.andThen K = r.andThen K' := by
  have e : K = K' := funext fun a => funext fun s => h a s
  rw [e]

theorem optInt32_default_of {β : Type} (s : IStream) (x : Int) (K : Int → IStream → Res β)
    (hK : ∀ a s, K a s = K 0 s) : (optInt32 s x).andThen K = (optInt32 s 0).andThen K := by
  have e : K = fun _ s => K 0 s := funext fun a => funext fun s => hK a s
  rw [e]
  exact optInt32_default s x (K 0)

/-- Sequencing after an optional number whose value the following calls do not use. -/
theorem Stage.bind_site_any {d : Char} {r0 : List Char} {β : Type} {x0 : Int}
    {K : Int → IStream → Res β} {KL : IStream → List IStream}
    (hd : d = DELIMITER ∨ d = PIPE_CHAR)
    (hind : ∀ a s, K a s = K 0 s) (hK : Stage d r0 (K 0) KL) :
    Stage d r0 (fun s => (optInt32 s x0).andThen K)
      (fun s => s :: sitesThen (optInt32 s 0) fun _ s => KL s) := by
  have h := Stage.bind_site (stage_optInt32 d r0 hd) (fun _ : Int => hK)
  refine Stage.congr (fun s => ?_) (fun _ => rfl) h
  have e : K = fun _ s => K 0 s := funext fun a => funext fun s => hind a s
  rw [e]
  exact (optInt32_default s x0 (K 0)).symm

theorem stage_readFixed (d : Char) (r0 : List Char) (hd : d = DELIMITER ∨ d = PIPE_CHAR)
    (item : ItemTemplate) :
    Stage d r0 (ItemChatLink.readFixed (ItemChatLink.new item)) (fixedSites 11) := by
  have key : ∃ L, Stage d r0 (ItemChatLink.readFixed (ItemChatLink.new item)) L ∧
      ∀ s, L s = fixedSites 11 s := by
    apply Exists.intro
    apply And.intro
    unfold ItemChatLink.readFixed
    apply Stage.bind_after (stage_CheckDelimiter d r0); intro _
    apply Stage.bind_site (stage_optInt32 d r0 hd); intro enchantId
    apply Stage.bind_after (stage_CheckDelimiter d r0); intro _
    apply Stage.bind_site (stage_optInt32 d r0 hd); intro gem0
    apply Stage.bind_after (stage_CheckDelimiter d r0); intro _
    apply Stage.bind_site (stage_optInt32 d r0 hd); intro gem1
    apply Stage.bind_after (stage_CheckDelimiter d r0); intro _
    apply Stage.bind_site (stage_optInt32 d r0 hd); intro gem2
    apply Stage.bind_after (stage_CheckDelimiter d r0); intro _
    apply Stage.bind_site_any hd
    · intro a s
      exact Res.andThen_congr _ (fun _ s => optInt32_default_of s a _
        (fun a s => Res.andThen_congr _ (fun _ s => optInt32_default s a _)))
    apply Stage.bind_after (stage_CheckDelimiter d r0); intro _
    apply Stage.bind_site_any hd
    · intro a s
      exact Res.andThen_congr _ (fun _ s => optInt32_default s a _)
    apply Stage.bind_after (stage_CheckDelimiter d r0); intro _
    apply Stage.bind_site (stage_optInt32 d r0 hd); intro _
    apply Stage.bind_after (stage_CheckDelimiter d r0); intro _
    apply Stage.bind_site (stage_optInt32 d r0 hd); intro reporterLevel
    apply Stage.bind_after (stage_CheckDelimiter d r0); intro _
    apply Stage.bind_site (stage_optInt32 d r0 hd); intro reporterSpec
    apply Stage.bind_after (stage_CheckDelimiter d r0); intro _
    apply Stage.bind_site (stage_optInt32 d r0 hd); intro _
    apply Stage.bind_after (stage_CheckDelimiter d r0); intro _
    apply Stage.bind_site (stage_optInt32 d r0 hd); intro context
    apply Stage.bind_after (stage_CheckDelimiter d r0); intro _
    exact Stage.pure d r0 _
    intro s
    rw [show (11 : Nat) = 0 + 1 + 1 + 1 + 1 + 1 + 1 + 1 + 1 + 1 + 1 + 1 from rfl]
    simp only [fixedSites, sitesThen_nil]
  obtain ⟨L, h1, h2⟩ := key
  exact Stage.congr (fun _ => rfl) h2 h1

/-- Sequencing where the following calls are treated only for the values the first call can
return. -/
theorem Stage.bind_ret {d : Char} {r0 : List Char} {α β : Type} {R : IStream → Res α}
    {RL : IStream → List IStream} {K : α → IStream → Res β} {KL : α → IStream → List IStream}
    (P : α → Prop) (hP : ∀ s a s1, R s = .ok a s1 → P a)
    (hR : Stage d r0 R RL) (hK : ∀ a, P a → Stage d r0 (K a) (KL a)) :
    Stage d r0 (fun s => (R s).andThen K) (fun s => RL s ++ sitesThen (R s) KL) := by
  classical
  have h := @Stage.bind d r0 α β R RL (fun a s => if P a then K a s else .reject)
    (fun a s => if P a then KL a s else []) hR
    (fun a => by
      by_cases hp : P a
      · simp only [hp, if_true]
        exact hK a hp
      · simp only [hp, if_false]
        exact Stage.reject d r0)
  refine Stage.congr (fun s => ?_) (fun s => ?_) h
  · cases hr : R s with
    | ok a s1 => simp only [Res.andThen, if_pos (hP s a s1 hr)]
    | reject => rfl
    | diverge => rfl
    | undefined => rfl
  · cases hr : R s with
    | ok a s1 => simp only [sitesThen, if_pos (hP s a s1 hr)]
    | reject => rfl
    | diverge => rfl
    | undefined => rfl

theorem Stage.ite_plain {d : Char} {r0 : List Char} {α : Type} {R R' : IStream → Res α}
    (c : Prop) [Decidable c]
    (h1 : Stage d r0 R (fun _ => [])) (h2 : Stage d r0 R' (fun _ => [])) :
    Stage d r0 (fun s => if c then R s else R' s) (fun _ => []) := by
  by_cases hc : c
  · simp only [hc, if_true]
    exact h1
  · simp only [hc, if_false]
    exact h2

/-- A call followed by a computation on its value only. -/
theorem Stage.map {d : Char} {r0 : List Char} {α β : Type} {R : IStream → Res α}
    {L : IStream → List IStream} (f : α → β) (h : Stage d r0 R L) :
    Stage d r0 (fun s => (R s).andThen fun a s => .ok (f a) s) L :=
  Stage.congr (fun _ => rfl) (fun s => by simp [sitesThen_nil])
    (Stage.bind h (fun a => Stage.pure d r0 (f a)))

theorem stage_readBonusListIDs (d : Char) (r0 : List Char) (hd : d = DELIMITER ∨ d = PIPE_CHAR)
    (w : World) : ∀ n, Stage d r0 (readBonusListIDs w n) (fun _ => []) := by
  have h0 : digitVal 10 d = none := by
    rcases hd with rfl | rfl <;> decide
  intro n
  induction n with
  | zero => exact Stage.congr (fun s => by rw [readBonusListIDs]) (fun _ => rfl) (Stage.pure d r0 [])
  | succ n ih =>
    have e : readBonusListIDs w (n + 1) = fun s =>
        (CheckDelimiter s DELIMITER).andThen fun _ s =>
        (ReadInt32 s).andThen fun id s =>
        if w.GetItemBonusList id then
          (readBonusListIDs w n s).andThen fun ids s => .ok (id :: ids) s
        else .reject := by
      funext s
      rw [readBonusListIDs]
    rw [e]
    apply Stage.bind_plain (stage_CheckDelimiter d r0); intro _
    apply Stage.bind_plain (stage_ReadInt32 d r0 h0); intro id
    exact Stage.ite_plain _ (Stage.map _ ih) (Stage.reject d r0)

theorem stage_readModifiers (d : Char) (r0 : List Char) (hd : d = DELIMITER ∨ d = PIPE_CHAR)
    (w : World) : ∀ n, Stage d r0 (readModifiers w n) (fun _ => []) := by
  have h0 : digitVal 10 d = none := by
    rcases hd with rfl | rfl <;> decide
  intro n
  induction n with
  | zero => exact Stage.congr (fun s => by rw [readModifiers]) (fun _ => rfl) (Stage.pure d r0 [])
  | succ n ih =>
    have e : readModifiers w (n + 1) = fun s =>
        (CheckDelimiter s DELIMITER).andThen fun _ s =>
        (ReadInt32 s).andThen fun type s =>
        if type > (w.MAX_ITEM_MODIFIERS : Int) then .reject else
        (CheckDelimiter s DELIMITER).andThen fun _ s =>
        (ReadInt32 s).andThen fun id s =>
        (readModifiers w n s).andThen fun ms s => .ok ((type, id) :: ms) s := by
      funext s
      rw [readModifiers]
    rw [e]
    apply Stage.bind_plain (stage_CheckDelimiter d r0); intro _
    apply Stage.bind_plain (stage_ReadInt32 d r0 h0); intro type
    apply Stage.ite_plain _ (Stage.reject d r0)
    apply Stage.bind_plain (stage_CheckDelimiter d r0); intro _
    apply Stage.bind_plain (stage_ReadInt32 d r0 h0); intro id
    exact Stage.map _ ih

/-- An optional count followed by calls that test no numeric field. -/
theorem stage_counted (d : Char) (r0 : List Char) (hd : d = DELIMITER ∨ d = PIPE_CHAR)
    {α : Type} (R : Nat → IStream → Res α) (hR : ∀ n, Stage d r0 (R n) (fun _ => [])) :
    Stage d r0 (fun s => (optUInt32 s 0).andThen R) (fun s => [s]) :=
  Stage.congr (fun _ => rfl) (fun s => by simp [sitesThen_nil])
    (Stage.bind_site (stage_optUInt32 d r0 hd) hR)

theorem stage_readCountedBonusList (d : Char) (r0 : List Char)
    (hd : d = DELIMITER ∨ d = PIPE_CHAR) (w : World) :
    Stage d r0 (readCountedBonusList w) (fun s => [s]) := by
  unfold readCountedBonusList
  exact stage_counted d r0 hd _
    (fun n => Stage.ite_plain _ (Stage.reject d r0) (stage_readBonusListIDs d r0 hd w n))

theorem stage_readGemBonusLists (d : Char) (r0 : List Char) (hd : d = DELIMITER ∨ d = PIPE_CHAR)
    (w : World) : ∀ n, Stage d r0 (readGemBonusLists w n) (readGemBonusListsSites w n) := by
  intro n
  induction n with
  | zero =>
    exact Stage.congr (fun s => by rw [readGemBonusLists]) (fun s => by rw [readGemBonusListsSites])
      (Stage.pure d r0 [])
  | succ n ih =>
    have e1 : readGemBonusLists w (n + 1) = fun s =>
        (CheckDelimiter s DELIMITER).andThen fun _ s =>
        (readCountedBonusList w s).andThen fun ids s =>
        (readGemBonusLists w n s).andThen fun rest s => .ok (ids :: rest) s := by
      funext s
      rw [readGemBonusLists]
    have e2 : readGemBonusListsSites w (n + 1) = fun s =>
        sitesThen (CheckDelimiter s DELIMITER) fun _ s =>
        s :: sitesThen (readCountedBonusList w s) fun _ s => readGemBonusListsSites w n s := by
      funext s
      rw [readGemBonusListsSites]
    rw [e1, e2]
    apply Stage.bind_after (stage_CheckDelimiter d r0); intro _
    apply Stage.bind_site (stage_readCountedBonusList d r0 hd w); intro ids
    exact Stage.map _ ih

theorem stage_readModifierList (d : Char) (r0 : List Char) (hd : d = DELIMITER ∨ d = PIPE_CHAR)
    (w : World) :
    Stage d r0 (ItemChatLink.readModifierList w) ItemChatLink.readModifierListSites := by
  unfold ItemChatLink.readModifierList ItemChatLink.readModifierListSites
  apply Stage.bind_after (stage_CheckDelimiter d r0); intro _
  exact stage_counted d r0 hd _
    (fun n => Stage.ite_plain _ (Stage.reject d r0) (stage_readModifiers d r0 hd w n))

theorem stage_readTail (d : Char) (r0 : List Char) (hd : d = DELIMITER ∨ d = PIPE_CHAR)
    (l : ItemChatLink) (hl : l.useEnchantId = 0) :
    Stage d r0 (ItemChatLink.readTail l) ItemChatLink.readTailSites := by
  unfold ItemChatLink.readTail ItemChatLink.readTailSites
  rw [hl]
  apply Stage.bind_after (stage_CheckDelimiter d r0); intro _
  apply Stage.bind_after (stage_readCreator d r0); intro _
  apply Stage.bind_after (stage_CheckDelimiter d r0); intro _
  exact Stage.congr (fun _ => rfl) (fun s => by simp [sitesThen_nil])
    (Stage.bind_site (stage_optInt32 d r0 hd) (fun u => Stage.pure d r0 _))

theorem Res.andThen_ok_inv {α β : Type} {r : Res α} {K : α → IStream → Res β} {b : β}
    {s1 : IStream} (h : r.andThen K = .ok b s1) : ∃ a s, K a s = .ok b s1 := by
  obtain ⟨a, s, _, hk⟩ := (Res.andThen_eq_ok r K b s1).1 h
  exact ⟨a, s, hk⟩

theorem ItemChatLink.readFixed_useEnchantId (l l1 : ItemChatLink) (s s1 : IStream)
    (h : ItemChatLink.readFixed l s = .ok l1 s1) : l1.useEnchantId = l.useEnchantId := by
  unfold ItemChatLink.readFixed at h
  iterate 23 (obtain ⟨_, _, h⟩ := Res.andThen_ok_inv h)
  simp only [Res.ok.injEq] at h
  rw [← h.1]

theorem stage_readFields (d : Char) (r0 : List Char) (hd : d = DELIMITER ∨ d = PIPE_CHAR)
    (w : World) (item : ItemTemplate) :
    Stage d r0 (ItemChatLink.readFields w item) (ItemChatLink.readFieldsSites w item) := by
  unfold ItemChatLink.readFields ItemChatLink.readFieldsSites
  apply Stage.bind_ret (fun l => l.useEnchantId = 0)
    (fun s a s1 h => ItemChatLink.readFixed_useEnchantId _ a s s1 h)
    (stage_readFixed d r0 hd item)
  intro l hl
  apply Stage.bind (stage_readCountedBonusList d r0 hd w); intro bonusListIDs
  apply Stage.bind (stage_readModifierList d r0 hd w); intro modifiers
  apply Stage.bind (stage_readGemBonusLists d r0 hd w _); intro gemBonusListIDs
  exact stage_readTail d r0 hd _ hl

theorem stage_Initialize (d : Char) (r0 : List Char) (hd : d = DELIMITER ∨ d = PIPE_CHAR)
    (w : World) (color : Nat) :
    Stage d r0 (ItemChatLink.Initialize w color) (ItemChatLink.numericSites w color) := by
  have h0 : digitVal 10 d = none := by
    rcases hd with rfl | rfl <;> decide
  unfold ItemChatLink.Initialize ItemChatLink.numericSites
  apply Stage.bind_after (stage_ReadUInt32 d r0 h0); intro itemEntry
  generalize w.GetItemTemplate itemEntry = o
  cases o with
  | none => exact Stage.reject d r0
  | some item =>
    by_cases hc : color ≠ w.ItemQualityColors (ItemChatLink.colorQuality w item)
    · simp only [if_pos hc]
      exact Stage.reject d r0
    · simp only [if_neg hc]
      exact stage_readFields d r0 hd w item

/-- An item id followed by 18 empty fields and the closing separator parses to the record
with every number zero and every list empty (one empty list per gem socket). -/
theorem ItemChatLink.Initialize_empty_fields (w : World) (color : Nat) (b ds r : List Char)
    (id : Nat) (item : ItemTemplate)
    (hid : digitsValue 10 ds = some id) (hid32 : id ≤ 4294967295)
    (hitem : w.GetItemTemplate id = some item)
    (hcolor : color = w.ItemQualityColors (ItemChatLink.colorQuality w item))
    (hsock : w.MAX_ITEM_PROTO_SOCKETS = 3) :
    ItemChatLink.Initialize w color ⟨b, ds ++ (List.replicate 18 ':' ++ '|' :: r), false, false⟩ =
      .ok { ItemChatLink.new item with gemBonusListIDs := [[], [], []] }
        ⟨List.replicate 18 ':' ++ (ds.reverse ++ b), '|' :: r, false, false⟩ := by
  have hne : ds ≠ [] := by
    rintro rfl
    simp [digitsValue] at hid
  simp only [digitsValue, hne, if_false] at hid
  have cd : ∀ b r, CheckDelimiter ⟨b, ':' :: r, false, false⟩ DELIMITER =
      .ok () ⟨':' :: b, r, false, false⟩ := fun b r => CheckDelimiter_cons b r ':'
  have oi : ∀ (b r : List Char) (x0 : Int), optInt32 ⟨b, ':' :: r, false, false⟩ x0 =
      .ok x0 ⟨b, ':' :: r, false, false⟩ := fun b r x0 => optInt32_omitted ':' b r x0 (Or.inl rfl)
  have oip : ∀ (b r : List Char) (x0 : Int), optInt32 ⟨b, '|' :: r, false, false⟩ x0 =
      .ok x0 ⟨b, '|' :: r, false, false⟩ := fun b r x0 => optInt32_omitted '|' b r x0 (Or.inr rfl)
  have ou : ∀ (b r : List Char) (x0 : Nat), optUInt32 ⟨b, ':' :: r, false, false⟩ x0 =
      .ok x0 ⟨b, ':' :: r, false, false⟩ := fun b r x0 => optUInt32_omitted ':' b r x0 (Or.inl rfl)
  have rc : ∀ (b r : List Char), readCreator ⟨b, ':' :: r, false, false⟩ =
      .ok () ⟨b, ':' :: r, false, false⟩ := fun b r => readCreator_omitted b r ':' (Or.inl rfl)
  have hread := ReadUInt32_digits b ds (List.replicate 17 ':' ++ '|' :: r) ':' id hne hid
    (by decide) hid32
  have e18 : List.replicate 18 ':' ++ '|' :: r = ':' :: (List.replicate 17 ':' ++ '|' :: r) := rfl
  subst hcolor
  rw [e18]
  unfold ItemChatLink.Initialize
  rw [hread]
  simp only [Res.andThen, hitem, ne_eq, not_true_eq_false, if_false]
  simp only [Res.andThen,
    ItemChatLink.readFields, ItemChatLink.readFixed, List.replicate, List.cons_append,
    List.nil_append, cd, oi, oip, ou, rc, readCountedBonusList, readBonusListIDs,
    ItemChatLink.readModifierList, readModifiers, hsock, readGemBonusLists, ItemChatLink.readTail,
    gt_iff_lt, Nat.not_lt_zero, ItemChatLink.new, List.getD_cons_zero, List.getD_cons_succ,
    if_false]

theorem Res.sim_cases {α : Type} {r r' : Res α} (h : r.sim r') :
    (∃ a s s', r = .ok a s ∧ r' = .ok a s' ∧ s.sim s') ∨ (r' = r ∧ ∀ a s, r ≠ .ok a s) := by
  cases r with
  | ok a s =>
    obtain ⟨s', rfl, hs⟩ := Res.sim_ok_left h
    exact Or.inl ⟨a, s, s', rfl, rfl, hs⟩
  | reject => exact Or.inr ⟨Res.sim_not_ok h (by simp), by simp⟩
  | diverge => exact Or.inr ⟨Res.sim_not_ok h (by simp), by simp⟩
  | undefined => exact Or.inr ⟨Res.sim_not_ok h (by simp), by simp⟩

/-- On the item 124382 followed by 18 empty fields, `HasValue(iss)` is tested for a number
17 times: every field but the creator. -/
theorem ItemChatLink.numericSites_empty_fields :
    (ItemChatLink.numericSites demoWorld 0xffa335ee
      ⟨[], "124382::::::::::::::::::|h".toList, false, false⟩).length = 17 := by
  decide

/-- C23: compaction of the item fields preserves the value. If, while parsing an input,
`ItemChatLink::Initialize` tests `HasValue(iss)` for a number (one of the eleven fields from
the enchant id to the context, the bonus-list, modifiers or gem bonus-list counts, the
use-enchant id) with the cursor on a `0` that is followed by `:` or `|`, then on the input
without that `0` it has the same outcome: both calls return `true` with the same parsed
record and the same remaining input, or both fail in the same way. And an item id followed
by 18 empty fields and `|` is parsed, with every number zero and every list empty. -/
theorem ItemChatLink.Initialize_compaction (w : World) (color : Nat) :
    (∀ (b b' pre r : List Char) (d : Char), (d = DELIMITER ∨ d = PIPE_CHAR) →
      (∃ t ∈ ItemChatLink.numericSites w color ⟨b, pre ++ '0' :: d :: r, false, false⟩,
        t.rest = '0' :: d :: r) →
      ((∃ l s1 s2,
          ItemChatLink.Initialize w color ⟨b, pre ++ '0' :: d :: r, false, false⟩ = .ok l s1 ∧
          ItemChatLink.Initialize w color ⟨b', pre ++ d :: r, false, false⟩ = .ok l s2 ∧
          s1.sim s2) ∨
        (ItemChatLink.Initialize w color ⟨b', pre ++ d :: r, false, false⟩ =
            ItemChatLink.Initialize w color ⟨b, pre ++ '0' :: d :: r, false, false⟩ ∧
          ∀ l s1,
            ItemChatLink.Initialize w color ⟨b, pre ++ '0' :: d :: r, false, false⟩ ≠ .ok l s1))) ∧
    (∀ (b ds r : List Char) (id : Nat) (item : ItemTemplate),
      digitsValue 10 ds = some id → id ≤ 4294967295 → w.GetItemTemplate id = some item →
      color = w.ItemQualityColors (ItemChatLink.colorQuality w item) →
      w.MAX_ITEM_PROTO_SOCKETS = 3 →
      ItemChatLink.Initialize w color
          ⟨b, ds ++ (List.replicate 18 ':' ++ '|' :: r), false, false⟩ =
        .ok { ItemChatLink.new item with gemBonusListIDs := [[], [], []] }
          ⟨List.replicate 18 ':' ++ (ds.reverse ++ b), '|' :: r, false, false⟩) := by
  refine ⟨?_, ?_⟩
  · intro b b' pre r d hd ⟨t, ht, hr⟩
    have hq : Before d r pre ⟨b, pre ++ '0' :: d :: r, false, false⟩
        ⟨b', pre ++ d :: r, false, false⟩ := ⟨rfl, rfl, rfl, rfl, rfl, rfl⟩
    rcases (stage_Initialize d r hd w color).2.2 _ _ pre hq with h | ⟨h, _⟩
    · exact Res.sim_cases h
    · exact absurd (by rw [hr]; simp) (h t ht)
  · intro b ds r id item hid hid32 hitem hcolor hsock
    exact ItemChatLink.Initialize_empty_fields w color b ds r id item hid hid32 hitem hcolor hsock

/-- The epic item 124382: the enchant id written `0` and left empty give the same record,
and the 18 empty fields are parsed. -/
theorem ItemChatLink.Initialize_compaction_witness :
    ((∃ l s1 s2,
        ItemChatLink.Initialize demoWorld 0xffa335ee
          ⟨[], "124382:".toList ++ '0' :: ':' :: ":::::::::::::::::|h".toList, false, false⟩ =
            .ok l s1 ∧
        ItemChatLink.Initialize demoWorld 0xffa335ee
          ⟨[], "124382:".toList ++ ':' :: ":::::::::::::::::|h".toList, false, false⟩ = .ok l s2 ∧
        s1.sim s2) ∨
      (ItemChatLink.Initialize demoWorld 0xffa335ee
          ⟨[], "124382:".toList ++ ':' :: ":::::::::::::::::|h".toList, false, false⟩ =
        ItemChatLink.Initialize demoWorld 0xffa335ee
          ⟨[], "124382:".toList ++ '0' :: ':' :: ":::::::::::::::::|h".toList, false, false⟩ ∧
        ∀ l s1,
          ItemChatLink.Initialize demoWorld 0xffa335ee
            ⟨[], "124382:".toList ++ '0' :: ':' :: ":::::::::::::::::|h".toList, false, false⟩ ≠
              .ok l s1)) ∧
    ItemChatLink.Initialize demoWorld 0xffa335ee
        ⟨[], "124382".toList ++ (List.replicate 18 ':' ++ '|' :: "h".toList), false, false⟩ =
      .ok { ItemChatLink.new itemEdict with gemBonusListIDs := [[], [], []] }
        ⟨List.replicate 18 ':' ++ ("124382".toList.reverse ++ []), '|' :: "h".toList, false, false⟩ := by
  have hm : (⟨"124382:".toList.reverse, '0' :: ':' :: ":::::::::::::::::|h".toList, false, false⟩ :
      IStream) ∈ ItemChatLink.numericSites demoWorld 0xffa335ee
        ⟨[], "124382:".toList ++ '0' :: ':' :: ":::::::::::::::::|h".toList, false, false⟩ := by
    decide
  have h1 := (ItemChatLink.Initialize_compaction demoWorld 0xffa335ee).1 [] [] "124382:".toList
    ":::::::::::::::::|h".toList ':' (Or.inl rfl) ⟨_, hm, rfl⟩
  have h2 := (ItemChatLink.Initialize_compaction demoWorld 0xffa335ee).2 [] "124382".toList
    "h".toList 124382 itemEdict (by decide) (by decide) rfl (by decide) rfl
  exact ⟨h1, h2⟩

theorem Run.of_res {α : Type} (r : Res α) (t : IStream) : (Run.of r t).res = r := by
  cases r <;> rfl

theorem Run.andThen_res {α β : Type} (r : Run α) (f : α → IStream → Run β) :
    (r.andThen f).res = r.res.andThen fun a s => (f a s).res := by
  unfold Run.andThen Res.andThen
  cases r.res <;> rfl

theorem readProgressRun_res : ∀ (n : Nat) (s : IStream),
    (readProgressRun n s).res = readProgress n s := by
  intro n
  induction n with
  | zero => intro s; rfl
  | succ n ih =>
    intro s
    simp only [readProgressRun, readProgress, Run.andThen_res, CheckDelimiterRun, ReadUInt32Run,
      Run.of_res, ih]

theorem SpellChatLink.InitializeRun_res_spell (w : World) (color : Nat) (s : IStream) :
    (SpellChatLink.InitializeRun w color s).res = SpellChatLink.Initialize w color s := by
  unfold SpellChatLink.InitializeRun SpellChatLink.Initialize
  split
  · rfl
  · simp only [Run.andThen_res, ReadUInt32Run, Run.of_res]
    refine Res.andThen_congr _ (fun a s => ?_)
    generalize w.GetSpellInfo a = o
    cases o <;> rfl

theorem AchievementChatLink.InitializeRun_res_achievement (w : World) (color : Nat) (s : IStream) :
    (AchievementChatLink.InitializeRun w color s).res = AchievementChatLink.Initialize w color s := by
  unfold AchievementChatLink.InitializeRun AchievementChatLink.Initialize
  split
  · rfl
  · simp only [Run.andThen_res, ReadUInt32Run, Run.of_res]
    refine Res.andThen_congr _ (fun a s => ?_)
    generalize w.AchievementLookup a = o
    cases o with
    | none => rfl
    | some x =>
      simp only [Run.andThen_res, CheckDelimiterRun, ReadHexRun, Run.of_res, readProgressRun_res]

theorem TradeChatLink.InitializeRun_res_trade (w : World) (fuel color : Nat) (s : IStream) :
    (TradeChatLink.InitializeRun w fuel color s).res = TradeChatLink.Initialize w fuel color s := by
  unfold TradeChatLink.InitializeRun TradeChatLink.Initialize
  split
  · rfl
  · simp only [Run.andThen_res, ReadUInt32Run, Run.of_res]
    refine Res.andThen_congr _ (fun a s => ?_)
    generalize w.GetSpellInfo a = o
    cases o with
    | none => rfl
    | some x =>
      simp only [Run.andThen_res, CheckDelimiterRun, ReadInt32Run, ReadHexRun, ReadSkipRun,
        Run.of_res]

theorem TalentChatLink.InitializeRun_res_talent (w : World) (color : Nat) (s : IStream) :
    (TalentChatLink.InitializeRun w color s).res = TalentChatLink.Initialize w color s := by
  unfold TalentChatLink.InitializeRun TalentChatLink.Initialize
  split
  · rfl
  · simp only [Run.andThen_res, ReadUInt32Run, Run.of_res]
    refine Res.andThen_congr _ (fun a s => ?_)
    generalize w.TalentLookup a = o
    cases o with
    | none => rfl
    | some x =>
      simp only
      generalize w.GetSpellInfo x.SpellID = o2
      cases o2 with
      | none => rfl
      | some y => simp only [Run.andThen_res, CheckDelimiterRun, ReadInt32Run, Run.of_res]

theorem EnchantmentChatLink.InitializeRun_res_enchantment (w : World) (color : Nat) (s : IStream) :
    (EnchantmentChatLink.InitializeRun w color s).res = EnchantmentChatLink.Initialize w color s := by
  unfold EnchantmentChatLink.InitializeRun EnchantmentChatLink.Initialize
  split
  · rfl
  · simp only [Run.andThen_res, ReadUInt32Run, Run.of_res]
    refine Res.andThen_congr _ (fun a s => ?_)
    generalize w.GetSpellInfo a = o
    cases o <;> rfl

theorem GlyphChatLink.InitializeRun_res_glyph (w : World) (color : Nat) (s : IStream) :
    (GlyphChatLink.InitializeRun w color s).res = GlyphChatLink.Initialize w color s := by
  unfold GlyphChatLink.InitializeRun GlyphChatLink.Initialize
  split
  · rfl
  · simp only [Run.andThen_res, ReadUInt32Run, CheckDelimiterRun, Run.of_res]
    refine Res.andThen_congr _ (fun a s => Res.andThen_congr _ (fun _ s =>
      Res.andThen_congr _ (fun g s => ?_)))
    generalize w.GlyphPropertiesLookup g = o
    cases o with
    | none => rfl
    | some x =>
      simp only
      generalize w.GetSpellInfo x.SpellID = o2
      cases o2 <;> rfl

/-- With the right colour the spell decoder reads the id before it returns `false` on an id
that does not resolve: the stream is left after the digits. -/
theorem SpellChatLink.InitializeRun_reads_id :
    SpellChatLink.InitializeRun demoWorld 0xff71d5ff ⟨[], "99999|".toList, false, false⟩ =
      ⟨.reject, ⟨"99999".toList.reverse, "|".toList, false, false⟩⟩ := by
  rfl

/-- C4: the spell, achievement, trade, talent, enchantment and glyph decoders return
`false` whenever the stated colour differs from the class constant, for every stream state
and every content of the stores (and, for trade, every fuel), and they return before reading
anything: the stream is left exactly as the decoder found it. The decoders followed with
the stream they leave return what `Initialize` returns. -/
theorem decoders_reject_wrong_color (w : World) (color : Nat) (fuel : Nat) (s : IStream) :
    (color ≠ w.CHAT_LINK_COLOR_SPELL →
      SpellChatLink.Initialize w color s = .reject ∧
      SpellChatLink.InitializeRun w color s = ⟨.reject, s⟩) ∧
    (color ≠ w.CHAT_LINK_COLOR_ACHIEVEMENT →
      AchievementChatLink.Initialize w color s = .reject ∧
      AchievementChatLink.InitializeRun w color s = ⟨.reject, s⟩) ∧
    (color ≠ w.CHAT_LINK_COLOR_TRADE →
      TradeChatLink.Initialize w fuel color s = .reject ∧
      TradeChatLink.InitializeRun w fuel color s = ⟨.reject, s⟩) ∧
    (color ≠ w.CHAT_LINK_COLOR_TALENT →
      TalentChatLink.Initialize w color s = .reject ∧
      TalentChatLink.InitializeRun w color s = ⟨.reject, s⟩) ∧
    (color ≠ w.CHAT_LINK_COLOR_ENCHANT →
      EnchantmentChatLink.Initialize w color s = .reject ∧
      EnchantmentChatLink.InitializeRun w color s = ⟨.reject, s⟩) ∧
    (color ≠ w.CHAT_LINK_COLOR_GLYPH →
      GlyphChatLink.Initialize w color s = .reject ∧
      GlyphChatLink.InitializeRun w color s = ⟨.reject, s⟩) ∧
    ((SpellChatLink.InitializeRun w color s).res = SpellChatLink.Initialize w color s ∧
      (AchievementChatLink.InitializeRun w color s).res = AchievementChatLink.Initialize w color s ∧
      (TradeChatLink.InitializeRun w fuel color s).res = TradeChatLink.Initialize w fuel color s ∧
      (TalentChatLink.InitializeRun w color s).res = TalentChatLink.Initialize w color s ∧
      (EnchantmentChatLink.InitializeRun w color s).res = EnchantmentChatLink.Initialize w color s ∧
      (GlyphChatLink.InitializeRun w color s).res = GlyphChatLink.Initialize w color s) := by
  refine ⟨?_, ?_, ?_, ?_, ?_, ?_, ?_⟩
  · intro h
    exact ⟨by simp [SpellChatLink.Initialize, h], by simp [SpellChatLink.InitializeRun, h]⟩
  · intro h
    exact ⟨by simp [AchievementChatLink.Initialize, h],
      by simp [AchievementChatLink.InitializeRun, h]⟩
  · intro h
    exact ⟨by simp [TradeChatLink.Initialize, h], by simp [TradeChatLink.InitializeRun, h]⟩
  · intro h
    exact ⟨by simp [TalentChatLink.Initialize, h], by simp [TalentChatLink.InitializeRun, h]⟩
  · intro h
    exact ⟨by simp [EnchantmentChatLink.Initialize, h],
      by simp [EnchantmentChatLink.InitializeRun, h]⟩
  · intro h
    exact ⟨by simp [GlyphChatLink.Initialize, h], by simp [GlyphChatLink.InitializeRun, h]⟩
  · exact ⟨SpellChatLink.InitializeRun_res_spell w color s,
      AchievementChatLink.InitializeRun_res_achievement w color s,
      TradeChatLink.InitializeRun_res_trade w fuel color s,
      TalentChatLink.InitializeRun_res_talent w color s,
      EnchantmentChatLink.InitializeRun_res_enchantment w color s,
      GlyphChatLink.InitializeRun_res_glyph w color s⟩

/-- A spell link stated in white and an enchantment link stated in the spell colour are
rejected with the stream untouched. -/
theorem decoders_reject_wrong_color_witness :
    (SpellChatLink.Initialize demoWorld 0xffffffff ⟨[], "21563|".toList, false, false⟩ = .reject ∧
      SpellChatLink.InitializeRun demoWorld 0xffffffff ⟨[], "21563|".toList, false, false⟩ =
        ⟨.reject, ⟨[], "21563|".toList, false, false⟩⟩) ∧
    (EnchantmentChatLink.Initialize demoWorld 0xff71d5ff ⟨[], "3919|".toList, false, false⟩ =
        .reject ∧
      EnchantmentChatLink.InitializeRun demoWorld 0xff71d5ff ⟨[], "3919|".toList, false, false⟩ =
        ⟨.reject, ⟨[], "3919|".toList, false, false⟩⟩) :=
  ⟨(decoders_reject_wrong_color demoWorld 0xffffffff 0 ⟨[], "21563|".toList, false, false⟩).1
      (by decide),
   (decoders_reject_wrong_color demoWorld 0xff71d5ff 0 ⟨[], "3919|".toList, false, false⟩).2.2.2.2.1
      (by decide)⟩

/-- C6 (fails on the code): the spell id 99999 does not resolve and the link
`|cff71d5ff|Hspell:99999|h[Edict of Argus]|h|r` alone is rejected, but the message made of an
item link that stops in its creator string followed by this link is accepted: the creator
string is read by `getline` up to the next `:`, across the separators, so the spell decoder
is never called. -/
theorem IsValidMessage_unresolved_spell_link_accepted :
    demoWorld.GetSpellInfo 99999 = none ∧
    verdict (IsValidMessage demoWorld 20
      "|cff71d5ff|Hspell:99999|h[Edict of Argus]|h|r".toList) = some false ∧
    verdict (IsValidMessage demoWorld 20
      ("|cffa335ee|Hitem:124382:::::::::::::::::abc".toList ++
        "|cff71d5ff|Hspell:99999|h[Edict of Argus]|h|r".toList)) = some true ∧
    linkSpans (IsValidMessage demoWorld 20
      ("|cffa335ee|Hitem:124382:::::::::::::::::abc".toList ++
        "|cff71d5ff|Hspell:99999|h[Edict of Argus]|h|r".toList)) = some [(0, 88)] := by
  refine ⟨rfl, ?_, ?_, ?_⟩ <;> decide

/-- C13 (fails on the code): inside the sequence of an item link, after `|c` and before
`|r`, the escaped separator `||` and the commands `|z|q`, which are not letters of the
cycle, are accepted when they stand in the creator string, which `getline` reads up to the
next `:` across the separators; the scan runs the commands `c H h h r` only. -/
theorem IsValidMessage_separators_inside_sequence_accepted :
    verdict (IsValidMessage demoWorld 20
      ("|cffa335ee|Hitem:124382:::::::::::::::::abc".toList ++ "||".toList ++
        ":|h[Edict of Argus]|h|r".toList)) = some true ∧
    verdict (IsValidMessage demoWorld 20
      ("|cffa335ee|Hitem:124382:::::::::::::::::abc".toList ++ "|z|q".toList ++
        ":|h[Edict of Argus]|h|r".toList)) = some true ∧
    commandLetters demoWorld 20 (initScan (IStream.ofCStr
      ("|cffa335ee|Hitem:124382:::::::::::::::::abc".toList ++ "|z|q".toList ++
        ":|h[Edict of Argus]|h|r".toList))) = "cHhhr".toList := by
  refine ⟨?_, ?_, ?_⟩ <;> decide

end ChatLink
